import Mathlib

/-!
# Fog: polynomial solver, zone allocator and gradient model

A shallow embedding of the quadratic, cubic and quartic root solvers and of
their interval-filtered variants (`Fog/Core/Math/Solve.cpp`), of
`ZoneAllocator::alloc` (`Fog/Core/Memory/ZoneAllocator_p.h`) and of the
gradient operations (`Fog/G2d/Source/Gradient.cpp`), followed by theorems
about them.

Conventions of the embedding of the solver.

* The arithmetic type `α` is any linearly ordered field: the C++ `double`
  computations are read in exact arithmetic, and `NumT(...)` is the identity
  (the `double` instantiation of the templates).  Decimal literals are
  written as fractions (`0.5` is `1 / 2`, `0.25` is `1 / 4`, `0.75` is `3 / 4`).
* A C array seen through a pointer is a `Buf α`, a function from indices to
  values; `func + 1` is `Buf.shift func 1`; a store `dst[i] = v` is
  `Buf.set dst i v`.  A solver takes the destination buffer as it is before
  the call and returns the count together with the buffer after the call.
* `Math::solve(dst, func, MATH_SOLVE_*)` dispatches through the table filled
  by `Math_init_solve` to the `MathT_solve_*` function of the same degree.
* Division is the division of the field (`x / 0 = 0`); in the source a zero
  divisor can only be reached in `MathT_solve_Quartic` when `func[0]` is
  exactly zero.
* The quadratic and the cubic solver are embedded a second time, in the
  namespace `Double`, over an arithmetic `FpArith` of which nothing is
  assumed: what is proved of these definitions holds of the values the code
  computes in `double`, rounding included.  The statements about the branch a
  solver takes on a computed discriminant are made of these definitions.
-/

namespace Fog

/-- A C array seen through a pointer. -/
abbrev Buf (α : Type) := Nat → α

namespace Buf

variable {α : Type}

/-- The store `d[i] = v`. -/
def set (d : Buf α) (i : Nat) (v : α) : Buf α :=
  fun j => if j = i then v else d j

/-- Pointer arithmetic `d + k`. -/
def shift (d : Buf α) (k : Nat) : Buf α :=
  fun i => d (i + k)

/-- The call `swap(d[i], d[j])`. -/
def swap (d : Buf α) (i j : Nat) : Buf α :=
  (d.set i (d j)).set j (d i)

/-- The exchange step `if (d[i] > d[j]) swap(d[i], d[j])`. -/
def sortPair [LT α] [DecidableRel (fun a b : α => a < b)] (d : Buf α) (i j : Nat) : Buf α :=
  if d i > d j then d.swap i j else d

/-- The first `n` elements `d[0], ..., d[n-1]`. -/
def take (d : Buf α) (n : Nat) : List α :=
  (List.range n).map d

/-- An array holding the given values (and zero past them). -/
def ofList [Zero α] (l : List α) : Buf α :=
  fun i => l.getD i 0

end Buf

/-- The numeric environment of the solver: the constant and the `Math::`
functions that `Solve.cpp` takes from headers (`Math.h`, `Constants.h`)
outside the sources at hand.  `eps` is `MATH_EPSILON_D`, `thirdPi` is
`MATH_THIRD_PI`; `MATH_1_DIV_3` is written `1 / 3` in the embedding. -/
structure MathEnv (α : Type) where
  eps : α
  sqrt : α → α
  cbrt : α → α
  acos : α → α
  cos : α → α
  thirdPi : α

section Solve

variable {α : Type} [LinearOrderedField α]

/-- Modelled from the spec: `Math::isFuzzyZero` of `Fog/Core/Math/Fuzzy.h`,
which is not among the sources; the glossary gives the comparison `|x| < ε`. -/
def isFuzzyZero (M : MathEnv α) (x : α) : Bool :=
  decide (|x| < M.eps)

/-- Modelled from the spec: `Math::isFuzzyPositiveZero` of
`Fog/Core/Math/Fuzzy.h`, which is not among the sources; the spec calls the
test on the discriminant the same fuzzy-zero comparison `|x| < ε` (the
argument is non-negative where the solver calls it). -/
def isFuzzyPositiveZero (M : MathEnv α) (x : α) : Bool :=
  decide (|x| < M.eps)

/-- Modelled from the spec: `Math::isFuzzyEq` of `Fog/Core/Math/Fuzzy.h`,
which is not among the sources; the glossary gives the comparison
`|x - y| < ε`. -/
def isFuzzyEq (M : MathEnv α) (x y : α) : Bool :=
  decide (|x - y| < M.eps)

/-- Embedding of `MathT_solve_Quadratic` (Solve.cpp, lines 51-93). -/
def MathT_solve_Quadratic (M : MathEnv α) (dst func : Buf α) : Nat × Buf α :=
  let a := func 0
  let b := func 1
  let c := func 2
  if isFuzzyZero M a then
    if isFuzzyZero M b then (0, dst)
    else (1, dst.set 0 (-c / b))
  else
    let d := b * b - 4 * a * c
    if d < 0 then (0, dst)
    else if isFuzzyPositiveZero M d then (1, dst.set 0 (-b / (2 * a)))
    else
      let s := M.sqrt d
      let q := -(1 / 2) * (b + (if b < 0 then -s else s))
      let dst1 := (dst.set 0 (q / a)).set 1 (c / q)
      (2, dst1.sortPair 0 1)

/-- Embedding of `MathT_solveAt_Quadratic` (Solve.cpp, lines 95-159); the label `_OneRoot`
is the local function `oneRoot` applied to the value `r0` holds at the jump. -/
def MathT_solveAt_Quadratic (M : MathEnv α) (dst func : Buf α) (tMin tMax : α) :
    Nat × Buf α :=
  let a := func 0
  let b := func 1
  let c := func 2
  let oneRoot : α → Nat × Buf α := fun r0 =>
    if r0 < tMin ∨ r0 > tMax then (0, dst) else (1, dst.set 0 r0)
  if isFuzzyZero M a then
    if isFuzzyZero M b then (0, dst)
    else oneRoot (-c / b)
  else
    let d := b * b - 4 * a * c
    if d < 0 then (0, dst)
    else if isFuzzyPositiveZero M d then oneRoot (-b / (2 * a))
    else
      let s := M.sqrt d
      let q := -(1 / 2) * (b + (if b < 0 then -s else s))
      let x0 := q / a
      let x1 := c / q
      let r0 := if x0 > x1 then x1 else x0
      let r1 := if x0 > x1 then x0 else x1
      if r1 < tMin ∨ r1 > tMax then oneRoot r0
      else if r0 < tMin ∨ r0 > tMax then oneRoot r1
      else (2, (dst.set 0 r0).set 1 r1)

/-- Embedding of `MathT_solve_Cubic` (Solve.cpp, lines 168-240). -/
def MathT_solve_Cubic (M : MathEnv α) (dst func : Buf α) : Nat × Buf α :=
  if isFuzzyZero M (func 0) then MathT_solve_Quadratic M dst (func.shift 1)
  else
    let norm := func 0
    let a := func 1 / norm
    let b := func 2 / norm
    let c := func 3 / norm
    let sa := a * a
    let p := 1 / 3 * (-(1 / 3) * sa + b)
    let q := 1 / 2 * (2 / 27 * sa * a - 1 / 3 * a * b + c)
    let p3 := p * p * p
    let d := q * q + p3
    let sub := -(1 / 3) * a
    if isFuzzyZero M d then
      if isFuzzyZero M q then (1, dst.set 0 sub)
      else
        let u := M.cbrt (-q)
        let dst1 := (dst.set 0 (sub + 2 * u)).set 1 (sub - u)
        (2, dst1.sortPair 0 1)
    else if d < 0 then
      let phi := 1 / 3 * M.acos (-q / M.sqrt (-p3))
      let t := 2 * M.sqrt (-p)
      let dst1 := ((dst.set 0 (sub + t * M.cos phi)).set 1
        (sub - t * M.cos (phi + M.thirdPi))).set 2 (sub - t * M.cos (phi - M.thirdPi))
      (3, ((dst1.sortPair 0 1).sortPair 1 2).sortPair 0 1)
    else
      let sqrt_d := M.sqrt d
      let u := M.cbrt (sqrt_d - q)
      let v := -M.cbrt (sqrt_d + q)
      (1, dst.set 0 (sub + u + v))

/-- The loop `for (i = 0; i < roots; i++)` of the interval-filtered solvers,
run over the indices still to visit; the state is `interestingRoots` and `dst`. -/
def filterLoop (tmp : Buf α) (tMin tMax : α) : List Nat → Nat × Buf α → Nat × Buf α
  | [], st => st
  | i :: rest, st =>
    if tmp i < tMin ∨ tmp i > tMax then filterLoop tmp tMin tMax rest st
    else filterLoop tmp tMin tMax rest (st.1 + 1, st.2.set st.1 (tmp i))

/-- Embedding of `MathT_solveAt_Cubic` (Solve.cpp, lines 242-259).  The local array `tmp`
is not initialised in the source; `tmp0` is what it holds before the call. -/
def MathT_solveAt_Cubic (M : MathEnv α) (tmp0 dst func : Buf α) (tMin tMax : α) :
    Nat × Buf α :=
  let r := MathT_solve_Cubic M tmp0 func
  filterLoop r.2 tMin tMax (List.range r.1) (0, dst)

/-- The interval-filtered quadratic solver as the spec words it: the
unfiltered solver is run into a local buffer (`tmp0` before the call), then
its roots are copied through the filter that keeps the values within
`[tMin, tMax]`. -/
def solveAt_Quadratic_postFilter (M : MathEnv α) (tmp0 dst func : Buf α) (tMin tMax : α) :
    Nat × Buf α :=
  let r := MathT_solve_Quadratic M tmp0 func
  filterLoop r.2 tMin tMax (List.range r.1) (0, dst)

/-- Embedding of `MathT_solve_Quartic` (Solve.cpp, lines 265-360).  The call of the cubic
solver under `isFuzzyZero(func[0])` has no `return`: its writes to `dst`
stay, its count is dropped and the function goes on.  The local array
`cRoots` is not initialised in the source; `cRoots0` is what it holds before
the call of the cubic solver. -/
def MathT_solve_Quartic (M : MathEnv α) (cRoots0 dst func : Buf α) : Nat × Buf α :=
  let dstA := if isFuzzyZero M (func 0) then (MathT_solve_Cubic M dst (func.shift 1)).2 else dst
  let norm := func 0
  let a := func 1 / norm
  let b := func 2 / norm
  let c := func 3 / norm
  let d := func 4 / norm
  let aa := a * a
  let b2 := b * 2
  let cc := c * c
  let d4 := d * 4
  let base0 := a * (-(1 / 4))
  let q0a := aa * (3 / 4) - b2
  let cFunction : Buf α := Buf.ofList [1, -b, -d4 + a * c, d4 * b - cc - aa * d]
  let cr := MathT_solve_Cubic M cRoots0 cFunction
  if cr.1 = 0 then (0, dstA)
  else
    let x := cr.2 (cr.1 - 1)
    let w0 := aa * (1 / 4) - b + x
    let br : α × α × α :=
      if w0 > M.eps then
        let r := M.sqrt w0
        (base0 + 1 / 2 * r, q0a - w0, (a * (b - aa * (1 / 4)) - c * 2) / r)
      else (base0, q0a, 2 * M.sqrt (x * x - d4))
    let base := br.1
    let q0b := br.2.1
    let w := br.2.2
    let q1c := q0b + w
    let q0c := q0b - w
    let qs : α × α := if q0c < 0 ∨ (q0c > q1c ∧ q1c ≥ 0) then (q1c, q0c) else (q0c, q1c)
    let q0 := qs.1
    let q1 := qs.2
    let st1 : Nat × Buf α :=
      if q0 ≥ 0 then
        let v := M.sqrt q0 * (1 / 2)
        if v ≥ M.eps then (2, (dstA.set 0 (base - v)).set 1 (base + v))
        else (1, dstA.set 0 base)
      else (0, dstA)
    if q1 ≥ 0 ∧ isFuzzyEq M q0 q1 = false then
      let v := M.sqrt q1 * (1 / 2)
      let dstB := if st1.1 = 2 then st1.2.set 2 (st1.2 1) else st1.2
      let dstC := dstB.set 1 (dstB 0)
      let roots := st1.1 + 1
      if v ≥ M.eps then (roots + 1, (dstC.set 0 (base - v)).set roots (base + v))
      else (roots, dstC.set 0 base)
    else st1

/-- Embedding of `MathT_solveAt_Quartic` (Solve.cpp, lines 362-379).  The local array
`tmp` is not initialised in the source; `tmp0` is what it holds before the
call, and `cRoots0` is the same for the local array of the quartic solver. -/
def MathT_solveAt_Quartic (M : MathEnv α) (cRoots0 tmp0 dst func : Buf α) (tMin tMax : α) :
    Nat × Buf α :=
  let r := MathT_solve_Quartic M cRoots0 tmp0 func
  filterLoop r.2 tMin tMax (List.range r.1) (0, dst)

/-! ### Names for the intermediate values of the solvers -/

/-- The discriminant `d = b * b - 4.0 * a * c` of the quadratic solver. -/
def quadD (func : Buf α) : α :=
  func 1 * func 1 - 4 * func 0 * func 2

/-- The value `q = -0.5 * (b + ((b < 0.0) ? -s : s))` of the quadratic solver. -/
def quadQ (M : MathEnv α) (func : Buf α) : α :=
  -(1 / 2) * (func 1 + (if func 1 < 0 then -M.sqrt (quadD func) else M.sqrt (quadD func)))

/-- The value `p` of the cubic solver (the depressed form is `y^3 + 3 p y + 2 q`). -/
def cubicP (func : Buf α) : α :=
  1 / 3 * (-(1 / 3) * (func 1 / func 0 * (func 1 / func 0)) + func 2 / func 0)

/-- The value `q` of the cubic solver. -/
def cubicQ (func : Buf α) : α :=
  1 / 2 * (2 / 27 * (func 1 / func 0 * (func 1 / func 0)) * (func 1 / func 0)
    - 1 / 3 * (func 1 / func 0) * (func 2 / func 0) + func 3 / func 0)

/-- The discriminant `d = q * q + p3` of the cubic solver. -/
def cubicD (func : Buf α) : α :=
  cubicQ func * cubicQ func + cubicP func * cubicP func * cubicP func

/-- The resubstitution constant `sub = -MATH_1_DIV_3 * a` of the cubic solver. -/
def cubicSub (func : Buf α) : α :=
  -(1 / 3) * (func 1 / func 0)

/-- The angle `phi` of the three-root branch of the cubic solver. -/
def cubicPhi (M : MathEnv α) (func : Buf α) : α :=
  1 / 3 * M.acos (-cubicQ func / M.sqrt (-(cubicP func * cubicP func * cubicP func)))

/-- The three values the three-root branch of the cubic solver stores before
it sorts them. -/
def cubicTrig (M : MathEnv α) (func : Buf α) : α × α × α :=
  (cubicSub func + 2 * M.sqrt (-cubicP func) * M.cos (cubicPhi M func),
   cubicSub func - 2 * M.sqrt (-cubicP func) * M.cos (cubicPhi M func + M.thirdPi),
   cubicSub func - 2 * M.sqrt (-cubicP func) * M.cos (cubicPhi M func - M.thirdPi))

/-- The resolvent cubic `cFunction` of the quartic solver. -/
def quarticResolvent (func : Buf α) : Buf α :=
  Buf.ofList [1, -(func 2 / func 0),
    -(func 4 / func 0 * 4) + func 1 / func 0 * (func 3 / func 0),
    func 4 / func 0 * 4 * (func 2 / func 0) - func 3 / func 0 * (func 3 / func 0)
      - func 1 / func 0 * (func 1 / func 0) * (func 4 / func 0)]

/-- The buffer `dst` as the quartic solver finds it after its first statement:
the cubic solver has written to it when `func[0]` is fuzzy-zero. -/
def quarticDst (M : MathEnv α) (dst func : Buf α) : Buf α :=
  if isFuzzyZero M (func 0) then (MathT_solve_Cubic M dst (func.shift 1)).2 else dst

/-- The root `x = cRoots[cRootsCount - 1]` of the resolvent cubic that the
quartic solver uses. -/
def quarticX (M : MathEnv α) (cRoots0 func : Buf α) : α :=
  (MathT_solve_Cubic M cRoots0 (quarticResolvent func)).2
    ((MathT_solve_Cubic M cRoots0 (quarticResolvent func)).1 - 1)

/-- The value `w = _aa * 0.25 - b + x` of the quartic solver. -/
def quarticW (M : MathEnv α) (cRoots0 func : Buf α) : α :=
  func 1 / func 0 * (func 1 / func 0) * (1 / 4) - func 2 / func 0 + quarticX M cRoots0 func

/-- The values `base`, `q0`, `w` of the quartic solver after the branch on
`w > MATH_EPSILON_D`. -/
def quarticBranch (M : MathEnv α) (cRoots0 func : Buf α) : α × α × α :=
  if quarticW M cRoots0 func > M.eps then
    (func 1 / func 0 * (-(1 / 4)) + 1 / 2 * M.sqrt (quarticW M cRoots0 func),
     func 1 / func 0 * (func 1 / func 0) * (3 / 4) - func 2 / func 0 * 2
       - quarticW M cRoots0 func,
     (func 1 / func 0 * (func 2 / func 0 - func 1 / func 0 * (func 1 / func 0) * (1 / 4))
       - func 3 / func 0 * 2) / M.sqrt (quarticW M cRoots0 func))
  else
    (func 1 / func 0 * (-(1 / 4)),
     func 1 / func 0 * (func 1 / func 0) * (3 / 4) - func 2 / func 0 * 2,
     2 * M.sqrt (quarticX M cRoots0 func * quarticX M cRoots0 func - func 4 / func 0 * 4))

/-- The pair `(q0, q1)` of the quartic solver after the statement
`if (q0 < 0.0 || (q0 > q1 && q1 >= 0.0)) swap(q0, q1)`, given the values
`q0 - w` and `q0 + w` it holds before. -/
def quarticSwap (q0c q1c : α) : α × α :=
  if q0c < 0 ∨ (q0c > q1c ∧ q1c ≥ 0) then (q1c, q0c) else (q0c, q1c)

/-- The pair `(q0, q1)` of the quartic solver as it reaches line 322. -/
def quarticQ (M : MathEnv α) (cRoots0 func : Buf α) : α × α :=
  quarticSwap ((quarticBranch M cRoots0 func).2.1 - (quarticBranch M cRoots0 func).2.2)
    ((quarticBranch M cRoots0 func).2.1 + (quarticBranch M cRoots0 func).2.2)

/-- Lines 322-359 of the quartic solver, as a function of the buffer and of
the values `base`, `q0`, `q1` they start from. -/
def quarticTail (M : MathEnv α) (dstA : Buf α) (base q0 q1 : α) : Nat × Buf α :=
  let st1 : Nat × Buf α :=
    if q0 ≥ 0 then
      let v := M.sqrt q0 * (1 / 2)
      if v ≥ M.eps then (2, (dstA.set 0 (base - v)).set 1 (base + v))
      else (1, dstA.set 0 base)
    else (0, dstA)
  if q1 ≥ 0 ∧ isFuzzyEq M q0 q1 = false then
    let v := M.sqrt q1 * (1 / 2)
    let dstB := if st1.1 = 2 then st1.2.set 2 (st1.2 1) else st1.2
    let dstC := dstB.set 1 (dstB 0)
    let roots := st1.1 + 1
    if v ≥ M.eps then (roots + 1, (dstC.set 0 (base - v)).set roots (base + v))
    else (roots, dstC.set 0 base)
  else st1

/-- The value of the polynomial `func[0] x^n + ... + func[n]` of degree `n`
(coefficients highest degree first) at `x`. -/
def polyEval (func : Buf α) (n : Nat) (x : α) : α :=
  ((List.range (n + 1)).map (fun i => func i * x ^ (n - i))).sum

/-- The interval test of the filtered solvers: the negation of
`x < tMin || x > tMax`. -/
def inInterval (tMin tMax x : α) : Bool :=
  decide (tMin ≤ x ∧ x ≤ tMax)

/-- The values `d[0] <= d[1] <= ... <= d[n-1]` are in ascending order. -/
def Ascending (n : Nat) (d : Buf α) : Prop :=
  ∀ i, i + 1 < n → d i ≤ d (i + 1)

end Solve

/-- Exact real arithmetic: the environment in which `sqrt` is the real square
root on the non-negative numbers, `acos` the real arc cosine on `[-1, 1]`,
`cos` the real cosine, `cbrt` a real cube root, `MATH_THIRD_PI` is `π / 3` and
the tolerance is positive.  Nothing is assumed of `sqrt` and `acos` outside
their real domains. -/
structure MathEnv.Exact (M : MathEnv ℝ) : Prop where
  eps_pos : 0 < M.eps
  sqrt_eq : ∀ x, 0 ≤ x → M.sqrt x = Real.sqrt x
  cbrt_cube : ∀ x, M.cbrt x ^ 3 = x
  acos_eq : ∀ x, -1 ≤ x → x ≤ 1 → M.acos x = Real.arccos x
  cos_eq : ∀ x, M.cos x = Real.cos x
  thirdPi_eq : M.thirdPi = Real.pi / 3

/-! ### The zone allocator (`Fog/Core/Memory/ZoneAllocator_p.h`)

A pointer is an address, a natural number; pointer arithmetic is taken modulo
`2 ^ ptrBits`, the size of the address space.  The chunks live in a memory
that maps the address of a chunk to its fields. -/

/-- The fields of `ZoneAllocator::Chunk`; `end_` is the field `end`, and `data`
is the address of the array `data`. -/
structure Chunk where
  prev : Nat
  next : Nat
  pos : Nat
  end_ : Nat
  data : Nat

/-- The members of `ZoneAllocator` read by `alloc`, with the memory holding the
chunks (`_first` and the allocated ones). -/
structure ZoneAllocator where
  _current : Nat
  _chunkSize : Nat
  mem : Nat → Chunk

namespace ZoneAllocator

/-- Pointer addition `p + n` on `ptrBits`-bit addresses. -/
def ptrAdd (ptrBits p n : Nat) : Nat :=
  (p + n) % 2 ^ ptrBits

/-- The store `_current->pos = v`. -/
def setPos (z : ZoneAllocator) (v : Nat) : ZoneAllocator :=
  ⟨z._current, z._chunkSize, fun a =>
    if a = z._current then
      ⟨(z.mem a).prev, (z.mem a).next, v, (z.mem a).end_, (z.mem a).data⟩
    else z.mem a⟩

/-- Embedding of `ZoneAllocator::alloc` (ZoneAllocator_p.h, lines 125-141).  A
failed `FOG_ASSERT` is the result `none`; `NULL` is the address 0.  The
out-of-line `_alloc`, whose body is not among the sources, is the parameter
`slowAlloc`: it gets the allocator as `alloc` leaves it and returns the pointer
and the allocator it leaves. -/
def alloc (ptrBits : Nat) (slowAlloc : ZoneAllocator → Nat → Nat × ZoneAllocator)
    (z : ZoneAllocator) (size : Nat) : Option (Nat × ZoneAllocator) :=
  if z._current = 0 then none
  else if ¬ size < z._chunkSize then none
  else
    let p := (z.mem z._current).pos
    let z1 := z.setPos (ptrAdd ptrBits (z.mem z._current).pos size)
    if (z1.mem z1._current).pos > (z1.mem z1._current).end_ then some (slowAlloc z1 size)
    else some (p, z1)

/-- A caller that makes the requests `sizes` one after the other: the pointers
returned, in order, and the allocator left (`none` if an assertion fails). -/
def allocSeq (ptrBits : Nat) (slowAlloc : ZoneAllocator → Nat → Nat × ZoneAllocator) :
    ZoneAllocator → List Nat → Option (List Nat × ZoneAllocator)
  | z, [] => some ([], z)
  | z, size :: rest =>
    match alloc ptrBits slowAlloc z size with
    | none => none
    | some r =>
      match allocSeq ptrBits slowAlloc r.2 rest with
      | none => none
      | some rs => some (r.1 :: rs.1, rs.2)

/-- The values a cursor starting at `p` holds before each of the requests
`sizes` when every request advances it by its size. -/
def cursors : Nat → List Nat → List Nat
  | _, [] => []
  | p, size :: rest => p :: cursors (p + size) rest

end ZoneAllocator

/-! ### The gradient model (`Fog/G2d/Source/Gradient.cpp`)

A floating-point component is its bit pattern: `N` is the type of the bit
patterns of one precision, and two components are equal when they agree bit
for bit.  `GradientF` is `GradientT F S`, `GradientD` is `GradientT D S`, with
`S` the type of a colour stop (the same in both precisions). -/

/-- The components of `PointF` / `PointD`. -/
structure PointT (N : Type) where
  x : N
  y : N

/-- The members of `GradientF` / `GradientD`. -/
structure GradientT (N S : Type) where
  _gradientType : Nat
  _gradientSpread : Nat
  _stops : List S
  _pts : Fin 3 → PointT N

/-- The constants that `Gradient.cpp` takes from headers outside the sources. -/
structure GradientConsts where
  ERR_OK : Nat
  GRADIENT_TYPE_INVALID : Nat
  GRADIENT_SPREAD_DEFAULT : Nat

section Gradient

variable {N F D S : Type}

/-- Modelled from the spec: `PointF::reset` / `PointD::reset`, which are not
among the sources; the spec has `reset()` return to a zeroed geometry. -/
def PointT.reset [Zero N] (_p : PointT N) : PointT N :=
  ⟨0, 0⟩

/-- Modelled from the spec: the conversion of a point to the other precision in
`self->_pts[i] = other->_pts[i]`, which is not among the sources; each
component goes through the numeric cast `cast`. -/
def PointT.convert (cast : D → F) (p : PointT D) : PointT F :=
  ⟨cast p.x, cast p.y⟩

/-- Modelled from the spec: `MemOps::eq(a, b, 3 * sizeof(Point))`, which is not
among the sources; the spec has the three points compared bit for bit per
component. -/
def MemOps_eq [DecidableEq N] (a b : Fin 3 → PointT N) : Bool :=
  decide ((a 0).x = (b 0).x) && decide ((a 0).y = (b 0).y) &&
  decide ((a 1).x = (b 1).x) && decide ((a 1).y = (b 1).y) &&
  decide ((a 2).x = (b 2).x) && decide ((a 2).y = (b 2).y)

/-- Modelled from the spec: `operator==` of the stop lists, which is not among
the sources; the spec has equality compare the stop list as a deep structural
comparison. -/
def stopsEq [DecidableEq S] (a b : List S) : Bool :=
  decide (a = b)

namespace GradientT

/-- The store `self->_gradientType = v`. -/
def setType (g : GradientT N S) (v : Nat) : GradientT N S :=
  ⟨v, g._gradientSpread, g._stops, g._pts⟩

/-- The store `self->_gradientSpread = v`. -/
def setSpread (g : GradientT N S) (v : Nat) : GradientT N S :=
  ⟨g._gradientType, v, g._stops, g._pts⟩

/-- The stop list of `self` after `_stops() = v`, `_stops.initCustom1(v)` or
`_stops().reset()` (with `v` empty): the list operations are not among the
sources and are taken to leave `self` holding the list `v`. -/
def setStops (g : GradientT N S) (v : List S) : GradientT N S :=
  ⟨g._gradientType, g._gradientSpread, v, g._pts⟩

/-- The store `self->_pts[i] = v`. -/
def setPt (g : GradientT N S) (i : Fin 3) (v : PointT N) : GradientT N S :=
  ⟨g._gradientType, g._gradientSpread, g._stops, fun j => if j = i then v else g._pts j⟩

end GradientT

/-- Embedding of `GradientF_ctorCopyD` (Gradient.cpp, lines 41-49); `self` is
the memory the object is constructed in, `narrow` the cast `double -> float`. -/
def GradientF_ctorCopyD (narrow : D → F) (self : GradientT F S) (other : GradientT D S) :
    GradientT F S :=
  let s1 := self.setType other._gradientType
  let s2 := s1.setSpread other._gradientSpread
  let s3 := s2.setStops other._stops
  let s4 := s3.setPt 0 (PointT.convert narrow (other._pts 0))
  let s5 := s4.setPt 1 (PointT.convert narrow (other._pts 1))
  s5.setPt 2 (PointT.convert narrow (other._pts 2))

/-- Embedding of `GradientD_ctorCopyF` (Gradient.cpp, lines 115-123); `self` is
the memory the object is constructed in, `widen` the cast `float -> double`. -/
def GradientD_ctorCopyF (widen : F → D) (self : GradientT D S) (other : GradientT F S) :
    GradientT D S :=
  let s1 := self.setType other._gradientType
  let s2 := s1.setSpread other._gradientSpread
  let s3 := s2.setStops other._stops
  let s4 := s3.setPt 0 (PointT.convert widen (other._pts 0))
  let s5 := s4.setPt 1 (PointT.convert widen (other._pts 1))
  s5.setPt 2 (PointT.convert widen (other._pts 2))

/-- Embedding of `GradientF_copyD` (Gradient.cpp, lines 69-80): the error code
and `self` after the call. -/
def GradientF_copyD (K : GradientConsts) (narrow : D → F) (self : GradientT F S)
    (other : GradientT D S) : Nat × GradientT F S :=
  let s1 := self.setType other._gradientType
  let s2 := s1.setSpread other._gradientSpread
  let s3 := s2.setStops other._stops
  let s4 := s3.setPt 0 (PointT.convert narrow (other._pts 0))
  let s5 := s4.setPt 1 (PointT.convert narrow (other._pts 1))
  let s6 := s5.setPt 2 (PointT.convert narrow (other._pts 2))
  (K.ERR_OK, s6)

/-- Embedding of `GradientD_copyF` (Gradient.cpp, lines 140-151): the error code
and `self` after the call. -/
def GradientD_copyF (K : GradientConsts) (widen : F → D) (self : GradientT D S)
    (other : GradientT F S) : Nat × GradientT D S :=
  let s1 := self.setType other._gradientType
  let s2 := s1.setSpread other._gradientSpread
  let s3 := s2.setStops other._stops
  let s4 := s3.setPt 0 (PointT.convert widen (other._pts 0))
  let s5 := s4.setPt 1 (PointT.convert widen (other._pts 1))
  let s6 := s5.setPt 2 (PointT.convert widen (other._pts 2))
  (K.ERR_OK, s6)

/-- The store of a whole gradient object at the address `self` of the memory `m`. -/
def storeAt (m : Nat → GradientT N S) (self : Nat) (g : GradientT N S) : Nat → GradientT N S :=
  fun a => if a = self then g else m a

/-- Embedding of `GradientF_copyF` (Gradient.cpp, lines 56-67).  `self` and
`other` are addresses in the memory `m` of gradient objects and may be the
same; every statement reads `other` from the memory as the statements before
it left it.  The result is the error code and the memory after the call. -/
def GradientF_copyF (K : GradientConsts) (m : Nat → GradientT F S) (self other : Nat) :
    Nat × (Nat → GradientT F S) :=
  let m1 := storeAt m self ((m self).setType (m other)._gradientType)
  let m2 := storeAt m1 self ((m1 self).setSpread (m1 other)._gradientSpread)
  let m3 := storeAt m2 self ((m2 self).setStops (m2 other)._stops)
  let m4 := storeAt m3 self ((m3 self).setPt 0 ((m3 other)._pts 0))
  let m5 := storeAt m4 self ((m4 self).setPt 1 ((m4 other)._pts 1))
  let m6 := storeAt m5 self ((m5 self).setPt 2 ((m5 other)._pts 2))
  (K.ERR_OK, m6)

/-- Embedding of `GradientD_copyD` (Gradient.cpp, lines 153-164), as
`GradientF_copyF`. -/
def GradientD_copyD (K : GradientConsts) (m : Nat → GradientT D S) (self other : Nat) :
    Nat × (Nat → GradientT D S) :=
  let m1 := storeAt m self ((m self).setType (m other)._gradientType)
  let m2 := storeAt m1 self ((m1 self).setSpread (m1 other)._gradientSpread)
  let m3 := storeAt m2 self ((m2 self).setStops (m2 other)._stops)
  let m4 := storeAt m3 self ((m3 self).setPt 0 ((m3 other)._pts 0))
  let m5 := storeAt m4 self ((m4 self).setPt 1 ((m4 other)._pts 1))
  let m6 := storeAt m5 self ((m5 self).setPt 2 ((m5 other)._pts 2))
  (K.ERR_OK, m6)

/-- Embedding of `GradientF_reset` (Gradient.cpp, lines 82-91). -/
def GradientF_reset [Zero F] (K : GradientConsts) (self : GradientT F S) : GradientT F S :=
  let s1 := self.setType K.GRADIENT_TYPE_INVALID
  let s2 := s1.setSpread K.GRADIENT_SPREAD_DEFAULT
  let s3 := s2.setStops []
  let s4 := s3.setPt 0 (s3._pts 0).reset
  let s5 := s4.setPt 1 (s4._pts 1).reset
  s5.setPt 2 (s5._pts 2).reset

/-- Embedding of `GradientD_reset` (Gradient.cpp, lines 166-175). -/
def GradientD_reset [Zero D] (K : GradientConsts) (self : GradientT D S) : GradientT D S :=
  let s1 := self.setType K.GRADIENT_TYPE_INVALID
  let s2 := s1.setSpread K.GRADIENT_SPREAD_DEFAULT
  let s3 := s2.setStops []
  let s4 := s3.setPt 0 (s3._pts 0).reset
  let s5 := s4.setPt 1 (s4._pts 1).reset
  s5.setPt 2 (s5._pts 2).reset

/-- Embedding of `GradientF_eq` (Gradient.cpp, lines 93-99). -/
def GradientF_eq [DecidableEq F] [DecidableEq S] (a b : GradientT F S) : Bool :=
  decide (a._gradientType = b._gradientType) &&
  decide (a._gradientSpread = b._gradientSpread) &&
  stopsEq a._stops b._stops &&
  MemOps_eq a._pts b._pts

/-- Embedding of `GradientD_eq` (Gradient.cpp, lines 177-183). -/
def GradientD_eq [DecidableEq D] [DecidableEq S] (a b : GradientT D S) : Bool :=
  decide (a._gradientType = b._gradientType) &&
  decide (a._gradientSpread = b._gradientSpread) &&
  stopsEq a._stops b._stops &&
  MemOps_eq a._pts b._pts

end Gradient

/-! ### The quadratic and cubic solvers over the arithmetic of the machine

The definitions above read the `double` operations as the operations of an
ordered field.  The definitions of this section follow the same source lines
and leave the arithmetic open: every operation, comparison, literal and
library function of the source is a field of `FpArith`, of which nothing is
assumed, so what is proved of them holds of the values the code computes,
whatever their rounding.  As above, `NumT` is `double`, so that `NumT(...)` is
the identity.  `FpArith.exact` is the arithmetic of an ordered field, in which
they are the definitions above. -/

/-- The arithmetic the solvers run in: the operations `+ - * /` and unary `-`
on `double`, the comparison `<` (`x > y` is `y < x`), the literals `0.0`,
`0.5`, `2.0`, `4.0`, `27.0`, the constants `MATH_1_DIV_3` and `MATH_THIRD_PI`,
and the functions of `Fuzzy.h` and `Math.h`, none of which is among the
sources. -/
structure FpArith (α : Type) where
  add : α → α → α
  sub : α → α → α
  mul : α → α → α
  div : α → α → α
  neg : α → α
  lt : α → α → Bool
  zero : α
  half : α
  two : α
  four : α
  twentySeven : α
  MATH_1_DIV_3 : α
  MATH_THIRD_PI : α
  isFuzzyZero : α → Bool
  isFuzzyPositiveZero : α → Bool
  sqrt : α → α
  cbrt : α → α
  acos : α → α
  cos : α → α

/-- The arithmetic of an ordered field, with the functions of the numeric
environment `M` and the fuzzy tests modelled from the spec. -/
def FpArith.exact {α : Type} [LinearOrderedField α] (M : MathEnv α) : FpArith α :=
  ⟨fun x y => x + y, fun x y => x - y, fun x y => x * y, fun x y => x / y, fun x => -x,
    fun x y => decide (x < y), 0, 1 / 2, 2, 4, 27, 1 / 3, M.thirdPi,
    Fog.isFuzzyZero M, Fog.isFuzzyPositiveZero M, M.sqrt, M.cbrt, M.acos, M.cos⟩

namespace Double

variable {α : Type}

/-- The exchange step `if (d[i] > d[j]) swap(d[i], d[j])`. -/
def sortPair (A : FpArith α) (d : Buf α) (i j : Nat) : Buf α :=
  if A.lt (d j) (d i) then d.swap i j else d

/-- The discriminant `d = b * b - 4.0 * a * c` as the quadratic solver computes it. -/
def quadD (A : FpArith α) (func : Buf α) : α :=
  A.sub (A.mul (func 1) (func 1)) (A.mul (A.mul A.four (func 0)) (func 2))

/-- Embedding of `MathT_solve_Quadratic` (Solve.cpp, lines 51-93) over the
arithmetic `A`. -/
def MathT_solve_Quadratic (A : FpArith α) (dst func : Buf α) : Nat × Buf α :=
  let a := func 0
  let b := func 1
  let c := func 2
  if A.isFuzzyZero a then
    if A.isFuzzyZero b then (0, dst)
    else (1, dst.set 0 (A.div (A.neg c) b))
  else
    let d := A.sub (A.mul b b) (A.mul (A.mul A.four a) c)
    if A.lt d A.zero then (0, dst)
    else if A.isFuzzyPositiveZero d then (1, dst.set 0 (A.div (A.neg b) (A.mul A.two a)))
    else
      let s := A.sqrt d
      let q := A.mul (A.neg A.half) (A.add b (if A.lt b A.zero then A.neg s else s))
      let dst1 := (dst.set 0 (A.div q a)).set 1 (A.div c q)
      (2, sortPair A dst1 0 1)

/-- The value `a = func[1] / func[0]` of the cubic solver. -/
def cubicA (A : FpArith α) (func : Buf α) : α :=
  A.div (func 1) (func 0)

/-- The value `p` as the cubic solver computes it. -/
def cubicP (A : FpArith α) (func : Buf α) : α :=
  A.mul A.MATH_1_DIV_3
    (A.add (A.mul (A.neg A.MATH_1_DIV_3) (A.mul (cubicA A func) (cubicA A func)))
      (A.div (func 2) (func 0)))

/-- The value `q` as the cubic solver computes it. -/
def cubicQ (A : FpArith α) (func : Buf α) : α :=
  A.mul A.half
    (A.add
      (A.sub
        (A.mul (A.mul (A.div A.two A.twentySeven) (A.mul (cubicA A func) (cubicA A func)))
          (cubicA A func))
        (A.mul (A.mul A.MATH_1_DIV_3 (cubicA A func)) (A.div (func 2) (func 0))))
      (A.div (func 3) (func 0)))

/-- The discriminant `d = q * q + p3` as the cubic solver computes it. -/
def cubicD (A : FpArith α) (func : Buf α) : α :=
  A.add (A.mul (cubicQ A func) (cubicQ A func))
    (A.mul (A.mul (cubicP A func) (cubicP A func)) (cubicP A func))

/-- The resubstitution constant `sub = -MATH_1_DIV_3 * a` as the cubic solver
computes it. -/
def cubicSub (A : FpArith α) (func : Buf α) : α :=
  A.mul (A.neg A.MATH_1_DIV_3) (cubicA A func)

/-- Embedding of `MathT_solve_Cubic` (Solve.cpp, lines 168-240) over the
arithmetic `A`. -/
def MathT_solve_Cubic (A : FpArith α) (dst func : Buf α) : Nat × Buf α :=
  if A.isFuzzyZero (func 0) then MathT_solve_Quadratic A dst (func.shift 1)
  else
    let norm := func 0
    let a := A.div (func 1) norm
    let b := A.div (func 2) norm
    let c := A.div (func 3) norm
    let sa := A.mul a a
    let p := A.mul A.MATH_1_DIV_3 (A.add (A.mul (A.neg A.MATH_1_DIV_3) sa) b)
    let q := A.mul A.half
      (A.add
        (A.sub (A.mul (A.mul (A.div A.two A.twentySeven) sa) a)
          (A.mul (A.mul A.MATH_1_DIV_3 a) b))
        c)
    let p3 := A.mul (A.mul p p) p
    let d := A.add (A.mul q q) p3
    let sub := A.mul (A.neg A.MATH_1_DIV_3) a
    if A.isFuzzyZero d then
      if A.isFuzzyZero q then (1, dst.set 0 sub)
      else
        let u := A.cbrt (A.neg q)
        let dst1 := (dst.set 0 (A.add sub (A.mul A.two u))).set 1 (A.sub sub u)
        (2, sortPair A dst1 0 1)
    else if A.lt d A.zero then
      let phi := A.mul A.MATH_1_DIV_3 (A.acos (A.div (A.neg q) (A.sqrt (A.neg p3))))
      let t := A.mul A.two (A.sqrt (A.neg p))
      let dst1 := ((dst.set 0 (A.add sub (A.mul t (A.cos phi)))).set 1
        (A.sub sub (A.mul t (A.cos (A.add phi A.MATH_THIRD_PI))))).set 2
        (A.sub sub (A.mul t (A.cos (A.sub phi A.MATH_THIRD_PI))))
      (3, sortPair A (sortPair A (sortPair A dst1 0 1) 1 2) 0 1)
    else
      let sqrt_d := A.sqrt d
      let u := A.cbrt (A.sub sqrt_d q)
      let v := A.neg (A.cbrt (A.add sqrt_d q))
      (1, dst.set 0 (A.add (A.add sub u) v))

end Double

/-! ## Buffers -/

namespace Buf

variable {α : Type}

@[simp] theorem set_same (d : Buf α) (i : Nat) (v : α) : d.set i v i = v := by
  simp [set]

theorem set_other (d : Buf α) {i j : Nat} (v : α) (h : j ≠ i) : d.set i v j = d j := by
  simp [set, h]

@[simp] theorem take_zero (d : Buf α) : d.take 0 = [] := rfl

theorem take_succ (d : Buf α) (n : Nat) : d.take (n + 1) = d.take n ++ [d n] := by
  simp [take, List.range_succ]

@[simp] theorem length_take (d : Buf α) (n : Nat) : (d.take n).length = n := by
  simp [take]

theorem take_congr {d e : Buf α} {n : Nat} (h : ∀ i, i < n → d i = e i) :
    d.take n = e.take n := by
  unfold take
  apply List.map_congr_left
  intro i hi
  exact h i (List.mem_range.mp hi)

theorem take_set_ge (d : Buf α) {n k : Nat} (v : α) (h : n ≤ k) :
    (d.set k v).take n = d.take n := by
  apply take_congr
  intro i hi
  exact set_other d v (by omega)

end Buf

section
variable {α : Type} [LinearOrderedField α]

/-! ## The branches of the solvers -/

theorem quad_none_of_fuzzy (M : MathEnv α) (dst func : Buf α)
    (ha : isFuzzyZero M (func 0) = true) (hb : isFuzzyZero M (func 1) = true) :
    MathT_solve_Quadratic M dst func = (0, dst) := by
  simp only [MathT_solve_Quadratic, ha, hb, if_true]

theorem quad_linear (M : MathEnv α) (dst func : Buf α)
    (ha : isFuzzyZero M (func 0) = true) (hb : isFuzzyZero M (func 1) = false) :
    MathT_solve_Quadratic M dst func = (1, dst.set 0 (-func 2 / func 1)) := by
  simp [MathT_solve_Quadratic, ha, hb]

theorem quad_none_of_neg (M : MathEnv α) (dst func : Buf α)
    (ha : isFuzzyZero M (func 0) = false) (hd : quadD func < 0) :
    MathT_solve_Quadratic M dst func = (0, dst) := by
  unfold quadD at hd
  simp [MathT_solve_Quadratic, ha, hd]

theorem quad_double (M : MathEnv α) (dst func : Buf α)
    (ha : isFuzzyZero M (func 0) = false) (hd : ¬ quadD func < 0)
    (hz : isFuzzyPositiveZero M (quadD func) = true) :
    MathT_solve_Quadratic M dst func = (1, dst.set 0 (-func 1 / (2 * func 0))) := by
  unfold quadD at hd hz
  simp only [MathT_solve_Quadratic, ha, hd, hz, if_true, if_false, Bool.false_eq_true]

theorem quad_two (M : MathEnv α) (dst func : Buf α)
    (ha : isFuzzyZero M (func 0) = false) (hd : ¬ quadD func < 0)
    (hz : isFuzzyPositiveZero M (quadD func) = false) :
    MathT_solve_Quadratic M dst func
      = (2, ((dst.set 0 (quadQ M func / func 0)).set 1 (func 2 / quadQ M func)).sortPair 0 1) := by
  unfold quadD at hd hz
  simp only [MathT_solve_Quadratic, ha, hd, hz, if_true, if_false, Bool.false_eq_true, quadQ, quadD]

theorem cubic_delegate (M : MathEnv α) (dst func : Buf α)
    (h0 : isFuzzyZero M (func 0) = true) :
    MathT_solve_Cubic M dst func = MathT_solve_Quadratic M dst (func.shift 1) := by
  simp only [MathT_solve_Cubic, h0, if_true]

theorem cubic_triple (M : MathEnv α) (dst func : Buf α)
    (h0 : isFuzzyZero M (func 0) = false) (hd : isFuzzyZero M (cubicD func) = true)
    (hq : isFuzzyZero M (cubicQ func) = true) :
    MathT_solve_Cubic M dst func = (1, dst.set 0 (cubicSub func)) := by
  unfold cubicD cubicQ cubicP at hd
  unfold cubicQ at hq
  simp only [MathT_solve_Cubic, h0, hd, hq, if_true, if_false, Bool.false_eq_true, cubicSub]

theorem cubic_double (M : MathEnv α) (dst func : Buf α)
    (h0 : isFuzzyZero M (func 0) = false) (hd : isFuzzyZero M (cubicD func) = true)
    (hq : isFuzzyZero M (cubicQ func) = false) :
    MathT_solve_Cubic M dst func
      = (2, ((dst.set 0 (cubicSub func + 2 * M.cbrt (-cubicQ func))).set 1
          (cubicSub func - M.cbrt (-cubicQ func))).sortPair 0 1) := by
  unfold cubicD cubicQ cubicP at hd
  unfold cubicQ at hq
  simp only [MathT_solve_Cubic, h0, hd, hq, if_true, if_false, Bool.false_eq_true, cubicSub,
    cubicQ]

theorem cubic_three (M : MathEnv α) (dst func : Buf α)
    (h0 : isFuzzyZero M (func 0) = false) (hd : isFuzzyZero M (cubicD func) = false)
    (hneg : cubicD func < 0) :
    MathT_solve_Cubic M dst func
      = (3, (((((dst.set 0 (cubicTrig M func).1).set 1 (cubicTrig M func).2.1).set 2
          (cubicTrig M func).2.2).sortPair 0 1).sortPair 1 2).sortPair 0 1) := by
  unfold cubicD cubicQ cubicP at hd hneg
  simp only [MathT_solve_Cubic, h0, hd, hneg, if_true, if_false, Bool.false_eq_true, cubicSub,
    cubicQ, cubicTrig, cubicPhi, cubicP]

theorem cubic_single (M : MathEnv α) (dst func : Buf α)
    (h0 : isFuzzyZero M (func 0) = false) (hd : isFuzzyZero M (cubicD func) = false)
    (hpos : ¬ cubicD func < 0) :
    MathT_solve_Cubic M dst func
      = (1, dst.set 0 (cubicSub func + M.cbrt (M.sqrt (cubicD func) - cubicQ func)
          + -M.cbrt (M.sqrt (cubicD func) + cubicQ func))) := by
  unfold cubicD cubicQ cubicP at hd hpos
  simp only [MathT_solve_Cubic, h0, hd, hpos, if_true, if_false, Bool.false_eq_true, cubicSub,
    cubicQ, cubicD, cubicP]

end

section
variable {α : Type} [LinearOrderedField α]

theorem quartic_unfold (M : MathEnv α) (cRoots0 dst func : Buf α) :
    MathT_solve_Quartic M cRoots0 dst func
      = if (MathT_solve_Cubic M cRoots0 (quarticResolvent func)).1 = 0
        then (0, quarticDst M dst func)
        else quarticTail M (quarticDst M dst func) (quarticBranch M cRoots0 func).1
          (quarticQ M cRoots0 func).1 (quarticQ M cRoots0 func).2 := by
  rfl
end

section
variable {α : Type} [LinearOrderedField α]

/-! ## Exchange steps and the filter loop -/

theorem Buf.sortPair_other (d : Buf α) {i j k : Nat} (hi : k ≠ i) (hj : k ≠ j) :
    d.sortPair i j k = d k := by
  unfold Buf.sortPair Buf.swap
  split_ifs <;> simp [Buf.set, hi, hj]

theorem Buf.sortPair_fst (d : Buf α) {i j : Nat} (h : i ≠ j) :
    d.sortPair i j i = min (d i) (d j) := by
  unfold Buf.sortPair Buf.swap
  split_ifs with hc
  · simp [Buf.set, h, min_eq_right (le_of_lt hc)]
  · simp [min_eq_left (not_lt.mp hc)]

theorem Buf.sortPair_snd (d : Buf α) (i j : Nat) :
    d.sortPair i j j = max (d i) (d j) := by
  unfold Buf.sortPair Buf.swap
  split_ifs with hc
  · simp [Buf.set, max_eq_left (le_of_lt hc)]
  · simp [max_eq_right (not_lt.mp hc)]

theorem not_out_iff (tMin tMax x : α) :
    ¬ (x < tMin ∨ x > tMax) ↔ inInterval tMin tMax x = true := by
  simp [inInterval, not_or]

theorem filterLoop_spec (tmp : Buf α) (tMin tMax : α) (l : List Nat) (st : Nat × Buf α) :
    (filterLoop tmp tMin tMax l st).1
        = st.1 + ((l.map tmp).filter (inInterval tMin tMax)).length ∧
      (filterLoop tmp tMin tMax l st).2.take (filterLoop tmp tMin tMax l st).1
        = st.2.take st.1 ++ (l.map tmp).filter (inInterval tMin tMax) ∧
      ∀ j, (filterLoop tmp tMin tMax l st).1 ≤ j → (filterLoop tmp tMin tMax l st).2 j = st.2 j := by
  induction l generalizing st with
  | nil => simp [filterLoop]
  | cons i rest ih =>
    by_cases hout : tmp i < tMin ∨ tmp i > tMax
    · have hin : inInterval tMin tMax (tmp i) = false := by
        rw [← Bool.not_eq_true, ← not_out_iff]; exact not_not.mpr hout
      simp only [filterLoop, hout, if_true, List.map_cons, List.filter_cons, hin,
        Bool.false_eq_true, if_false]
      exact ih st
    · have hin : inInterval tMin tMax (tmp i) = true := (not_out_iff _ _ _).mp hout
      simp only [filterLoop, hout, if_false, List.map_cons, List.filter_cons, hin, if_true,
        List.length_cons]
      obtain ⟨h1, h2, h3⟩ := ih (st.1 + 1, st.2.set st.1 (tmp i))
      refine ⟨by rw [h1]; simp only []; omega, ?_, ?_⟩
      · rw [h2]
        simp only [Buf.take_succ, Buf.set_same, List.append_assoc, List.singleton_append]
        rw [Buf.take_set_ge _ _ (le_refl _)]
      · intro j hj
        rw [h3 j hj]
        simp only [] at h1
        exact Buf.set_other _ _ (by omega)

end

section
variable {α : Type} [LinearOrderedField α]

/-! ## Case analysis on the results of the solvers -/

theorem quad_cases (M : MathEnv α) (dst func : Buf α) (P : Nat × Buf α → Prop)
    (h0 : P (0, dst)) (h1 : ∀ x, P (1, dst.set 0 x))
    (h2 : ∀ x y, P (2, ((dst.set 0 x).set 1 y).sortPair 0 1)) :
    P (MathT_solve_Quadratic M dst func) := by
  cases ha : isFuzzyZero M (func 0)
  · by_cases hd : quadD func < 0
    · rw [quad_none_of_neg M dst func ha hd]; exact h0
    · cases hz : isFuzzyPositiveZero M (quadD func)
      · rw [quad_two M dst func ha hd hz]; exact h2 _ _
      · rw [quad_double M dst func ha hd hz]; exact h1 _
  · cases hb : isFuzzyZero M (func 1)
    · rw [quad_linear M dst func ha hb]; exact h1 _
    · rw [quad_none_of_fuzzy M dst func ha hb]; exact h0

theorem cubic_cases (M : MathEnv α) (dst func : Buf α) (P : Nat × Buf α → Prop)
    (h0 : P (0, dst)) (h1 : ∀ x, P (1, dst.set 0 x))
    (h2 : ∀ x y, P (2, ((dst.set 0 x).set 1 y).sortPair 0 1))
    (h3 : ∀ x y z, P (3, (((((dst.set 0 x).set 1 y).set 2 z).sortPair 0 1).sortPair 1 2).sortPair
      0 1)) :
    P (MathT_solve_Cubic M dst func) := by
  cases h : isFuzzyZero M (func 0)
  · cases hd : isFuzzyZero M (cubicD func)
    · by_cases hneg : cubicD func < 0
      · rw [cubic_three M dst func h hd hneg]; exact h3 _ _ _
      · rw [cubic_single M dst func h hd hneg]; exact h1 _
    · cases hq : isFuzzyZero M (cubicQ func)
      · rw [cubic_double M dst func h hd hq]; exact h2 _ _
      · rw [cubic_triple M dst func h hd hq]; exact h1 _
  · rw [cubic_delegate M dst func h]; exact quad_cases M dst _ P h0 h1 h2

/-- The values held after the three exchange steps of the cubic solver. -/
theorem sort3_vals (d : Buf α) :
    (((d.sortPair 0 1).sortPair 1 2).sortPair 0 1) 0
        = min (min (d 0) (d 1)) (min (max (d 0) (d 1)) (d 2)) ∧
    (((d.sortPair 0 1).sortPair 1 2).sortPair 0 1) 1
        = max (min (d 0) (d 1)) (min (max (d 0) (d 1)) (d 2)) ∧
    (((d.sortPair 0 1).sortPair 1 2).sortPair 0 1) 2 = max (max (d 0) (d 1)) (d 2) := by
  have e0 : (0:Nat) ≠ 1 := by decide
  have e1 : (1:Nat) ≠ 2 := by decide
  have e2 : (0:Nat) ≠ 2 := by decide
  refine ⟨?_, ?_, ?_⟩
  · rw [Buf.sortPair_fst _ e0, Buf.sortPair_other _ e0 e2, Buf.sortPair_fst _ e1,
      Buf.sortPair_fst _ e0, Buf.sortPair_snd, Buf.sortPair_other _ e2.symm e1.symm]
  · rw [Buf.sortPair_snd, Buf.sortPair_other _ e0 e2, Buf.sortPair_fst _ e1,
      Buf.sortPair_fst _ e0, Buf.sortPair_snd, Buf.sortPair_other _ e2.symm e1.symm]
  · rw [Buf.sortPair_other _ e2.symm e1.symm, Buf.sortPair_snd, Buf.sortPair_snd,
      Buf.sortPair_other _ e2.symm e1.symm]

theorem sort3_other (d : Buf α) {k : Nat} (hk : 3 ≤ k) :
    (((d.sortPair 0 1).sortPair 1 2).sortPair 0 1) k = d k := by
  rw [Buf.sortPair_other _ (by omega) (by omega), Buf.sortPair_other _ (by omega) (by omega),
    Buf.sortPair_other _ (by omega) (by omega)]

end

section
variable {α : Type} [LinearOrderedField α]

/-! ## Counts and written indices -/

theorem quad_count_frame (M : MathEnv α) (dst func : Buf α) :
    (MathT_solve_Quadratic M dst func).1 ≤ 2 ∧
      ∀ i, 2 ≤ i → (MathT_solve_Quadratic M dst func).2 i = dst i := by
  apply quad_cases M dst func
    (fun r => r.1 ≤ 2 ∧ ∀ i, 2 ≤ i → r.2 i = dst i)
  · simp
  · intro x
    refine ⟨by simp, fun i hi => ?_⟩
    exact Buf.set_other _ _ (by omega)
  · intro x y
    refine ⟨by simp, fun i hi => ?_⟩
    simp only []
    rw [Buf.sortPair_other _ (by omega) (by omega), Buf.set_other _ _ (by omega),
      Buf.set_other _ _ (by omega)]

theorem cubic_count_frame (M : MathEnv α) (dst func : Buf α) :
    (MathT_solve_Cubic M dst func).1 ≤ 3 ∧
      ∀ i, 3 ≤ i → (MathT_solve_Cubic M dst func).2 i = dst i := by
  apply cubic_cases M dst func
    (fun r => r.1 ≤ 3 ∧ ∀ i, 3 ≤ i → r.2 i = dst i)
  · simp
  · intro x
    refine ⟨by simp, fun i hi => ?_⟩
    exact Buf.set_other _ _ (by omega)
  · intro x y
    refine ⟨by simp, fun i hi => ?_⟩
    simp only []
    rw [Buf.sortPair_other _ (by omega) (by omega), Buf.set_other _ _ (by omega),
      Buf.set_other _ _ (by omega)]
  · intro x y z
    refine ⟨by simp, fun i hi => ?_⟩
    simp only []
    rw [sort3_other _ hi, Buf.set_other _ _ (by omega), Buf.set_other _ _ (by omega),
      Buf.set_other _ _ (by omega)]

theorem quarticTail_count_frame (M : MathEnv α) (d : Buf α) (base q0 q1 : α) :
    (quarticTail M d base q0 q1).1 ≤ 4 ∧
      ∀ i, 4 ≤ i → (quarticTail M d base q0 q1).2 i = d i := by
  unfold quarticTail
  simp only []
  split_ifs <;> refine ⟨by simp, fun i hi => ?_⟩ <;>
    simp [Buf.set, show i ≠ 0 by omega, show i ≠ 1 by omega, show i ≠ 2 by omega,
      show i ≠ 3 by omega]

theorem quartic_count_frame (M : MathEnv α) (cRoots0 dst func : Buf α) :
    (MathT_solve_Quartic M cRoots0 dst func).1 ≤ 4 ∧
      ∀ i, 4 ≤ i → (MathT_solve_Quartic M cRoots0 dst func).2 i = dst i := by
  have hA : ∀ i, 4 ≤ i → quarticDst M dst func i = dst i := by
    intro i hi
    unfold quarticDst
    split_ifs
    · exact (cubic_count_frame M dst _).2 i (by omega)
    · rfl
  rw [quartic_unfold]
  split_ifs
  · exact ⟨by simp, hA⟩
  · refine ⟨(quarticTail_count_frame M _ _ _ _).1, fun i hi => ?_⟩
    rw [(quarticTail_count_frame M _ _ _ _).2 i hi, hA i hi]

theorem filter_count_frame (tmp dst : Buf α) (tMin tMax : α) (n : Nat) :
    (filterLoop tmp tMin tMax (List.range n) (0, dst)).1 ≤ n ∧
      ∀ i, n ≤ i → (filterLoop tmp tMin tMax (List.range n) (0, dst)).2 i = dst i := by
  obtain ⟨h1, -, h3⟩ := filterLoop_spec tmp tMin tMax (List.range n) (0, dst)
  have hle : (filterLoop tmp tMin tMax (List.range n) (0, dst)).1 ≤ n := by
    rw [h1]
    simp only [zero_add]
    calc _ ≤ ((List.range n).map tmp).length := List.length_filter_le _ _
      _ = n := by simp
  exact ⟨hle, fun i hi => h3 i (by omega)⟩

end

section
variable {α : Type} [LinearOrderedField α]

/-! ## The interval-filtered quadratic solver -/

theorem filterLoop_one (tmp dst : Buf α) (tMin tMax : α) :
    filterLoop tmp tMin tMax (List.range 1) (0, dst)
      = if tmp 0 < tMin ∨ tmp 0 > tMax then (0, dst) else (1, dst.set 0 (tmp 0)) := by
  simp only [List.range_succ, List.range_zero, List.nil_append, filterLoop]

theorem filterLoop_two (tmp dst : Buf α) (tMin tMax : α) :
    filterLoop tmp tMin tMax (List.range 2) (0, dst)
      = if tmp 1 < tMin ∨ tmp 1 > tMax then
          (if tmp 0 < tMin ∨ tmp 0 > tMax then (0, dst) else (1, dst.set 0 (tmp 0)))
        else if tmp 0 < tMin ∨ tmp 0 > tMax then (1, dst.set 0 (tmp 1))
        else (2, (dst.set 0 (tmp 0)).set 1 (tmp 1)) := by
  have : List.range 2 = [0, 1] := rfl
  simp only [this, filterLoop]
  split_ifs <;> rfl

theorem solveAt_quad_two (M : MathEnv α) (dst func : Buf α) (tMin tMax : α)
    (ha : isFuzzyZero M (func 0) = false) (hd : ¬ quadD func < 0)
    (hz : isFuzzyPositiveZero M (quadD func) = false) :
    MathT_solveAt_Quadratic M dst func tMin tMax
      = (fun x0 x1 : α =>
          if (if x0 > x1 then x0 else x1) < tMin ∨ (if x0 > x1 then x0 else x1) > tMax then
            (if (if x0 > x1 then x1 else x0) < tMin ∨ (if x0 > x1 then x1 else x0) > tMax
              then (0, dst) else (1, dst.set 0 (if x0 > x1 then x1 else x0)))
          else if (if x0 > x1 then x1 else x0) < tMin ∨ (if x0 > x1 then x1 else x0) > tMax then
            (if (if x0 > x1 then x0 else x1) < tMin ∨ (if x0 > x1 then x0 else x1) > tMax
              then (0, dst) else (1, dst.set 0 (if x0 > x1 then x0 else x1)))
          else (2, (dst.set 0 (if x0 > x1 then x1 else x0)).set 1 (if x0 > x1 then x0 else x1)))
        (quadQ M func / func 0) (func 2 / quadQ M func) := by
  unfold quadD at hd hz
  simp only [MathT_solveAt_Quadratic, ha, hd, hz, if_false, Bool.false_eq_true, quadQ, quadD]

theorem solveAt_Quadratic_eq (M : MathEnv α) (tmp0 dst func : Buf α) (tMin tMax : α) :
    MathT_solveAt_Quadratic M dst func tMin tMax
      = solveAt_Quadratic_postFilter M tmp0 dst func tMin tMax := by
  unfold solveAt_Quadratic_postFilter
  simp only []
  cases ha : isFuzzyZero M (func 0)
  · by_cases hd : quadD func < 0
    · rw [quad_none_of_neg M tmp0 func ha hd]
      unfold quadD at hd
      simp [MathT_solveAt_Quadratic, ha, hd, filterLoop]
    · cases hz : isFuzzyPositiveZero M (quadD func)
      · rw [quad_two M tmp0 func ha hd hz, filterLoop_two]
        have e0 : (0:Nat) ≠ 1 := by decide
        dsimp only
        rw [Buf.sortPair_fst _ e0, Buf.sortPair_snd]
        simp only [Buf.set_same, Buf.set_other _ _ e0]
        rw [solveAt_quad_two M dst func tMin tMax ha hd hz]
        generalize quadQ M func / func 0 = x0
        generalize func 2 / quadQ M func = x1
        dsimp only
        by_cases hc : x0 > x1
        · simp only [hc, if_true, min_eq_right (le_of_lt hc), max_eq_left (le_of_lt hc)]
          split_ifs <;> rfl
        · simp only [hc, if_false, min_eq_left (not_lt.mp hc), max_eq_right (not_lt.mp hc)]
          split_ifs <;> rfl
      · rw [quad_double M tmp0 func ha hd hz, filterLoop_one]
        unfold quadD at hd hz
        simp [MathT_solveAt_Quadratic, ha, hd, hz]
  · cases hb : isFuzzyZero M (func 1)
    · rw [quad_linear M tmp0 func ha hb, filterLoop_one]
      simp [MathT_solveAt_Quadratic, ha, hb]
    · rw [quad_none_of_fuzzy M tmp0 func ha hb]
      simp [MathT_solveAt_Quadratic, ha, hb, filterLoop]

end

section
variable {α : Type} [LinearOrderedField α]

theorem quarticTail_eq (M : MathEnv α) (d : Buf α) (base q0 q1 : α) :
    quarticTail M d base q0 q1 =
      if q1 ≥ 0 ∧ isFuzzyEq M q0 q1 = false then
        if q0 ≥ 0 then
          if M.sqrt q0 * (1 / 2) ≥ M.eps then
            if M.sqrt q1 * (1 / 2) ≥ M.eps then
              (4, (((((d.set 0 (base - M.sqrt q0 * (1 / 2))).set 1 (base + M.sqrt q0 * (1 / 2))).set
                2 (base + M.sqrt q0 * (1 / 2))).set 1 (base - M.sqrt q0 * (1 / 2))).set
                0 (base - M.sqrt q1 * (1 / 2))).set 3 (base + M.sqrt q1 * (1 / 2)))
            else
              (3, ((((d.set 0 (base - M.sqrt q0 * (1 / 2))).set 1 (base + M.sqrt q0 * (1 / 2))).set
                2 (base + M.sqrt q0 * (1 / 2))).set 1 (base - M.sqrt q0 * (1 / 2))).set 0 base)
          else
            if M.sqrt q1 * (1 / 2) ≥ M.eps then
              (3, (((d.set 0 base).set 1 base).set 0 (base - M.sqrt q1 * (1 / 2))).set
                2 (base + M.sqrt q1 * (1 / 2)))
            else (2, ((d.set 0 base).set 1 base).set 0 base)
        else
          if M.sqrt q1 * (1 / 2) ≥ M.eps then
            (2, ((d.set 1 (d 0)).set 0 (base - M.sqrt q1 * (1 / 2))).set
              1 (base + M.sqrt q1 * (1 / 2)))
          else (1, (d.set 1 (d 0)).set 0 base)
      else
        if q0 ≥ 0 then
          if M.sqrt q0 * (1 / 2) ≥ M.eps then
            (2, (d.set 0 (base - M.sqrt q0 * (1 / 2))).set 1 (base + M.sqrt q0 * (1 / 2)))
          else (1, d.set 0 base)
        else (0, d) := by
  unfold quarticTail
  dsimp only
  by_cases h2 : q1 ≥ 0 ∧ isFuzzyEq M q0 q1 = false
  · rw [if_pos h2, if_pos h2]
    by_cases h1 : q0 ≥ 0
    · rw [if_pos h1, if_pos h1]
      by_cases h3 : M.sqrt q0 * (1 / 2) ≥ M.eps
      · rw [if_pos h3, if_pos h3]
        have e0 : (0:Nat) ≠ 1 := by decide
        simp only [if_true, Buf.set_same, Buf.set_other _ _ e0]
        have e2 : (((d.set 0 (base - M.sqrt q0 * (1 / 2))).set 1 (base + M.sqrt q0 * (1 / 2))).set
            2 (base + M.sqrt q0 * (1 / 2))) 0 = base - M.sqrt q0 * (1 / 2) := by
          simp [Buf.set]
        rw [e2]
      · rw [if_neg h3, if_neg h3]
        simp only [OfNat.one_ne_ofNat, if_false, Buf.set_same]
    · rw [if_neg h1, if_neg h1]
      simp only [OfNat.zero_ne_ofNat, if_false]
  · rw [if_neg h2, if_neg h2]

end

section
variable {α : Type} [LinearOrderedField α]

/-! ## The roots written do not depend on what the buffer held before -/

theorem sortPair2_vals (d : Buf α) (x y : α) :
    (((d.set 0 x).set 1 y).sortPair 0 1) 0 = min x y ∧
      (((d.set 0 x).set 1 y).sortPair 0 1) 1 = max x y := by
  have e0 : (0:Nat) ≠ 1 := by decide
  rw [Buf.sortPair_fst _ e0, Buf.sortPair_snd]
  simp [Buf.set_other _ _ e0]

theorem sort3_set_vals (d : Buf α) (x y z : α) :
    ((((((d.set 0 x).set 1 y).set 2 z).sortPair 0 1).sortPair 1 2).sortPair 0 1) 0
        = min (min x y) (min (max x y) z) ∧
    ((((((d.set 0 x).set 1 y).set 2 z).sortPair 0 1).sortPair 1 2).sortPair 0 1) 1
        = max (min x y) (min (max x y) z) ∧
    ((((((d.set 0 x).set 1 y).set 2 z).sortPair 0 1).sortPair 1 2).sortPair 0 1) 2
        = max (max x y) z := by
  have h := sort3_vals (((d.set 0 x).set 1 y).set 2 z)
  have e0 : (((d.set 0 x).set 1 y).set 2 z) 0 = x := by simp [Buf.set]
  have e1 : (((d.set 0 x).set 1 y).set 2 z) 1 = y := by simp [Buf.set]
  have e2 : (((d.set 0 x).set 1 y).set 2 z) 2 = z := by simp [Buf.set]
  rw [e0, e1, e2] at h
  exact h

theorem quad_indep (M : MathEnv α) (d1 d2 func : Buf α) :
    (MathT_solve_Quadratic M d1 func).1 = (MathT_solve_Quadratic M d2 func).1 ∧
      ∀ i, i < (MathT_solve_Quadratic M d1 func).1 →
        (MathT_solve_Quadratic M d1 func).2 i = (MathT_solve_Quadratic M d2 func).2 i := by
  cases ha : isFuzzyZero M (func 0)
  · by_cases hd : quadD func < 0
    · rw [quad_none_of_neg M d1 func ha hd, quad_none_of_neg M d2 func ha hd]
      simp
    · cases hz : isFuzzyPositiveZero M (quadD func)
      · rw [quad_two M d1 func ha hd hz, quad_two M d2 func ha hd hz]
        refine ⟨rfl, fun i hi => ?_⟩
        dsimp only at hi ⊢
        interval_cases i
        · rw [(sortPair2_vals d1 _ _).1, (sortPair2_vals d2 _ _).1]
        · rw [(sortPair2_vals d1 _ _).2, (sortPair2_vals d2 _ _).2]
      · rw [quad_double M d1 func ha hd hz, quad_double M d2 func ha hd hz]
        refine ⟨rfl, fun i hi => ?_⟩
        dsimp only at hi ⊢
        interval_cases i
        simp
  · cases hb : isFuzzyZero M (func 1)
    · rw [quad_linear M d1 func ha hb, quad_linear M d2 func ha hb]
      refine ⟨rfl, fun i hi => ?_⟩
      dsimp only at hi ⊢
      interval_cases i
      simp
    · rw [quad_none_of_fuzzy M d1 func ha hb, quad_none_of_fuzzy M d2 func ha hb]
      simp

theorem cubic_indep (M : MathEnv α) (d1 d2 func : Buf α) :
    (MathT_solve_Cubic M d1 func).1 = (MathT_solve_Cubic M d2 func).1 ∧
      ∀ i, i < (MathT_solve_Cubic M d1 func).1 →
        (MathT_solve_Cubic M d1 func).2 i = (MathT_solve_Cubic M d2 func).2 i := by
  cases h : isFuzzyZero M (func 0)
  · cases hd : isFuzzyZero M (cubicD func)
    · by_cases hneg : cubicD func < 0
      · rw [cubic_three M d1 func h hd hneg, cubic_three M d2 func h hd hneg]
        refine ⟨rfl, fun i hi => ?_⟩
        dsimp only at hi ⊢
        interval_cases i
        · rw [(sort3_set_vals d1 _ _ _).1, (sort3_set_vals d2 _ _ _).1]
        · rw [(sort3_set_vals d1 _ _ _).2.1, (sort3_set_vals d2 _ _ _).2.1]
        · rw [(sort3_set_vals d1 _ _ _).2.2, (sort3_set_vals d2 _ _ _).2.2]
      · rw [cubic_single M d1 func h hd hneg, cubic_single M d2 func h hd hneg]
        refine ⟨rfl, fun i hi => ?_⟩
        dsimp only at hi ⊢
        interval_cases i
        simp
    · cases hq : isFuzzyZero M (cubicQ func)
      · rw [cubic_double M d1 func h hd hq, cubic_double M d2 func h hd hq]
        refine ⟨rfl, fun i hi => ?_⟩
        dsimp only at hi ⊢
        interval_cases i
        · rw [(sortPair2_vals d1 _ _).1, (sortPair2_vals d2 _ _).1]
        · rw [(sortPair2_vals d1 _ _).2, (sortPair2_vals d2 _ _).2]
      · rw [cubic_triple M d1 func h hd hq, cubic_triple M d2 func h hd hq]
        refine ⟨rfl, fun i hi => ?_⟩
        dsimp only at hi ⊢
        interval_cases i
        simp
  · rw [cubic_delegate M d1 func h, cubic_delegate M d2 func h]
    exact quad_indep M d1 d2 _

theorem quarticTail_indep (M : MathEnv α) (d1 d2 : Buf α) (base q0 q1 : α) :
    (quarticTail M d1 base q0 q1).1 = (quarticTail M d2 base q0 q1).1 ∧
      ∀ i, i < (quarticTail M d1 base q0 q1).1 →
        (quarticTail M d1 base q0 q1).2 i = (quarticTail M d2 base q0 q1).2 i := by
  rw [quarticTail_eq M d1, quarticTail_eq M d2]
  split_ifs <;> refine ⟨rfl, fun i hi => ?_⟩ <;> dsimp only at hi ⊢ <;>
    interval_cases i <;> simp [Buf.set]

theorem quartic_indep (M : MathEnv α) (c1 c2 d1 d2 func : Buf α) :
    (MathT_solve_Quartic M c1 d1 func).1 = (MathT_solve_Quartic M c2 d2 func).1 ∧
      ∀ i, i < (MathT_solve_Quartic M c1 d1 func).1 →
        (MathT_solve_Quartic M c1 d1 func).2 i = (MathT_solve_Quartic M c2 d2 func).2 i := by
  have hc := cubic_indep M c1 c2 (quarticResolvent func)
  rw [quartic_unfold, quartic_unfold]
  by_cases h0 : (MathT_solve_Cubic M c1 (quarticResolvent func)).1 = 0
  · have h0' : (MathT_solve_Cubic M c2 (quarticResolvent func)).1 = 0 := by rw [← hc.1]; exact h0
    rw [if_pos h0, if_pos h0']
    simp
  · have h0' : ¬ (MathT_solve_Cubic M c2 (quarticResolvent func)).1 = 0 := by rw [← hc.1]; exact h0
    rw [if_neg h0, if_neg h0']
    have hx : quarticX M c1 func = quarticX M c2 func := by
      unfold quarticX
      rw [← hc.1]
      exact hc.2 _ (by omega)
    have hb : quarticBranch M c1 func = quarticBranch M c2 func := by
      unfold quarticBranch quarticW
      rw [hx]
    have hq : quarticQ M c1 func = quarticQ M c2 func := by
      unfold quarticQ
      rw [hb]
    rw [hb, hq]
    exact quarticTail_indep M _ _ _ _ _

end

theorem take_eq_of_indep {α : Type} {r1 r2 : Nat × Buf α} (h : r1.1 = r2.1 ∧ ∀ i, i < r1.1 → r1.2 i = r2.2 i) :
    r1.2.take r1.1 = r2.2.take r2.1 := by
  rw [← h.1]
  exact Buf.take_congr h.2

theorem getElem_take {α : Type} (d : Buf α) (n i : Nat) (h : i < (d.take n).length) :
    (d.take n)[i] = d i := by
  simp [Buf.take]

section
variable {α : Type} [LinearOrderedField α]

/-! ## The interval filter as a list filter -/

theorem filterLoop_take (tmp dst : Buf α) (tMin tMax : α) (n : Nat) :
    (filterLoop tmp tMin tMax (List.range n) (0, dst)).2.take
        (filterLoop tmp tMin tMax (List.range n) (0, dst)).1
      = (tmp.take n).filter (inInterval tMin tMax) ∧
    (filterLoop tmp tMin tMax (List.range n) (0, dst)).1
      = ((tmp.take n).filter (inInterval tMin tMax)).length := by
  obtain ⟨h1, h2, -⟩ := filterLoop_spec tmp tMin tMax (List.range n) (0, dst)
  constructor
  · rw [h2]; simp [Buf.take]
  · rw [h1]; simp [Buf.take]

theorem ascending_iff_pairwise (n : Nat) (d : Buf α) :
    Ascending n d ↔ (d.take n).Pairwise (fun a b => a ≤ b) := by
  constructor
  · intro h
    have hmono : ∀ k i, i + k < n → d i ≤ d (i + k) := by
      intro k
      induction k with
      | zero => intro i _; exact le_refl _
      | succ k ih =>
        intro i hi
        exact le_trans (ih i (by omega)) (h (i + k) (by omega))
    rw [List.pairwise_iff_getElem]
    intro i j hi hj hij
    rw [getElem_take, getElem_take]
    rw [Buf.length_take] at hj
    have := hmono (j - i) i (by omega)
    rwa [show i + (j - i) = j by omega] at this
  · intro h i hi
    rw [List.pairwise_iff_getElem] at h
    have := h i (i + 1) (by simp; omega) (by simp; omega) (by omega)
    rwa [getElem_take, getElem_take] at this

theorem filterLoop_ascending (tmp dst : Buf α) (tMin tMax : α) (n : Nat)
    (h : Ascending n tmp) :
    Ascending (filterLoop tmp tMin tMax (List.range n) (0, dst)).1
      (filterLoop tmp tMin tMax (List.range n) (0, dst)).2 := by
  rw [ascending_iff_pairwise, (filterLoop_take tmp dst tMin tMax n).1]
  exact List.Pairwise.filter _ ((ascending_iff_pairwise n tmp).mp h)

end

section
variable {α : Type} [LinearOrderedField α]

/-! ## Polynomial values -/

theorem polyEval_two (func : Buf α) (x : α) :
    polyEval func 2 x = func 0 * x ^ 2 + func 1 * x + func 2 := by
  simp [polyEval, List.range_succ]
  ring

theorem polyEval_three (func : Buf α) (x : α) :
    polyEval func 3 x = func 0 * x ^ 3 + func 1 * x ^ 2 + func 2 * x + func 3 := by
  simp [polyEval, List.range_succ]
  ring

theorem polyEval_four (func : Buf α) (x : α) :
    polyEval func 4 x
      = func 0 * x ^ 4 + func 1 * x ^ 3 + func 2 * x ^ 2 + func 3 * x + func 4 := by
  simp [polyEval, List.range_succ]
  ring

theorem ne_zero_of_not_fuzzy (M : MathEnv α) (h0 : 0 < M.eps) {x : α}
    (h : isFuzzyZero M x = false) : x ≠ 0 := by
  intro hx
  rw [hx] at h
  simp [isFuzzyZero, h0] at h

/-- The algebra of the stable quadratic formula: with `s` a square root of the
positive discriminant, `q = -(b + sign(b) s) / 2` is non-zero and `q / a`, `c / q` are the
two distinct roots. -/
theorem quad_formula (a b c s : α) (ha : a ≠ 0) (hd : 0 < b * b - 4 * a * c)
    (hs0 : 0 ≤ s) (hs : s * s = b * b - 4 * a * c) :
    -(1 / 2) * (b + (if b < 0 then -s else s)) ≠ 0 ∧
    a * (-(1 / 2) * (b + (if b < 0 then -s else s)) / a) ^ 2
      + b * (-(1 / 2) * (b + (if b < 0 then -s else s)) / a) + c = 0 ∧
    a * (c / (-(1 / 2) * (b + (if b < 0 then -s else s)))) ^ 2
      + b * (c / (-(1 / 2) * (b + (if b < 0 then -s else s)))) + c = 0 ∧
    -(1 / 2) * (b + (if b < 0 then -s else s)) / a
      ≠ c / (-(1 / 2) * (b + (if b < 0 then -s else s))) := by
  have hspos : 0 < s := by
    rcases eq_or_lt_of_le hs0 with h | h
    · rw [← h] at hs; simp at hs; rw [← hs] at hd; exact absurd hd (lt_irrefl _)
    · exact h
  generalize hq : -(1 / 2) * (b + (if b < 0 then -s else s)) = q
  have hq0 : q ≠ 0 := by
    rw [← hq]
    split_ifs with hb
    · have : 0 < -(1 / 2) * (b + -s) := by linarith
      exact ne_of_gt this
    · have : -(1 / 2) * (b + s) < 0 := by linarith [not_lt.mp hb]
      exact ne_of_lt this
  have hkey : q * q + b * q + a * c = 0 := by
    rw [← hq]
    split_ifs with hb
    · linear_combination (1 / 4) * hs
    · linear_combination (1 / 4) * hs
  have h2 : 2 * q + b ≠ 0 := by
    rw [← hq]
    split_ifs with hb
    · intro h; linarith
    · intro h; linarith
  refine ⟨hq0, ?_, ?_, ?_⟩
  · have e : a * (q / a) ^ 2 + b * (q / a) + c = (q * q + b * q + a * c) / a := by
      field_simp
      ring
    rw [e, hkey, zero_div]
  · have e : a * (c / q) ^ 2 + b * (c / q) + c = c * (q * q + b * q + a * c) / (q * q) := by
      field_simp
      ring
    rw [e, hkey, mul_zero, zero_div]
  · intro h
    rw [div_eq_div_iff ha hq0] at h
    have : q * (2 * q + b) = 0 := by linear_combination hkey + h
    rcases mul_eq_zero.mp this with h' | h'
    · exact hq0 h'
    · exact h2 h'

end

/-! ## Exact real arithmetic -/

theorem MathEnv.Exact.sqrt_nonneg {M : MathEnv ℝ} (hM : M.Exact) {x : ℝ} (hx : 0 ≤ x) :
    0 ≤ M.sqrt x := by
  rw [hM.sqrt_eq x hx]; exact Real.sqrt_nonneg x

theorem MathEnv.Exact.sqrt_mul_self {M : MathEnv ℝ} (hM : M.Exact) {x : ℝ} (hx : 0 ≤ x) :
    M.sqrt x * M.sqrt x = x := by
  rw [hM.sqrt_eq x hx]; exact Real.mul_self_sqrt hx

theorem MathEnv.Exact.sqrt_le {M : MathEnv ℝ} (hM : M.Exact) {x y : ℝ} (hx : 0 ≤ x)
    (h : x ≤ y) : M.sqrt x ≤ M.sqrt y := by
  rw [hM.sqrt_eq x hx, hM.sqrt_eq y (le_trans hx h)]; exact Real.sqrt_le_sqrt h

/-- The real functions, with the cube root that keeps the sign of its
argument and a tolerance of `1e-14`, form an exact environment. -/
theorem exact_real_env :
    MathEnv.Exact (⟨1 / 10 ^ 14, Real.sqrt,
      fun x => if 0 ≤ x then x ^ ((1:ℝ) / 3) else -((-x) ^ ((1:ℝ) / 3)),
      Real.arccos, Real.cos, Real.pi / 3⟩ : MathEnv ℝ) := by
  refine ⟨by norm_num, fun _ _ => rfl, ?_, fun _ _ _ => rfl, fun _ => rfl, rfl⟩
  intro x
  have key : ∀ y : ℝ, 0 ≤ y → (y ^ ((1:ℝ) / 3)) ^ 3 = y := by
    intro y hy
    rw [← Real.rpow_natCast, ← Real.rpow_mul hy]
    norm_num
  dsimp only
  split_ifs with h
  · exact key x h
  · have h' : 0 ≤ -x := by linarith
    have : (-((-x) ^ ((1:ℝ) / 3))) ^ 3 = -(((-x) ^ ((1:ℝ) / 3)) ^ 3) := by ring
    rw [this, key (-x) h']
    ring

/-! ## Claims on the quadratic solver -/

theorem quad_two_real (M : MathEnv ℝ) (hM : M.Exact) (dst func : Buf ℝ)
    (ha : isFuzzyZero M (func 0) = false) (hd : 0 < quadD func)
    (hz : isFuzzyZero M (quadD func) = false) :
    MathT_solve_Quadratic M dst func
      = (2, ((dst.set 0 (quadQ M func / func 0)).set 1 (func 2 / quadQ M func)).sortPair 0 1) ∧
    quadQ M func ≠ 0 ∧
    polyEval func 2 (quadQ M func / func 0) = 0 ∧
    polyEval func 2 (func 2 / quadQ M func) = 0 ∧
    quadQ M func / func 0 ≠ func 2 / quadQ M func := by
  have ha0 : func 0 ≠ 0 := ne_zero_of_not_fuzzy M hM.eps_pos ha
  have hz' : isFuzzyPositiveZero M (quadD func) = false := hz
  refine ⟨quad_two M dst func ha (not_lt.mpr (le_of_lt hd)) hz', ?_⟩
  have h := quad_formula (func 0) (func 1) (func 2) (M.sqrt (quadD func)) ha0 hd
    (hM.sqrt_nonneg (le_of_lt hd)) (hM.sqrt_mul_self (le_of_lt hd))
  rw [polyEval_two, polyEval_two]
  exact h

/-- C3: in exact real arithmetic, when `a = func[0]` is not fuzzy-zero and the
discriminant `d = b^2 - 4ac` is positive and not fuzzy-zero,
`MathT_solve_Quadratic` returns 2 with `dst[0] <= dst[1]`; the two values are
`q / a` and `c / q` (the smaller first) for `q = -0.5 * (b + (b < 0 ? -s : s))`,
`s = sqrt(d)`; `q` is not zero, and both values are roots of `a x^2 + b x + c`. -/
theorem solve_Quadratic_two_roots (M : MathEnv ℝ) (hM : M.Exact) (dst func : Buf ℝ)
    (ha : isFuzzyZero M (func 0) = false) (hd : 0 < quadD func)
    (hz : isFuzzyZero M (quadD func) = false) :
    (MathT_solve_Quadratic M dst func).1 = 2 ∧
    (MathT_solve_Quadratic M dst func).2 0 ≤ (MathT_solve_Quadratic M dst func).2 1 ∧
    quadQ M func ≠ 0 ∧
    (MathT_solve_Quadratic M dst func).2 0
      = min (quadQ M func / func 0) (func 2 / quadQ M func) ∧
    (MathT_solve_Quadratic M dst func).2 1
      = max (quadQ M func / func 0) (func 2 / quadQ M func) ∧
    polyEval func 2 ((MathT_solve_Quadratic M dst func).2 0) = 0 ∧
    polyEval func 2 ((MathT_solve_Quadratic M dst func).2 1) = 0 := by
  obtain ⟨he, hq, h0, h1, -⟩ := quad_two_real M hM dst func ha hd hz
  rw [he]
  dsimp only
  rw [(sortPair2_vals dst _ _).1, (sortPair2_vals dst _ _).2]
  refine ⟨rfl, min_le_max, hq, rfl, rfl, ?_, ?_⟩
  · rcases min_choice (quadQ M func / func 0) (func 2 / quadQ M func) with h | h <;> rw [h] <;>
      assumption
  · rcases max_choice (quadQ M func / func 0) (func 2 / quadQ M func) with h | h <;> rw [h] <;>
      assumption

/-- C3, witness: the quadratic `(1, -3, 2)` gives the roots `1, 2`. -/
theorem solve_Quadratic_two_roots_witness :
    (MathT_solve_Quadratic (⟨1 / 10 ^ 14, Real.sqrt,
      fun x => if 0 ≤ x then x ^ ((1:ℝ) / 3) else -((-x) ^ ((1:ℝ) / 3)),
      Real.arccos, Real.cos, Real.pi / 3⟩ : MathEnv ℝ) (fun _ => 0) (Buf.ofList [1, -3, 2])).1 = 2 ∧
    (MathT_solve_Quadratic (⟨1 / 10 ^ 14, Real.sqrt,
      fun x => if 0 ≤ x then x ^ ((1:ℝ) / 3) else -((-x) ^ ((1:ℝ) / 3)),
      Real.arccos, Real.cos, Real.pi / 3⟩ : MathEnv ℝ) (fun _ => 0) (Buf.ofList [1, -3, 2])).2.take 2
      = [1, 2] := by
  have hd : quadD (Buf.ofList [1, -3, 2] : Buf ℝ) = 1 := by
    norm_num [quadD, Buf.ofList]
  have h := solve_Quadratic_two_roots _ exact_real_env (fun _ => 0) (Buf.ofList [1, -3, 2])
    (by norm_num [isFuzzyZero, Buf.ofList]) (by rw [hd]; norm_num)
    (by rw [hd]; norm_num [isFuzzyZero])
  obtain ⟨h1, -, -, h3, h4, -⟩ := h
  refine ⟨h1, ?_⟩
  have hq : quadQ (⟨1 / 10 ^ 14, Real.sqrt,
      fun x => if 0 ≤ x then x ^ ((1:ℝ) / 3) else -((-x) ^ ((1:ℝ) / 3)),
      Real.arccos, Real.cos, Real.pi / 3⟩ : MathEnv ℝ) (Buf.ofList [1, -3, 2]) = 2 := by
    unfold quadQ
    rw [hd]
    norm_num [Buf.ofList]
  rw [hq] at h3 h4
  simp only [Buf.take, List.range_succ, List.range_zero, List.nil_append, List.map_cons,
    List.map_nil, List.cons_append, h3, h4]
  norm_num [Buf.ofList]

/-! ## The cubic solver in exact real arithmetic -/

theorem cubic_depressed {α : Type} [LinearOrderedField α] (func : Buf α) (h0 : func 0 ≠ 0)
    (y : α) :
    polyEval func 3 (cubicSub func + y)
      = func 0 * (y ^ 3 + 3 * cubicP func * y + 2 * cubicQ func) := by
  rw [polyEval_three]
  unfold cubicSub cubicP cubicQ
  field_simp
  ring

theorem cube_injective {x y : ℝ} (h : x ^ 3 = y ^ 3) : x = y := by
  have hsm : StrictMono (fun a : ℝ => a ^ 3) := Odd.strictMono_pow (by decide)
  exact hsm.injective h

/-- Cardano: the sum of the two cube roots solves the depressed cubic. -/
theorem cardano_single (p q s u v : ℝ) (hs : s * s = q * q + p * p * p)
    (hu : u ^ 3 = s - q) (hv : v ^ 3 = s + q) :
    (u + -v) ^ 3 + 3 * p * (u + -v) + 2 * q = 0 := by
  have huv : u * v = p := by
    apply cube_injective
    have : (u * v) ^ 3 = u ^ 3 * v ^ 3 := by ring
    rw [this, hu, hv]
    linear_combination hs
  have e : (u + -v) ^ 3 = u ^ 3 - v ^ 3 - 3 * (u * v) * (u + -v) := by ring
  rw [e, hu, hv, huv]
  ring

theorem cubic_single_real (M : MathEnv ℝ) (hM : M.Exact) (dst func : Buf ℝ)
    (h0 : isFuzzyZero M (func 0) = false) (hd : 0 < cubicD func)
    (hz : isFuzzyZero M (cubicD func) = false) :
    MathT_solve_Cubic M dst func
      = (1, dst.set 0 (cubicSub func + M.cbrt (M.sqrt (cubicD func) - cubicQ func)
          + -M.cbrt (M.sqrt (cubicD func) + cubicQ func))) ∧
    polyEval func 3 (cubicSub func + M.cbrt (M.sqrt (cubicD func) - cubicQ func)
          + -M.cbrt (M.sqrt (cubicD func) + cubicQ func)) = 0 := by
  refine ⟨cubic_single M dst func h0 hz (not_lt.mpr (le_of_lt hd)), ?_⟩
  have hn : func 0 ≠ 0 := ne_zero_of_not_fuzzy M hM.eps_pos h0
  rw [add_assoc, cubic_depressed func hn]
  have hs := hM.sqrt_mul_self (le_of_lt hd)
  rw [cardano_single (cubicP func) (cubicQ func) (M.sqrt (cubicD func)) _ _ hs
    (hM.cbrt_cube _) (hM.cbrt_cube _), mul_zero]

theorem viete_root (p q w c : ℝ) (hp : p < 0) (hw0 : 0 < w) (hw : w * w = -p)
    (hc : 4 * c ^ 3 - 3 * c = -q / (-p * w)) :
    (2 * w * c) ^ 3 + 3 * p * (2 * w * c) + 2 * q = 0 := by
  have hne : -p * w ≠ 0 := ne_of_gt (mul_pos (by linarith) hw0)
  have hc' : (4 * c ^ 3 - 3 * c) * (-p * w) = -q := by
    rw [hc, div_mul_cancel₀ _ hne]
  linear_combination (8 * w * c ^ 3) * hw + 2 * hc'

/-- The facts behind the three-root branch: for `q^2 + p^3 < 0` the argument
of `acos` lies strictly inside `[-1, 1]`, the angle `phi` lies strictly inside
`[0, π / 3]`, and `cos (3 phi)` is that argument. -/
theorem viete_angle (p q : ℝ) (hd : q * q + p * p * p < 0) :
    p < 0 ∧ 0 < -(p * p * p) ∧ 0 < Real.sqrt (-(p * p * p)) ∧
    -1 < -q / Real.sqrt (-(p * p * p)) ∧ -q / Real.sqrt (-(p * p * p)) < 1 ∧
    0 < 1 / 3 * Real.arccos (-q / Real.sqrt (-(p * p * p))) ∧
    1 / 3 * Real.arccos (-q / Real.sqrt (-(p * p * p))) < Real.pi / 3 ∧
    Real.cos (3 * (1 / 3 * Real.arccos (-q / Real.sqrt (-(p * p * p)))))
      = -q / (-p * Real.sqrt (-p)) := by
  have hp : p < 0 := by
    by_contra h
    have h' : 0 ≤ p := not_lt.mp h
    have : 0 ≤ p * p * p := mul_nonneg (mul_nonneg h' h') h'
    nlinarith [mul_self_nonneg q]
  have hw0 : 0 < Real.sqrt (-p) := Real.sqrt_pos.mpr (by linarith)
  have hw : Real.sqrt (-p) * Real.sqrt (-p) = -p := Real.mul_self_sqrt (by linarith)
  have hs : Real.sqrt (-(p * p * p)) = -p * Real.sqrt (-p) := by
    rw [Real.sqrt_eq_iff_mul_self_eq_of_pos (mul_pos (by linarith) hw0)]
    have : -p * Real.sqrt (-p) * (-p * Real.sqrt (-p))
        = p * p * (Real.sqrt (-p) * Real.sqrt (-p)) := by ring
    rw [this, hw]; ring
  have hs0 : 0 < -p * Real.sqrt (-p) := mul_pos (by linarith) hw0
  have hss : (-p * Real.sqrt (-p)) * (-p * Real.sqrt (-p)) = -(p * p * p) := by
    have : -p * Real.sqrt (-p) * (-p * Real.sqrt (-p))
        = p * p * (Real.sqrt (-p) * Real.sqrt (-p)) := by ring
    rw [this, hw]; ring
  rw [hs]
  have hr1 : -q / (-p * Real.sqrt (-p)) < 1 := by
    rw [div_lt_one hs0]
    nlinarith [mul_self_nonneg (q + -p * Real.sqrt (-p))]
  have hr2 : -1 < -q / (-p * Real.sqrt (-p)) := by
    rw [lt_div_iff₀ hs0]
    nlinarith [mul_self_nonneg (q - -p * Real.sqrt (-p))]
  have ha1 : 0 < Real.arccos (-q / (-p * Real.sqrt (-p))) := Real.arccos_pos.mpr hr1
  have ha2 : Real.arccos (-q / (-p * Real.sqrt (-p))) < Real.pi := by
    rcases lt_or_eq_of_le (Real.arccos_le_pi (-q / (-p * Real.sqrt (-p)))) with h | h
    · exact h
    · rw [Real.arccos_eq_pi] at h; linarith
  refine ⟨hp, by rw [← hss]; exact mul_pos hs0 hs0, hs0, hr2, hr1, by linarith, by linarith, ?_⟩
  have : 3 * (1 / 3 * Real.arccos (-q / (-p * Real.sqrt (-p))))
      = Real.arccos (-q / (-p * Real.sqrt (-p))) := by ring
  rw [this, Real.cos_arccos (le_of_lt hr2) (le_of_lt hr1)]

/-- The three cosines of the trigonometric form, for an angle strictly inside
`[0, π / 3]`: each satisfies the triple-angle relation with `cos (3 phi)`, and
they are strictly ordered. -/
theorem viete_cosines (phi : ℝ) (h0 : 0 < phi) (h1 : phi < Real.pi / 3) :
    4 * Real.cos phi ^ 3 - 3 * Real.cos phi = Real.cos (3 * phi) ∧
    4 * (-Real.cos (phi + Real.pi / 3)) ^ 3 - 3 * (-Real.cos (phi + Real.pi / 3))
      = Real.cos (3 * phi) ∧
    4 * (-Real.cos (phi - Real.pi / 3)) ^ 3 - 3 * (-Real.cos (phi - Real.pi / 3))
      = Real.cos (3 * phi) ∧
    -Real.cos (phi - Real.pi / 3) < -Real.cos (phi + Real.pi / 3) ∧
    -Real.cos (phi + Real.pi / 3) < Real.cos phi := by
  have hpi := Real.pi_pos
  refine ⟨(Real.cos_three_mul phi).symm, ?_, ?_, ?_, ?_⟩
  · have e : 4 * (-Real.cos (phi + Real.pi / 3)) ^ 3 - 3 * (-Real.cos (phi + Real.pi / 3))
        = -(4 * Real.cos (phi + Real.pi / 3) ^ 3 - 3 * Real.cos (phi + Real.pi / 3)) := by ring
    rw [e, ← Real.cos_three_mul, show 3 * (phi + Real.pi / 3) = 3 * phi + Real.pi by ring,
      Real.cos_add_pi, neg_neg]
  · have e : 4 * (-Real.cos (phi - Real.pi / 3)) ^ 3 - 3 * (-Real.cos (phi - Real.pi / 3))
        = -(4 * Real.cos (phi - Real.pi / 3) ^ 3 - 3 * Real.cos (phi - Real.pi / 3)) := by ring
    rw [e, ← Real.cos_three_mul, show 3 * (phi - Real.pi / 3) = 3 * phi - Real.pi by ring,
      Real.cos_sub_pi, neg_neg]
  · have e1 : -Real.cos (phi - Real.pi / 3) = Real.cos (2 * Real.pi / 3 + phi) := by
      rw [← Real.cos_neg (phi - Real.pi / 3), ← Real.cos_pi_sub]
      congr 1; ring
    have e2 : -Real.cos (phi + Real.pi / 3) = Real.cos (2 * Real.pi / 3 - phi) := by
      rw [← Real.cos_pi_sub]
      congr 1; ring
    rw [e1, e2]
    exact Real.cos_lt_cos_of_nonneg_of_le_pi (by linarith) (by linarith) (by linarith)
  · have e2 : -Real.cos (phi + Real.pi / 3) = Real.cos (2 * Real.pi / 3 - phi) := by
      rw [← Real.cos_pi_sub]
      congr 1; ring
    rw [e2]
    exact Real.cos_lt_cos_of_nonneg_of_le_pi (by linarith) (by linarith) (by linarith)

theorem cubic_three_real (M : MathEnv ℝ) (hM : M.Exact) (dst func : Buf ℝ)
    (h0 : isFuzzyZero M (func 0) = false) (hd : cubicD func < 0)
    (hz : isFuzzyZero M (cubicD func) = false) :
    MathT_solve_Cubic M dst func
      = (3, (((((dst.set 0 (cubicTrig M func).1).set 1 (cubicTrig M func).2.1).set 2
          (cubicTrig M func).2.2).sortPair 0 1).sortPair 1 2).sortPair 0 1) ∧
    polyEval func 3 (cubicTrig M func).1 = 0 ∧
    polyEval func 3 (cubicTrig M func).2.1 = 0 ∧
    polyEval func 3 (cubicTrig M func).2.2 = 0 ∧
    (cubicTrig M func).2.2 < (cubicTrig M func).2.1 ∧
    (cubicTrig M func).2.1 < (cubicTrig M func).1 := by
  refine ⟨cubic_three M dst func h0 hz hd, ?_⟩
  have hn : func 0 ≠ 0 := ne_zero_of_not_fuzzy M hM.eps_pos h0
  have hd' : cubicQ func * cubicQ func + cubicP func * cubicP func * cubicP func < 0 := hd
  obtain ⟨hp, hp3, -, hr2, hr1, ha0, ha1, hcos⟩ := viete_angle (cubicP func) (cubicQ func) hd'
  have hphi : cubicPhi M func
      = 1 / 3 * Real.arccos (-cubicQ func
        / Real.sqrt (-(cubicP func * cubicP func * cubicP func))) := by
    unfold cubicPhi
    rw [hM.sqrt_eq _ (le_of_lt hp3), hM.acos_eq _ (le_of_lt hr2) (le_of_lt hr1)]
  rw [← hphi] at ha0 ha1 hcos
  obtain ⟨c1, c2, c3, o1, o2⟩ := viete_cosines (cubicPhi M func) ha0 ha1
  rw [hcos] at c1 c2 c3
  have hw0 : 0 < Real.sqrt (-cubicP func) := Real.sqrt_pos.mpr (by linarith)
  have hw : Real.sqrt (-cubicP func) * Real.sqrt (-cubicP func) = -cubicP func :=
    Real.mul_self_sqrt (by linarith)
  have e1 : (cubicTrig M func).1
      = cubicSub func + 2 * Real.sqrt (-cubicP func) * Real.cos (cubicPhi M func) := by
    unfold cubicTrig
    rw [hM.sqrt_eq _ (by linarith), hM.cos_eq]
  have e2 : (cubicTrig M func).2.1
      = cubicSub func
        + 2 * Real.sqrt (-cubicP func) * -Real.cos (cubicPhi M func + Real.pi / 3) := by
    unfold cubicTrig
    dsimp only
    rw [hM.sqrt_eq _ (by linarith), hM.cos_eq, hM.thirdPi_eq]
    ring
  have e3 : (cubicTrig M func).2.2
      = cubicSub func
        + 2 * Real.sqrt (-cubicP func) * -Real.cos (cubicPhi M func - Real.pi / 3) := by
    unfold cubicTrig
    dsimp only
    rw [hM.sqrt_eq _ (by linarith), hM.cos_eq, hM.thirdPi_eq]
    ring
  rw [e1, e2, e3, cubic_depressed func hn, cubic_depressed func hn, cubic_depressed func hn,
    viete_root _ _ _ _ hp hw0 hw c1, viete_root _ _ _ _ hp hw0 hw c2,
    viete_root _ _ _ _ hp hw0 hw c3, mul_zero]
  refine ⟨rfl, rfl, rfl, ?_, ?_⟩
  · have := mul_lt_mul_of_pos_left o1 (by linarith : 0 < 2 * Real.sqrt (-cubicP func))
    linarith
  · have := mul_lt_mul_of_pos_left o2 (by linarith : 0 < 2 * Real.sqrt (-cubicP func))
    linarith

/-- The values after the three exchange steps, for a strictly descending triple. -/
theorem sort3_of_desc {α : Type} [LinearOrderedField α] (d : Buf α) (x y z : α)
    (hzy : z < y) (hyx : y < x) :
    ((((((d.set 0 x).set 1 y).set 2 z).sortPair 0 1).sortPair 1 2).sortPair 0 1) 0 = z ∧
    ((((((d.set 0 x).set 1 y).set 2 z).sortPair 0 1).sortPair 1 2).sortPair 0 1) 1 = y ∧
    ((((((d.set 0 x).set 1 y).set 2 z).sortPair 0 1).sortPair 1 2).sortPair 0 1) 2 = x := by
  obtain ⟨h0, h1, h2⟩ := sort3_set_vals d x y z
  rw [h0, h1, h2]
  have hxy : min x y = y := min_eq_right (le_of_lt hyx)
  have hxy' : max x y = x := max_eq_left (le_of_lt hyx)
  rw [hxy, hxy', min_eq_right (le_of_lt (lt_trans hzy hyx)), min_eq_right (le_of_lt hzy),
    max_eq_left (le_of_lt hzy), max_eq_left (le_of_lt (lt_trans hzy hyx))]
  exact ⟨rfl, rfl, rfl⟩

/-! ## Order of the roots written -/

theorem quarticSwap_spec {α : Type} [LinearOrderedField α] (a b : α)
    (h : (quarticSwap a b).2 ≥ 0) :
    0 ≤ (quarticSwap a b).1 ∧ (quarticSwap a b).1 ≤ (quarticSwap a b).2 := by
  unfold quarticSwap at h ⊢
  split_ifs at h ⊢ with hc
  · dsimp only at h ⊢
    rcases hc with hc | hc
    · exact absurd h (not_le.mpr hc)
    · exact ⟨hc.2, le_of_lt hc.1⟩
  · dsimp only at h ⊢
    rw [not_or, not_and] at hc
    have h0 : 0 ≤ a := not_lt.mp hc.1
    refine ⟨h0, ?_⟩
    by_contra hlt
    exact hc.2 (not_le.mp hlt) h

theorem quarticTail_ascending (M : MathEnv ℝ) (hM : M.Exact) (d : Buf ℝ) (base q0 q1 : ℝ)
    (hq : q1 ≥ 0 → 0 ≤ q0 ∧ q0 ≤ q1) :
    Ascending (quarticTail M d base q0 q1).1 (quarticTail M d base q0 q1).2 := by
  have heps := hM.eps_pos
  have hmono : q1 ≥ 0 → M.sqrt q0 * (1 / 2) ≤ M.sqrt q1 * (1 / 2) := by
    intro h
    have := hM.sqrt_le (hq h).1 (hq h).2
    linarith
  rw [quarticTail_eq]
  split_ifs with h2 h1 h3 h4 h5 h6 h7 h8
  all_goals intro i hi
  all_goals dsimp only at hi ⊢
  all_goals have hi3 : i < 3 := by omega
  all_goals interval_cases i
  all_goals first | (exfalso; omega) | skip
  all_goals simp [Buf.set]
  all_goals first
    | linarith [hmono h2.1]
    | exact absurd (hq h2.1).1 h1
    | linarith

section
variable {α : Type} [LinearOrderedField α]

theorem quad_ascending (M : MathEnv α) (dst func : Buf α) :
    Ascending (MathT_solve_Quadratic M dst func).1 (MathT_solve_Quadratic M dst func).2 := by
  apply quad_cases M dst func (fun r => Ascending r.1 r.2)
  · intro i hi; omega
  · intro x i hi; omega
  · intro x y i hi
    dsimp only at hi ⊢
    have hi0 : i = 0 := by omega
    subst hi0
    rw [(sortPair2_vals dst x y).1, (sortPair2_vals dst x y).2]
    exact min_le_max

theorem cubic_ascending (M : MathEnv α) (dst func : Buf α) :
    Ascending (MathT_solve_Cubic M dst func).1 (MathT_solve_Cubic M dst func).2 := by
  apply cubic_cases M dst func (fun r => Ascending r.1 r.2)
  · intro i hi; omega
  · intro x i hi; omega
  · intro x y i hi
    dsimp only at hi ⊢
    have hi0 : i = 0 := by omega
    subst hi0
    rw [(sortPair2_vals dst x y).1, (sortPair2_vals dst x y).2]
    exact min_le_max
  · intro x y z i hi
    dsimp only at hi ⊢
    obtain ⟨h0, h1, h2⟩ := sort3_set_vals dst x y z
    have hi3 : i < 2 := by omega
    interval_cases i
    · rw [h0, h1]; exact min_le_max
    · rw [h1, h2]
      exact max_le (le_trans (min_le_left _ _) (le_trans (le_max_left _ _) (le_max_left _ _)))
        (le_trans (min_le_right _ _) (le_max_right _ _))

end

theorem quartic_ascending (M : MathEnv ℝ) (hM : M.Exact) (cRoots0 dst func : Buf ℝ) :
    Ascending (MathT_solve_Quartic M cRoots0 dst func).1
      (MathT_solve_Quartic M cRoots0 dst func).2 := by
  rw [quartic_unfold]
  split_ifs
  · intro i hi; dsimp only at hi; omega
  · exact quarticTail_ascending M hM _ _ _ _ (quarticSwap_spec _ _)

/-! ## Distinct roots -/

/-- In the three-root branch, a cubic that factors over three distinct real
roots gets exactly these roots, in ascending order. -/
theorem cubic_three_factored (M : MathEnv ℝ) (hM : M.Exact) (dst func : Buf ℝ)
    (h0 : isFuzzyZero M (func 0) = false) (hd : cubicD func < 0)
    (hz : isFuzzyZero M (cubicD func) = false) (r1 r2 r3 : ℝ) (h12 : r1 < r2) (h23 : r2 < r3)
    (hf : ∀ x, polyEval func 3 x = func 0 * ((x - r1) * (x - r2) * (x - r3))) :
    (MathT_solve_Cubic M dst func).1 = 3 ∧
    (MathT_solve_Cubic M dst func).2 0 = r1 ∧
    (MathT_solve_Cubic M dst func).2 1 = r2 ∧
    (MathT_solve_Cubic M dst func).2 2 = r3 := by
  obtain ⟨he, p1, p2, p3, o1, o2⟩ := cubic_three_real M hM dst func h0 hd hz
  obtain ⟨s0, s1, s2⟩ := sort3_of_desc dst _ _ _ o1 o2
  have hn : func 0 ≠ 0 := ne_zero_of_not_fuzzy M hM.eps_pos h0
  have mem : ∀ x, polyEval func 3 x = 0 → x = r1 ∨ x = r2 ∨ x = r3 := by
    intro x hx
    rw [hf x] at hx
    rcases mul_eq_zero.mp hx with h | h
    · exact absurd h hn
    · rcases mul_eq_zero.mp h with h | h
      · rcases mul_eq_zero.mp h with h | h
        · left; linarith
        · right; left; linarith
      · right; right; linarith
  rw [he]
  dsimp only
  rw [s0, s1, s2]
  refine ⟨rfl, ?_⟩
  rcases mem _ p1 with a | a | a <;> rcases mem _ p2 with b | b | b <;>
    rcases mem _ p3 with c | c | c <;>
    first
      | exact ⟨c, b, a⟩
      | (exfalso; linarith)

/-! ## The quartic solver on two concrete inputs -/

theorem sqrt_four (M : MathEnv ℝ) (hM : M.Exact) : M.sqrt 4 = 2 := by
  rw [hM.sqrt_eq 4 (by norm_num), Real.sqrt_eq_iff_mul_self_eq_of_pos (by norm_num)]
  norm_num

theorem sqrt_one (M : MathEnv ℝ) (hM : M.Exact) : M.sqrt 1 = 1 := by
  rw [hM.sqrt_eq 1 (by norm_num), Real.sqrt_one]

theorem fuzzy_zero_zero (M : MathEnv ℝ) (hM : M.Exact) : isFuzzyZero M 0 = true := by
  simp [isFuzzyZero, hM.eps_pos]

theorem fuzzy_zero_one (M : MathEnv ℝ) (h1 : M.eps ≤ 1) : isFuzzyZero M 1 = false := by
  simp [isFuzzyZero, h1]

/-- The quartic `x^4 - 10 x^3 + 35 x^2 - 50 x + 24 = (x - 1)(x - 2)(x - 3)(x - 4)`:
the solver returns 2 and writes `3, 4`. -/
theorem quartic_1234 (M : MathEnv ℝ) (hM : M.Exact) (h1 : M.eps ≤ 1 / 2) (c0 dst : Buf ℝ) :
    MathT_solve_Quartic M c0 dst (Buf.ofList [1, -10, 35, -50, 24])
      = (2, (dst.set 0 3).set 1 4) := by
  have hres : quarticResolvent (Buf.ofList [1, -10, 35, -50, 24] : Buf ℝ)
      = Buf.ofList [1, -35, 404, -1540] := by
    unfold quarticResolvent
    norm_num [Buf.ofList]
  have hfz1 : isFuzzyZero M ((Buf.ofList [1, -35, 404, -1540] : Buf ℝ) 0) = false := by
    simp [Buf.ofList, isFuzzyZero]; linarith
  have hD : cubicD (Buf.ofList [1, -35, 404, -1540] : Buf ℝ) = -(4 / 3) := by
    norm_num [cubicD, cubicQ, cubicP, Buf.ofList]
  have hcub := cubic_three_factored M hM c0 (Buf.ofList [1, -35, 404, -1540]) hfz1
    (by rw [hD]; norm_num)
    (by rw [hD]; simp [isFuzzyZero, abs_of_pos]; linarith)
    10 11 14 (by norm_num) (by norm_num)
    (by intro x; rw [polyEval_three]; norm_num [Buf.ofList]; ring)
  obtain ⟨hc1, -, -, hc4⟩ := hcub
  have hx : quarticX M c0 (Buf.ofList [1, -10, 35, -50, 24]) = 14 := by
    unfold quarticX
    rw [hres, hc1, hc4]
  have hw : quarticW M c0 (Buf.ofList [1, -10, 35, -50, 24]) = 4 := by
    unfold quarticW
    rw [hx]
    norm_num [Buf.ofList]
  have hb : quarticBranch M c0 (Buf.ofList [1, -10, 35, -50, 24]) = (7 / 2, 1, 0) := by
    unfold quarticBranch
    rw [hw, if_pos (by linarith : (4:ℝ) > M.eps), sqrt_four M hM]
    norm_num [Buf.ofList]
  have hq : quarticQ M c0 (Buf.ofList [1, -10, 35, -50, 24]) = (1, 1) := by
    unfold quarticQ quarticSwap
    rw [hb]
    norm_num
  have hdst : quarticDst M dst (Buf.ofList [1, -10, 35, -50, 24]) = dst := by
    unfold quarticDst
    have : isFuzzyZero M ((Buf.ofList [1, -10, 35, -50, 24] : Buf ℝ) 0) = false := by
      simp [Buf.ofList, isFuzzyZero]; linarith
    rw [this]
    simp
  have hfe : isFuzzyEq M 1 1 = true := by simp [isFuzzyEq, hM.eps_pos]
  rw [quartic_unfold, hres, hc1, hb, hq, hdst, quarticTail_eq]
  simp only [hfe, sqrt_one M hM]
  norm_num [h1]

/-- The quartic `h x^4 - h` with a fuzzy-zero, non-zero leading coefficient
`h`: the cubic solver finds no root of the remaining coefficients
`(0, 0, 0, -h)`, and the quartic solver goes on to return 2 and write `-1, 1`. -/
theorem quartic_fuzzy_leading (M : MathEnv ℝ) (hM : M.Exact) (h1 : M.eps ≤ 1) (c0 dst : Buf ℝ)
    (h : ℝ) (hh : h ≠ 0) (hf : |h| < M.eps) :
    isFuzzyZero M ((Buf.ofList [h, 0, 0, 0, -h] : Buf ℝ) 0) = true ∧
    MathT_solve_Cubic M dst (Buf.shift (Buf.ofList [h, 0, 0, 0, -h]) 1) = (0, dst) ∧
    MathT_solve_Quartic M c0 dst (Buf.ofList [h, 0, 0, 0, -h])
      = (2, (dst.set 0 (-1)).set 1 1) := by
  have hz := fuzzy_zero_zero M hM
  have hfz : isFuzzyZero M ((Buf.ofList [h, 0, 0, 0, -h] : Buf ℝ) 0) = true := by
    simp [Buf.ofList, isFuzzyZero, hf]
  have hcubic : MathT_solve_Cubic M dst (Buf.shift (Buf.ofList [h, 0, 0, 0, -h]) 1) = (0, dst) := by
    rw [cubic_delegate M dst _ (by simpa [Buf.shift, Buf.ofList] using hz),
      quad_none_of_fuzzy M dst _ (by simpa [Buf.shift, Buf.ofList] using hz)
        (by simpa [Buf.shift, Buf.ofList] using hz)]
  refine ⟨hfz, hcubic, ?_⟩
  have hres : quarticResolvent (Buf.ofList [h, 0, 0, 0, -h] : Buf ℝ)
      = Buf.ofList [1, 0, 4, 0] := by
    unfold quarticResolvent
    have : -h / h = -1 := by field_simp
    norm_num [Buf.ofList, this]
  have hfz1 : isFuzzyZero M ((Buf.ofList [1, 0, 4, 0] : Buf ℝ) 0) = false := by
    simp [Buf.ofList, isFuzzyZero]; linarith
  have hQ : cubicQ (Buf.ofList [1, 0, 4, 0] : Buf ℝ) = 0 := by
    norm_num [cubicQ, Buf.ofList]
  have hD : cubicD (Buf.ofList [1, 0, 4, 0] : Buf ℝ) = 64 / 27 := by
    norm_num [cubicD, cubicQ, cubicP, Buf.ofList]
  have hS : cubicSub (Buf.ofList [1, 0, 4, 0] : Buf ℝ) = 0 := by
    norm_num [cubicSub, Buf.ofList]
  have hcub : MathT_solve_Cubic M c0 (Buf.ofList [1, 0, 4, 0]) = (1, c0.set 0 0) := by
    rw [cubic_single M c0 _ hfz1 (by rw [hD]; simp [isFuzzyZero, abs_of_pos]; linarith)
      (by rw [hD]; norm_num), hQ, hS]
    simp
  have hx : quarticX M c0 (Buf.ofList [h, 0, 0, 0, -h]) = 0 := by
    unfold quarticX
    rw [hres, hcub]
    simp
  have hw : quarticW M c0 (Buf.ofList [h, 0, 0, 0, -h]) = 0 := by
    unfold quarticW
    rw [hx]
    norm_num [Buf.ofList]
  have hb : quarticBranch M c0 (Buf.ofList [h, 0, 0, 0, -h]) = (0, 0, 4) := by
    unfold quarticBranch
    rw [hw, hx, if_neg (by linarith [hM.eps_pos] : ¬ (0:ℝ) > M.eps)]
    have e : (0:ℝ) * 0 - (Buf.ofList [h, 0, 0, 0, -h] : Buf ℝ) 4
        / (Buf.ofList [h, 0, 0, 0, -h] : Buf ℝ) 0 * 4 = 4 := by
      have : -h / h = -1 := by field_simp
      norm_num [Buf.ofList, this]
    rw [e, sqrt_four M hM]
    norm_num [Buf.ofList]
  have hq : quarticQ M c0 (Buf.ofList [h, 0, 0, 0, -h]) = (4, -4) := by
    unfold quarticQ quarticSwap
    rw [hb]
    norm_num
  have hdst : quarticDst M dst (Buf.ofList [h, 0, 0, 0, -h]) = dst := by
    unfold quarticDst
    rw [hfz, hcubic]
    simp
  rw [quartic_unfold, hres, hcub, hb, hq, hdst, quarticTail_eq]
  simp only [sqrt_four M hM]
  norm_num [h1]

/-! ## Claims on the quartic solver -/

/-- C1: the quartic `(1, -10, 35, -50, 24)` has the four roots `1, 2, 3, 4`, but
in exact real arithmetic (tolerance `1e-14`) `MathT_solve_Quartic` returns 2
and writes only `3, 4`: both root pairs are taken around the same `base`, and
the second pair is dropped because `q0` and `q1` are fuzzy-equal. -/
theorem solve_Quartic_known_factorization :
    (MathT_solve_Quartic (⟨1 / 10 ^ 14, Real.sqrt,
      fun x => if 0 ≤ x then x ^ ((1:ℝ) / 3) else -((-x) ^ ((1:ℝ) / 3)),
      Real.arccos, Real.cos, Real.pi / 3⟩ : MathEnv ℝ) (fun _ => 0) (fun _ => 0)
      (Buf.ofList [1, -10, 35, -50, 24])).1 = 2 ∧
    (MathT_solve_Quartic (⟨1 / 10 ^ 14, Real.sqrt,
      fun x => if 0 ≤ x then x ^ ((1:ℝ) / 3) else -((-x) ^ ((1:ℝ) / 3)),
      Real.arccos, Real.cos, Real.pi / 3⟩ : MathEnv ℝ) (fun _ => 0) (fun _ => 0)
      (Buf.ofList [1, -10, 35, -50, 24])).2.take 2 = [3, 4] ∧
    ∀ x : ℝ, polyEval (Buf.ofList [1, -10, 35, -50, 24]) 4 x
      = (x - 1) * (x - 2) * (x - 3) * (x - 4) := by
  rw [quartic_1234 _ exact_real_env (by norm_num)]
  refine ⟨rfl, ?_, ?_⟩
  · simp [Buf.take, List.range_succ, Buf.set]
  · intro x
    rw [polyEval_four]
    norm_num [Buf.ofList]
    ring

/-- C2: with the fuzzy-zero leading coefficient `1e-20` (tolerance `1e-14`), on
the input `(1e-20, 0, 0, 0, -1e-20)` the cubic solver returns 0 on the
remaining coefficients, while `MathT_solve_Quartic` returns 2 and writes
`-1, 1`: the call of the cubic solver is not followed by a `return`. -/
theorem solve_Quartic_fuzzy_leading_not_delegated :
    isFuzzyZero (⟨1 / 10 ^ 14, Real.sqrt,
      fun x => if 0 ≤ x then x ^ ((1:ℝ) / 3) else -((-x) ^ ((1:ℝ) / 3)),
      Real.arccos, Real.cos, Real.pi / 3⟩ : MathEnv ℝ)
      ((Buf.ofList [1 / 10 ^ 20, 0, 0, 0, -(1 / 10 ^ 20)] : Buf ℝ) 0) = true ∧
    (MathT_solve_Cubic (⟨1 / 10 ^ 14, Real.sqrt,
      fun x => if 0 ≤ x then x ^ ((1:ℝ) / 3) else -((-x) ^ ((1:ℝ) / 3)),
      Real.arccos, Real.cos, Real.pi / 3⟩ : MathEnv ℝ) (fun _ => 0)
      (Buf.shift (Buf.ofList [1 / 10 ^ 20, 0, 0, 0, -(1 / 10 ^ 20)]) 1)).1 = 0 ∧
    (MathT_solve_Quartic (⟨1 / 10 ^ 14, Real.sqrt,
      fun x => if 0 ≤ x then x ^ ((1:ℝ) / 3) else -((-x) ^ ((1:ℝ) / 3)),
      Real.arccos, Real.cos, Real.pi / 3⟩ : MathEnv ℝ) (fun _ => 0) (fun _ => 0)
      (Buf.ofList [1 / 10 ^ 20, 0, 0, 0, -(1 / 10 ^ 20)])).1 = 2 ∧
    (MathT_solve_Quartic (⟨1 / 10 ^ 14, Real.sqrt,
      fun x => if 0 ≤ x then x ^ ((1:ℝ) / 3) else -((-x) ^ ((1:ℝ) / 3)),
      Real.arccos, Real.cos, Real.pi / 3⟩ : MathEnv ℝ) (fun _ => 0) (fun _ => 0)
      (Buf.ofList [1 / 10 ^ 20, 0, 0, 0, -(1 / 10 ^ 20)])).2.take 2 = [-1, 1] := by
  obtain ⟨h1, h2, h3⟩ := quartic_fuzzy_leading _ exact_real_env (by norm_num) (fun _ => 0)
    (fun _ => 0) (1 / 10 ^ 20) (by norm_num) (by rw [abs_of_pos (by norm_num)]; norm_num)
  rw [h2, h3]
  refine ⟨h1, rfl, rfl, ?_⟩
  simp [Buf.take, List.range_succ, Buf.set]

/-! ## Claims on the cubic solver -/

/-- C4: in exact real arithmetic, when the leading coefficient is not
fuzzy-zero and the discriminant `D = q^2 + p^3` is negative and not fuzzy-zero,
`MathT_solve_Cubic` returns 3 and writes, in ascending order, the three values
of the trigonometric form; each of them is a root of the cubic. -/
theorem solve_Cubic_three_roots (M : MathEnv ℝ) (hM : M.Exact) (dst func : Buf ℝ)
    (h0 : isFuzzyZero M (func 0) = false) (hd : cubicD func < 0)
    (hz : isFuzzyZero M (cubicD func) = false) :
    (MathT_solve_Cubic M dst func).1 = 3 ∧
    (MathT_solve_Cubic M dst func).2 0 ≤ (MathT_solve_Cubic M dst func).2 1 ∧
    (MathT_solve_Cubic M dst func).2 1 ≤ (MathT_solve_Cubic M dst func).2 2 ∧
    (MathT_solve_Cubic M dst func).2 0 = (cubicTrig M func).2.2 ∧
    (MathT_solve_Cubic M dst func).2 1 = (cubicTrig M func).2.1 ∧
    (MathT_solve_Cubic M dst func).2 2 = (cubicTrig M func).1 ∧
    polyEval func 3 ((MathT_solve_Cubic M dst func).2 0) = 0 ∧
    polyEval func 3 ((MathT_solve_Cubic M dst func).2 1) = 0 ∧
    polyEval func 3 ((MathT_solve_Cubic M dst func).2 2) = 0 := by
  obtain ⟨he, p1, p2, p3, o1, o2⟩ := cubic_three_real M hM dst func h0 hd hz
  obtain ⟨s0, s1, s2⟩ := sort3_of_desc dst _ _ _ o1 o2
  rw [he]
  dsimp only
  rw [s0, s1, s2]
  exact ⟨rfl, le_of_lt o1, le_of_lt o2, rfl, rfl, rfl, p3, p2, p1⟩

/-- C4, witness: the cubic `(1, -6, 11, -6)` gives the roots `1, 2, 3`. -/
theorem solve_Cubic_three_roots_witness :
    (MathT_solve_Cubic (⟨1 / 10 ^ 14, Real.sqrt,
      fun x => if 0 ≤ x then x ^ ((1:ℝ) / 3) else -((-x) ^ ((1:ℝ) / 3)),
      Real.arccos, Real.cos, Real.pi / 3⟩ : MathEnv ℝ) (fun _ => 0)
      (Buf.ofList [1, -6, 11, -6])).1 = 3 ∧
    (MathT_solve_Cubic (⟨1 / 10 ^ 14, Real.sqrt,
      fun x => if 0 ≤ x then x ^ ((1:ℝ) / 3) else -((-x) ^ ((1:ℝ) / 3)),
      Real.arccos, Real.cos, Real.pi / 3⟩ : MathEnv ℝ) (fun _ => 0)
      (Buf.ofList [1, -6, 11, -6])).2.take 3 = [1, 2, 3] := by
  have hD : cubicD (Buf.ofList [1, -6, 11, -6] : Buf ℝ) = -(1 / 27) := by
    norm_num [cubicD, cubicQ, cubicP, Buf.ofList]
  have h0 : isFuzzyZero (⟨1 / 10 ^ 14, Real.sqrt,
      fun x => if 0 ≤ x then x ^ ((1:ℝ) / 3) else -((-x) ^ ((1:ℝ) / 3)),
      Real.arccos, Real.cos, Real.pi / 3⟩ : MathEnv ℝ)
      ((Buf.ofList [1, -6, 11, -6] : Buf ℝ) 0) = false := by
    norm_num [isFuzzyZero, Buf.ofList]
  have hz : isFuzzyZero (⟨1 / 10 ^ 14, Real.sqrt,
      fun x => if 0 ≤ x then x ^ ((1:ℝ) / 3) else -((-x) ^ ((1:ℝ) / 3)),
      Real.arccos, Real.cos, Real.pi / 3⟩ : MathEnv ℝ)
      (cubicD (Buf.ofList [1, -6, 11, -6] : Buf ℝ)) = false := by
    rw [hD]; norm_num [isFuzzyZero, abs_of_pos]
  have hlt : cubicD (Buf.ofList [1, -6, 11, -6] : Buf ℝ) < 0 := by rw [hD]; norm_num
  have h := solve_Cubic_three_roots _ exact_real_env (fun _ => 0) (Buf.ofList [1, -6, 11, -6])
    h0 hlt hz
  obtain ⟨-, f0, f1, f2⟩ := cubic_three_factored _ exact_real_env (fun _ => 0)
    (Buf.ofList [1, -6, 11, -6]) h0 hlt hz 1 2 3 (by norm_num) (by norm_num)
    (by intro x; rw [polyEval_three]; norm_num [Buf.ofList]; ring)
  refine ⟨h.1, ?_⟩
  simp only [Buf.take, List.range_succ, List.range_zero, List.nil_append, List.map_cons,
    List.map_nil, List.cons_append, f0, f1, f2]

/-- C5: in exact real arithmetic, when the leading coefficient is not
fuzzy-zero and the discriminant `D = q^2 + p^3` is positive and not fuzzy-zero,
`MathT_solve_Cubic` returns 1 and the value written,
`sub + cbrt(sqrt(D) - q) - cbrt(sqrt(D) + q)`, is a root of the cubic. -/
theorem solve_Cubic_one_root (M : MathEnv ℝ) (hM : M.Exact) (dst func : Buf ℝ)
    (h0 : isFuzzyZero M (func 0) = false) (hd : 0 < cubicD func)
    (hz : isFuzzyZero M (cubicD func) = false) :
    (MathT_solve_Cubic M dst func).1 = 1 ∧
    (MathT_solve_Cubic M dst func).2 0
      = cubicSub func + M.cbrt (M.sqrt (cubicD func) - cubicQ func)
        - M.cbrt (M.sqrt (cubicD func) + cubicQ func) ∧
    cubicSub func = -(func 1 / func 0) / 3 ∧
    polyEval func 3 ((MathT_solve_Cubic M dst func).2 0) = 0 := by
  obtain ⟨he, hp⟩ := cubic_single_real M hM dst func h0 hd hz
  rw [he]
  dsimp only
  rw [Buf.set_same]
  refine ⟨rfl, by ring, ?_, hp⟩
  unfold cubicSub
  ring

/-- C5, witness: the cubic `(1, 0, 0, -1)`, of discriminant `1 / 4`. -/
theorem solve_Cubic_one_root_witness :
    (MathT_solve_Cubic (⟨1 / 10 ^ 14, Real.sqrt,
      fun x => if 0 ≤ x then x ^ ((1:ℝ) / 3) else -((-x) ^ ((1:ℝ) / 3)),
      Real.arccos, Real.cos, Real.pi / 3⟩ : MathEnv ℝ) (fun _ => 0)
      (Buf.ofList [1, 0, 0, -1])).1 = 1 ∧
    polyEval (Buf.ofList [1, 0, 0, -1]) 3
      ((MathT_solve_Cubic (⟨1 / 10 ^ 14, Real.sqrt,
        fun x => if 0 ≤ x then x ^ ((1:ℝ) / 3) else -((-x) ^ ((1:ℝ) / 3)),
        Real.arccos, Real.cos, Real.pi / 3⟩ : MathEnv ℝ) (fun _ => 0)
        (Buf.ofList [1, 0, 0, -1])).2 0) = 0 := by
  have hD : cubicD (Buf.ofList [1, 0, 0, -1] : Buf ℝ) = 1 / 4 := by
    norm_num [cubicD, cubicQ, cubicP, Buf.ofList]
  have h := solve_Cubic_one_root _ exact_real_env (fun _ => 0) (Buf.ofList [1, 0, 0, -1])
    (by norm_num [isFuzzyZero, Buf.ofList]) (by rw [hD]; norm_num)
    (by rw [hD]; norm_num [isFuzzyZero, abs_of_pos])
  exact ⟨h.1, h.2.2.2⟩

/-! ## Claims on the interval-filtered solvers -/

/-- C6: `MathT_solveAt_Cubic` and `MathT_solveAt_Quartic` write exactly the
roots of the unfiltered solver that lie in `[tMin, tMax]` (endpoints included),
in the same order, and return their number; the roots of the unfiltered solver
do not depend on the buffers it is run on. -/
theorem solveAt_Cubic_Quartic_filter {α : Type} [LinearOrderedField α] (M : MathEnv α)
    (cRoots0 cRoots1 tmp0 dst dst1 func : Buf α) (tMin tMax : α) :
    ((MathT_solveAt_Cubic M tmp0 dst func tMin tMax).2.take
        (MathT_solveAt_Cubic M tmp0 dst func tMin tMax).1
      = ((MathT_solve_Cubic M dst1 func).2.take (MathT_solve_Cubic M dst1 func).1).filter
          (fun x => decide (tMin ≤ x ∧ x ≤ tMax)) ∧
     (MathT_solveAt_Cubic M tmp0 dst func tMin tMax).1
      = (((MathT_solve_Cubic M dst1 func).2.take (MathT_solve_Cubic M dst1 func).1).filter
          (fun x => decide (tMin ≤ x ∧ x ≤ tMax))).length) ∧
    ((MathT_solveAt_Quartic M cRoots0 tmp0 dst func tMin tMax).2.take
        (MathT_solveAt_Quartic M cRoots0 tmp0 dst func tMin tMax).1
      = ((MathT_solve_Quartic M cRoots1 dst1 func).2.take
          (MathT_solve_Quartic M cRoots1 dst1 func).1).filter
          (fun x => decide (tMin ≤ x ∧ x ≤ tMax)) ∧
     (MathT_solveAt_Quartic M cRoots0 tmp0 dst func tMin tMax).1
      = (((MathT_solve_Quartic M cRoots1 dst1 func).2.take
          (MathT_solve_Quartic M cRoots1 dst1 func).1).filter
          (fun x => decide (tMin ≤ x ∧ x ≤ tMax))).length) := by
  have hc := take_eq_of_indep (cubic_indep M tmp0 dst1 func)
  have hq := take_eq_of_indep (quartic_indep M cRoots0 cRoots1 tmp0 dst1 func)
  have h1 := filterLoop_take (MathT_solve_Cubic M tmp0 func).2 dst tMin tMax
    (MathT_solve_Cubic M tmp0 func).1
  have h2 := filterLoop_take (MathT_solve_Quartic M cRoots0 tmp0 func).2 dst tMin tMax
    (MathT_solve_Quartic M cRoots0 tmp0 func).1
  rw [hc] at h1
  rw [hq] at h2
  exact ⟨h1, h2⟩

/-- C6, witness: the cubic `(1, -6, 11, -6)` restricted to `[1.5, 10]` gives `2, 3`. -/
theorem solveAt_Cubic_Quartic_filter_witness :
    (MathT_solveAt_Cubic (⟨1 / 10 ^ 14, Real.sqrt,
      fun x => if 0 ≤ x then x ^ ((1:ℝ) / 3) else -((-x) ^ ((1:ℝ) / 3)),
      Real.arccos, Real.cos, Real.pi / 3⟩ : MathEnv ℝ) (fun _ => 0) (fun _ => 0)
      (Buf.ofList [1, -6, 11, -6]) (3 / 2) 10).1 = 2 ∧
    (MathT_solveAt_Cubic (⟨1 / 10 ^ 14, Real.sqrt,
      fun x => if 0 ≤ x then x ^ ((1:ℝ) / 3) else -((-x) ^ ((1:ℝ) / 3)),
      Real.arccos, Real.cos, Real.pi / 3⟩ : MathEnv ℝ) (fun _ => 0) (fun _ => 0)
      (Buf.ofList [1, -6, 11, -6]) (3 / 2) 10).2.take 2 = [2, 3] := by
  have h := (solveAt_Cubic_Quartic_filter (⟨1 / 10 ^ 14, Real.sqrt,
      fun x => if 0 ≤ x then x ^ ((1:ℝ) / 3) else -((-x) ^ ((1:ℝ) / 3)),
      Real.arccos, Real.cos, Real.pi / 3⟩ : MathEnv ℝ) (fun _ => 0) (fun _ => 0) (fun _ => 0)
      (fun _ => 0) (fun _ => 0) (Buf.ofList [1, -6, 11, -6]) (3 / 2) 10).1
  have hD : cubicD (Buf.ofList [1, -6, 11, -6] : Buf ℝ) = -(1 / 27) := by
    norm_num [cubicD, cubicQ, cubicP, Buf.ofList]
  obtain ⟨f, f0, f1, f2⟩ := cubic_three_factored _ exact_real_env (fun _ => 0)
    (Buf.ofList [1, -6, 11, -6]) (by norm_num [isFuzzyZero, Buf.ofList]) (by rw [hD]; norm_num)
    (by rw [hD]; norm_num [isFuzzyZero, abs_of_pos]) 1 2 3 (by norm_num) (by norm_num)
    (by intro x; rw [polyEval_three]; norm_num [Buf.ofList]; ring)
  have hl : ((MathT_solve_Cubic (⟨1 / 10 ^ 14, Real.sqrt,
      fun x => if 0 ≤ x then x ^ ((1:ℝ) / 3) else -((-x) ^ ((1:ℝ) / 3)),
      Real.arccos, Real.cos, Real.pi / 3⟩ : MathEnv ℝ) (fun _ => 0)
      (Buf.ofList [1, -6, 11, -6])).2.take
      (MathT_solve_Cubic (⟨1 / 10 ^ 14, Real.sqrt,
      fun x => if 0 ≤ x then x ^ ((1:ℝ) / 3) else -((-x) ^ ((1:ℝ) / 3)),
      Real.arccos, Real.cos, Real.pi / 3⟩ : MathEnv ℝ) (fun _ => 0)
      (Buf.ofList [1, -6, 11, -6])).1).filter (fun x => decide ((3 / 2 : ℝ) ≤ x ∧ x ≤ 10))
      = [2, 3] := by
    rw [f]
    simp only [Buf.take, List.range_succ, List.range_zero, List.nil_append, List.map_cons,
      List.map_nil, List.cons_append, f0, f1, f2]
    norm_num [List.filter]
  rw [hl] at h
  obtain ⟨ht, hn⟩ := h
  rw [hn] at ht ⊢
  exact ⟨rfl, ht⟩

/-- C7: the goto-based `MathT_solveAt_Quadratic` returns the same count and the
same buffer as the post-filter of the spec (the unfiltered solver run into a
local buffer, then the copy of the roots within `[tMin, tMax]`); the values
written are the roots of `MathT_solve_Quadratic` that lie in the interval, in
the same order. -/
theorem solveAt_Quadratic_refines {α : Type} [LinearOrderedField α] (M : MathEnv α)
    (tmp0 dst dst1 func : Buf α) (tMin tMax : α) :
    MathT_solveAt_Quadratic M dst func tMin tMax
      = solveAt_Quadratic_postFilter M tmp0 dst func tMin tMax ∧
    (MathT_solveAt_Quadratic M dst func tMin tMax).2.take
        (MathT_solveAt_Quadratic M dst func tMin tMax).1
      = ((MathT_solve_Quadratic M dst1 func).2.take
          (MathT_solve_Quadratic M dst1 func).1).filter
          (fun x => decide (tMin ≤ x ∧ x ≤ tMax)) ∧
    (MathT_solveAt_Quadratic M dst func tMin tMax).1
      = (((MathT_solve_Quadratic M dst1 func).2.take
          (MathT_solve_Quadratic M dst1 func).1).filter
          (fun x => decide (tMin ≤ x ∧ x ≤ tMax))).length := by
  have he := solveAt_Quadratic_eq M dst1 dst func tMin tMax
  refine ⟨solveAt_Quadratic_eq M tmp0 dst func tMin tMax, ?_⟩
  rw [he]
  exact filterLoop_take (MathT_solve_Quadratic M dst1 func).2 dst tMin tMax
    (MathT_solve_Quadratic M dst1 func).1

/-! ## Claims on all solvers -/

/-- C8: in exact real arithmetic the values written by the quadratic, cubic and
quartic solvers and by their interval-filtered variants are in ascending
order: `dst[i] <= dst[i+1]` for every `i` with `i + 1` below the returned count. -/
theorem solvers_ascending (M : MathEnv ℝ) (hM : M.Exact)
    (cRoots0 tmp0 dst func : Buf ℝ) (tMin tMax : ℝ) :
    Ascending (MathT_solve_Quadratic M dst func).1 (MathT_solve_Quadratic M dst func).2 ∧
    Ascending (MathT_solve_Cubic M dst func).1 (MathT_solve_Cubic M dst func).2 ∧
    Ascending (MathT_solve_Quartic M cRoots0 dst func).1
      (MathT_solve_Quartic M cRoots0 dst func).2 ∧
    Ascending (MathT_solveAt_Quadratic M dst func tMin tMax).1
      (MathT_solveAt_Quadratic M dst func tMin tMax).2 ∧
    Ascending (MathT_solveAt_Cubic M tmp0 dst func tMin tMax).1
      (MathT_solveAt_Cubic M tmp0 dst func tMin tMax).2 ∧
    Ascending (MathT_solveAt_Quartic M cRoots0 tmp0 dst func tMin tMax).1
      (MathT_solveAt_Quartic M cRoots0 tmp0 dst func tMin tMax).2 := by
  refine ⟨quad_ascending M dst func, cubic_ascending M dst func,
    quartic_ascending M hM cRoots0 dst func, ?_, ?_, ?_⟩
  · rw [solveAt_Quadratic_eq M tmp0 dst func tMin tMax]
    exact filterLoop_ascending _ dst tMin tMax _ (quad_ascending M tmp0 func)
  · exact filterLoop_ascending _ dst tMin tMax _ (cubic_ascending M tmp0 func)
  · exact filterLoop_ascending _ dst tMin tMax _ (quartic_ascending M hM cRoots0 tmp0 func)

/-- C8, witness: the quartic solver on `(1, -10, 35, -50, 24)`. -/
theorem solvers_ascending_witness :
    Ascending
      (MathT_solve_Quartic (⟨1 / 10 ^ 14, Real.sqrt,
        fun x => if 0 ≤ x then x ^ ((1:ℝ) / 3) else -((-x) ^ ((1:ℝ) / 3)),
        Real.arccos, Real.cos, Real.pi / 3⟩ : MathEnv ℝ) (fun _ => 0) (fun _ => 0)
        (Buf.ofList [1, -10, 35, -50, 24])).1
      (MathT_solve_Quartic (⟨1 / 10 ^ 14, Real.sqrt,
        fun x => if 0 ≤ x then x ^ ((1:ℝ) / 3) else -((-x) ^ ((1:ℝ) / 3)),
        Real.arccos, Real.cos, Real.pi / 3⟩ : MathEnv ℝ) (fun _ => 0) (fun _ => 0)
        (Buf.ofList [1, -10, 35, -50, 24])).2 :=
  (solvers_ascending _ exact_real_env (fun _ => 0) (fun _ => 0) (fun _ => 0)
    (Buf.ofList [1, -10, 35, -50, 24]) 0 10).2.2.1

/-- C9: the quadratic, cubic and quartic solvers return a count of at most 2,
3 and 4, and so do their interval-filtered variants; each of them leaves every
element of the destination buffer at an index from its degree on as it was,
so the stores stay below the degree. -/
theorem solvers_count_and_stores {α : Type} [LinearOrderedField α] (M : MathEnv α)
    (cRoots0 tmp0 dst func : Buf α) (tMin tMax : α) :
    ((MathT_solve_Quadratic M dst func).1 ≤ 2 ∧
      ∀ i, 2 ≤ i → (MathT_solve_Quadratic M dst func).2 i = dst i) ∧
    ((MathT_solve_Cubic M dst func).1 ≤ 3 ∧
      ∀ i, 3 ≤ i → (MathT_solve_Cubic M dst func).2 i = dst i) ∧
    ((MathT_solve_Quartic M cRoots0 dst func).1 ≤ 4 ∧
      ∀ i, 4 ≤ i → (MathT_solve_Quartic M cRoots0 dst func).2 i = dst i) ∧
    ((MathT_solveAt_Quadratic M dst func tMin tMax).1 ≤ 2 ∧
      ∀ i, 2 ≤ i → (MathT_solveAt_Quadratic M dst func tMin tMax).2 i = dst i) ∧
    ((MathT_solveAt_Cubic M tmp0 dst func tMin tMax).1 ≤ 3 ∧
      ∀ i, 3 ≤ i → (MathT_solveAt_Cubic M tmp0 dst func tMin tMax).2 i = dst i) ∧
    ((MathT_solveAt_Quartic M cRoots0 tmp0 dst func tMin tMax).1 ≤ 4 ∧
      ∀ i, 4 ≤ i → (MathT_solveAt_Quartic M cRoots0 tmp0 dst func tMin tMax).2 i = dst i) := by
  have hq := quad_count_frame M tmp0 func
  have hc := cubic_count_frame M tmp0 func
  have hf := quartic_count_frame M cRoots0 tmp0 func
  refine ⟨quad_count_frame M dst func, cubic_count_frame M dst func,
    quartic_count_frame M cRoots0 dst func, ?_, ?_, ?_⟩
  · rw [solveAt_Quadratic_eq M tmp0 dst func tMin tMax]
    obtain ⟨h1, h2⟩ := filter_count_frame (MathT_solve_Quadratic M tmp0 func).2 dst tMin tMax
      (MathT_solve_Quadratic M tmp0 func).1
    exact ⟨le_trans h1 hq.1, fun i hi => h2 i (le_trans hq.1 hi)⟩
  · obtain ⟨h1, h2⟩ := filter_count_frame (MathT_solve_Cubic M tmp0 func).2 dst tMin tMax
      (MathT_solve_Cubic M tmp0 func).1
    exact ⟨le_trans h1 hc.1, fun i hi => h2 i (le_trans hc.1 hi)⟩
  · obtain ⟨h1, h2⟩ := filter_count_frame (MathT_solve_Quartic M cRoots0 tmp0 func).2 dst
      tMin tMax (MathT_solve_Quartic M cRoots0 tmp0 func).1
    exact ⟨le_trans h1 hf.1, fun i hi => h2 i (le_trans hf.1 hi)⟩

/-- C11: when `a = func[0]` is fuzzy-zero, `MathT_solve_Quadratic` returns 0 (and
leaves `dst` alone) if `b = func[1]` is fuzzy-zero too, and otherwise returns 1
and writes `dst[0] = -c / b`. -/
theorem solve_Quadratic_linear {α : Type} [LinearOrderedField α] (M : MathEnv α)
    (dst func : Buf α) (ha : isFuzzyZero M (func 0) = true) :
    (isFuzzyZero M (func 1) = true → MathT_solve_Quadratic M dst func = (0, dst)) ∧
    (isFuzzyZero M (func 1) = false →
      (MathT_solve_Quadratic M dst func).1 = 1 ∧
      (MathT_solve_Quadratic M dst func).2 0 = -func 2 / func 1) := by
  constructor
  · intro hb
    exact quad_none_of_fuzzy M dst func ha hb
  · intro hb
    rw [quad_linear M dst func ha hb]
    exact ⟨rfl, Buf.set_same dst 0 _⟩

/-- C11, witness: the quadratic `(0, 2, -4)` gives the single root `2`. -/
theorem solve_Quadratic_linear_witness :
    (MathT_solve_Quadratic (⟨1 / 10 ^ 14, Real.sqrt,
      fun x => if 0 ≤ x then x ^ ((1:ℝ) / 3) else -((-x) ^ ((1:ℝ) / 3)),
      Real.arccos, Real.cos, Real.pi / 3⟩ : MathEnv ℝ) (fun _ => 0) (Buf.ofList [0, 2, -4])).1 = 1 ∧
    (MathT_solve_Quadratic (⟨1 / 10 ^ 14, Real.sqrt,
      fun x => if 0 ≤ x then x ^ ((1:ℝ) / 3) else -((-x) ^ ((1:ℝ) / 3)),
      Real.arccos, Real.cos, Real.pi / 3⟩ : MathEnv ℝ) (fun _ => 0) (Buf.ofList [0, 2, -4])).2 0
      = 2 := by
  have h := (solve_Quadratic_linear (⟨1 / 10 ^ 14, Real.sqrt,
      fun x => if 0 ≤ x then x ^ ((1:ℝ) / 3) else -((-x) ^ ((1:ℝ) / 3)),
      Real.arccos, Real.cos, Real.pi / 3⟩ : MathEnv ℝ) (fun _ => 0) (Buf.ofList [0, 2, -4])
      (by norm_num [isFuzzyZero, Buf.ofList])).2 (by norm_num [isFuzzyZero, Buf.ofList])
  refine ⟨h.1, ?_⟩
  rw [h.2]
  norm_num [Buf.ofList]

/-- C13: when `func[0]` is fuzzy-zero, `MathT_solve_Cubic` returns the count and
the buffer that the quadratic solver produces on `func[1..3]`. -/
theorem solve_Cubic_delegates {α : Type} [LinearOrderedField α] (M : MathEnv α)
    (dst func : Buf α) (h0 : isFuzzyZero M (func 0) = true) :
    MathT_solve_Cubic M dst func = MathT_solve_Quadratic M dst (func.shift 1) ∧
    (func.shift 1) 0 = func 1 ∧ (func.shift 1) 1 = func 2 ∧ (func.shift 1) 2 = func 3 :=
  ⟨cubic_delegate M dst func h0, rfl, rfl, rfl⟩

/-- C13, witness: the cubic `(0, 1, -3, 2)` gives what the quadratic `(1, -3, 2)` gives. -/
theorem solve_Cubic_delegates_witness :
    MathT_solve_Cubic (⟨1 / 10 ^ 14, Real.sqrt,
      fun x => if 0 ≤ x then x ^ ((1:ℝ) / 3) else -((-x) ^ ((1:ℝ) / 3)),
      Real.arccos, Real.cos, Real.pi / 3⟩ : MathEnv ℝ) (fun _ => 0) (Buf.ofList [0, 1, -3, 2])
    = MathT_solve_Quadratic (⟨1 / 10 ^ 14, Real.sqrt,
      fun x => if 0 ≤ x then x ^ ((1:ℝ) / 3) else -((-x) ^ ((1:ℝ) / 3)),
      Real.arccos, Real.cos, Real.pi / 3⟩ : MathEnv ℝ) (fun _ => 0)
      (Buf.shift (Buf.ofList [0, 1, -3, 2]) 1) :=
  (solve_Cubic_delegates _ (fun _ => 0) (Buf.ofList [0, 1, -3, 2])
    (by norm_num [isFuzzyZero, Buf.ofList])).1

theorem sqrt_25_4 (M : MathEnv ℝ) (hM : M.Exact) : M.sqrt (25 / 4) = 5 / 2 := by
  rw [hM.sqrt_eq _ (by norm_num), Real.sqrt_eq_iff_mul_self_eq_of_pos (by norm_num)]
  norm_num

/-- The quartic `x^4 - 11 x^3 + 41 x^2 - 61 x + 30 = (x - 1)(x - 2)(x - 3)(x - 5)`:
the solver returns 4 and writes `3, 7/2, 9/2, 5`. -/
theorem quartic_1235 (M : MathEnv ℝ) (hM : M.Exact) (h1 : M.eps ≤ 1 / 2) (c0 dst : Buf ℝ) :
    MathT_solve_Quartic M c0 dst (Buf.ofList [1, -11, 41, -61, 30])
      = (4, (((((dst.set 0 (7 / 2)).set 1 (9 / 2)).set 2 (9 / 2)).set 1 (7 / 2)).set 0 3).set 3 5) := by
  have hres : quarticResolvent (Buf.ofList [1, -11, 41, -61, 30] : Buf ℝ)
      = Buf.ofList [1, -41, 551, -2431] := by
    unfold quarticResolvent
    norm_num [Buf.ofList]
  have hfz1 : isFuzzyZero M ((Buf.ofList [1, -41, 551, -2431] : Buf ℝ) 0) = false := by
    simp [Buf.ofList, isFuzzyZero]; linarith
  have hD : cubicD (Buf.ofList [1, -41, 551, -2431] : Buf ℝ) = -(64 / 3) := by
    norm_num [cubicD, cubicQ, cubicP, Buf.ofList]
  have hcub := cubic_three_factored M hM c0 (Buf.ofList [1, -41, 551, -2431]) hfz1
    (by rw [hD]; norm_num)
    (by rw [hD]; simp [isFuzzyZero, abs_of_pos]; linarith)
    11 13 17 (by norm_num) (by norm_num)
    (by intro x; rw [polyEval_three]; norm_num [Buf.ofList]; ring)
  obtain ⟨hc1, -, -, hc4⟩ := hcub
  have hx : quarticX M c0 (Buf.ofList [1, -11, 41, -61, 30]) = 17 := by
    unfold quarticX
    rw [hres, hc1, hc4]
  have hw : quarticW M c0 (Buf.ofList [1, -11, 41, -61, 30]) = 25 / 4 := by
    unfold quarticW
    rw [hx]
    norm_num [Buf.ofList]
  have hb : quarticBranch M c0 (Buf.ofList [1, -11, 41, -61, 30]) = (4, 5 / 2, 3 / 2) := by
    unfold quarticBranch
    rw [hw, if_pos (by linarith : (25 / 4 : ℝ) > M.eps), sqrt_25_4 M hM]
    norm_num [Buf.ofList]
  have hq : quarticQ M c0 (Buf.ofList [1, -11, 41, -61, 30]) = (1, 4) := by
    unfold quarticQ quarticSwap
    rw [hb]
    norm_num
  have hdst : quarticDst M dst (Buf.ofList [1, -11, 41, -61, 30]) = dst := by
    unfold quarticDst
    have : isFuzzyZero M ((Buf.ofList [1, -11, 41, -61, 30] : Buf ℝ) 0) = false := by
      simp [Buf.ofList, isFuzzyZero]; linarith
    rw [this]
    simp
  have hfe : isFuzzyEq M 1 4 = false := by
    simp [isFuzzyEq, abs_of_neg]; norm_num; linarith
  rw [quartic_unfold, hres, hc1, hb, hq, hdst, quarticTail_eq]
  simp only [hfe, sqrt_one M hM, sqrt_four M hM]
  norm_num [h1]
  linarith

/-- C14: the quartic `(1, -11, 41, -61, 30)` has the roots `1, 2, 3, 5`, but in
exact real arithmetic (tolerance `1e-14`) `MathT_solve_Quartic` returns 4 and
writes `3, 7/2, 9/2, 5`: the values `7/2` and `9/2` are not roots.  Both root
pairs are taken around the same `base = 4`; the pair of `q0 = 1` belongs
around `-a/4 - r/2 = 3/2`. -/
theorem solve_Quartic_writes_non_roots :
    (MathT_solve_Quartic (⟨1 / 10 ^ 14, Real.sqrt,
      fun x => if 0 ≤ x then x ^ ((1:ℝ) / 3) else -((-x) ^ ((1:ℝ) / 3)),
      Real.arccos, Real.cos, Real.pi / 3⟩ : MathEnv ℝ) (fun _ => 0) (fun _ => 0)
      (Buf.ofList [1, -11, 41, -61, 30])).1 = 4 ∧
    (MathT_solve_Quartic (⟨1 / 10 ^ 14, Real.sqrt,
      fun x => if 0 ≤ x then x ^ ((1:ℝ) / 3) else -((-x) ^ ((1:ℝ) / 3)),
      Real.arccos, Real.cos, Real.pi / 3⟩ : MathEnv ℝ) (fun _ => 0) (fun _ => 0)
      (Buf.ofList [1, -11, 41, -61, 30])).2.take 4 = [3, 7 / 2, 9 / 2, 5] ∧
    polyEval (Buf.ofList [1, -11, 41, -61, 30] : Buf ℝ) 4 (7 / 2) = -(45 / 16) ∧
    polyEval (Buf.ofList [1, -11, 41, -61, 30] : Buf ℝ) 4 (9 / 2) = -(105 / 16) ∧
    ∀ x : ℝ, polyEval (Buf.ofList [1, -11, 41, -61, 30]) 4 x
      = (x - 1) * (x - 2) * (x - 3) * (x - 5) := by
  rw [quartic_1235 _ exact_real_env (by norm_num)]
  refine ⟨rfl, ?_, ?_, ?_, ?_⟩
  · simp [Buf.take, List.range_succ, Buf.set]
  · rw [polyEval_four]; norm_num [Buf.ofList]
  · rw [polyEval_four]; norm_num [Buf.ofList]
  · intro x
    rw [polyEval_four]
    norm_num [Buf.ofList]
    ring

/-! ## The zone allocator -/

namespace ZoneAllocator

theorem setPos_current (z : ZoneAllocator) (v : Nat) :
    (z.setPos v)._current = z._current ∧ (z.setPos v)._chunkSize = z._chunkSize ∧
    ((z.setPos v).mem z._current).pos = v ∧
    ((z.setPos v).mem z._current).end_ = (z.mem z._current).end_ ∧
    ((z.setPos v).mem z._current).data = (z.mem z._current).data ∧
    ((z.setPos v).mem z._current).prev = (z.mem z._current).prev ∧
    ((z.setPos v).mem z._current).next = (z.mem z._current).next ∧
    ∀ a, a ≠ z._current → (z.setPos v).mem a = z.mem a := by
  refine ⟨rfl, rfl, ?_, ?_, ?_, ?_, ?_, ?_⟩ <;> simp [setPos]
  intro a ha
  simp [ha]

theorem setPos_setPos (z : ZoneAllocator) (v w : Nat) :
    (z.setPos v).setPos w = z.setPos w := by
  unfold setPos
  simp only [mk.injEq, true_and]
  funext a
  by_cases h : a = z._current <;> simp [h]

theorem setPos_self (z : ZoneAllocator) : z.setPos (z.mem z._current).pos = z := by
  unfold setPos
  cases z with
  | mk c k m =>
    simp only [mk.injEq, true_and]
    funext a
    by_cases h : a = c
    · simp [h]
    · simp [h]

/-- The fast path: a request that fits is served at the cursor, which moves on
by `size`; nothing else changes. -/
theorem alloc_fits (ptrBits : Nat) (slowAlloc : ZoneAllocator → Nat → Nat × ZoneAllocator)
    (z : ZoneAllocator) (size : Nat) (hcur : z._current ≠ 0) (hsize : size < z._chunkSize)
    (hend : (z.mem z._current).end_ < 2 ^ ptrBits)
    (hfit : (z.mem z._current).pos + size ≤ (z.mem z._current).end_) :
    alloc ptrBits slowAlloc z size
      = some ((z.mem z._current).pos, z.setPos ((z.mem z._current).pos + size)) := by
  have hmod : ptrAdd ptrBits (z.mem z._current).pos size = (z.mem z._current).pos + size := by
    unfold ptrAdd
    exact Nat.mod_eq_of_lt (lt_of_le_of_lt hfit hend)
  obtain ⟨h1, -, h3, h4, -⟩ := setPos_current z ((z.mem z._current).pos + size)
  unfold alloc
  rw [if_neg hcur, if_neg (not_not.mpr hsize)]
  simp only [hmod, h1, h3, h4]
  rw [if_neg (not_lt.mpr hfit)]

theorem allocSeq_fits (ptrBits : Nat) (slowAlloc : ZoneAllocator → Nat → Nat × ZoneAllocator)
    (sizes : List Nat) (z : ZoneAllocator) (hcur : z._current ≠ 0)
    (hsize : ∀ s ∈ sizes, s < z._chunkSize)
    (hend : (z.mem z._current).end_ < 2 ^ ptrBits)
    (hfit : (z.mem z._current).pos + sizes.sum ≤ (z.mem z._current).end_) :
    allocSeq ptrBits slowAlloc z sizes
      = some (cursors (z.mem z._current).pos sizes,
          z.setPos ((z.mem z._current).pos + sizes.sum)) := by
  induction sizes generalizing z with
  | nil => simp [allocSeq, cursors, setPos_self]
  | cons s rest ih =>
    rw [List.sum_cons] at hfit
    have h1 := alloc_fits ptrBits slowAlloc z s hcur (hsize s (List.mem_cons_self _ _)) hend
      (by omega)
    obtain ⟨c1, c2, c3, c4, -⟩ := setPos_current z ((z.mem z._current).pos + s)
    have h2 := ih (z.setPos ((z.mem z._current).pos + s)) (by rw [c1]; exact hcur)
      (by intro t ht; rw [c2]; exact hsize t (List.mem_cons_of_mem _ ht))
      (by rw [c1, c4]; exact hend) (by rw [c1, c3, c4]; omega)
    rw [c1, c3] at h2
    simp only [allocSeq, h1, h2, cursors, setPos_setPos, List.sum_cons, Nat.add_assoc]

theorem cursors_ge (sizes : List Nat) (p : Nat) : ∀ q ∈ cursors p sizes, p ≤ q := by
  induction sizes generalizing p with
  | nil => simp [cursors]
  | cons s rest ih =>
    intro q hq
    simp only [cursors, List.mem_cons] at hq
    rcases hq with h | h
    · omega
    · have := ih (p + s) q h
      omega

theorem cursors_pairwise_le (sizes : List Nat) (p : Nat) :
    (cursors p sizes).Pairwise (fun a b => a ≤ b) := by
  induction sizes generalizing p with
  | nil => simp [cursors]
  | cons s rest ih =>
    simp only [cursors, List.pairwise_cons]
    refine ⟨fun q hq => ?_, ih (p + s)⟩
    have := cursors_ge rest (p + s) q hq
    omega

theorem cursors_pairwise_lt (sizes : List Nat) (p : Nat) (hpos : ∀ s ∈ sizes, 0 < s) :
    (cursors p sizes).Pairwise (fun a b => a < b) := by
  induction sizes generalizing p with
  | nil => simp [cursors]
  | cons s rest ih =>
    simp only [cursors, List.pairwise_cons]
    refine ⟨fun q hq => ?_, ih (p + s) (fun t ht => hpos t (List.mem_cons_of_mem _ ht))⟩
    have := cursors_ge rest (p + s) q hq
    have := hpos s (List.mem_cons_self _ _)
    omega

theorem cursors_length (sizes : List Nat) (p : Nat) : (cursors p sizes).length = sizes.length := by
  induction sizes generalizing p with
  | nil => rfl
  | cons s rest ih => simp [cursors, ih]

/-- The blocks `[p_i, p_i + size_i)` do not overlap: each ends where the later
ones start, or before. -/
theorem cursors_disjoint (sizes : List Nat) (p : Nat) :
    ((cursors p sizes).zip sizes).Pairwise (fun a b => a.1 + a.2 ≤ b.1) := by
  induction sizes generalizing p with
  | nil => simp [cursors]
  | cons s rest ih =>
    simp only [cursors, List.zip_cons_cons, List.pairwise_cons]
    refine ⟨fun b hb => ?_, ih (p + s)⟩
    have hb1 : b.1 ∈ cursors (p + s) rest := (List.of_mem_zip hb).1
    exact cursors_ge rest (p + s) b.1 hb1

theorem cursors_aligned (A data : Nat) (sizes : List Nat) (p : Nat) (hp : data ≤ p)
    (hoff : A ∣ p - data) (hs : ∀ s ∈ sizes, A ∣ s) :
    ∀ q ∈ cursors p sizes, A ∣ q - data := by
  induction sizes generalizing p with
  | nil => simp [cursors]
  | cons s rest ih =>
    intro q hq
    simp only [cursors, List.mem_cons] at hq
    rcases hq with h | h
    · rw [h]; exact hoff
    · refine ih (p + s) (by omega) ?_ (fun t ht => hs t (List.mem_cons_of_mem _ ht)) q h
      have : p + s - data = (p - data) + s := by omega
      rw [this]
      exact Dvd.dvd.add hoff (hs s (List.mem_cons_self _ _))

end ZoneAllocator

/-! ## Claims on the zone allocator -/

/-- C15, as stated, fails: a request of size 0 is admitted (`0 < _chunkSize`) and
returns the cursor without moving it, so the next request returns the same
address.  With the cursor at the data start 4096 of a chunk of size 64, the
requests `0, 4` both return 4096: the addresses are not strictly increasing. -/
theorem alloc_zero_size_repeats_address :
    (0 < 64 ∧ 4 < 64) ∧ 4096 + (0 + 4) ≤ 4160 ∧
    (ZoneAllocator.allocSeq 64 (fun z _ => (0, z))
      (⟨4064, 64, fun _ => ⟨0, 0, 4096, 4160, 4096⟩⟩ : ZoneAllocator) [0, 4]).map Prod.fst
      = some [4096, 4096] ∧
    ¬ List.Pairwise (fun a b : Nat => a < b) [4096, 4096] := by
  refine ⟨by decide, by decide, by rfl, by decide⟩

/-- C15, amended: for requests that are each smaller than the chunk size and
fit together in the current chunk, every `alloc` returns the cursor held
before the call and advances it by exactly `size`, changing nothing else; the
returned addresses are non-decreasing, strictly increasing when every size is
non-zero, and the blocks `[p_i, p_i + size_i)` are pairwise non-overlapping. -/
theorem alloc_sequence_in_chunk (ptrBits : Nat)
    (slowAlloc : ZoneAllocator → Nat → Nat × ZoneAllocator) (z : ZoneAllocator)
    (sizes : List Nat) (hcur : z._current ≠ 0) (hsize : ∀ s ∈ sizes, s < z._chunkSize)
    (hend : (z.mem z._current).end_ < 2 ^ ptrBits)
    (hfit : (z.mem z._current).pos + sizes.sum ≤ (z.mem z._current).end_) :
    ZoneAllocator.allocSeq ptrBits slowAlloc z sizes
      = some (ZoneAllocator.cursors (z.mem z._current).pos sizes,
          z.setPos ((z.mem z._current).pos + sizes.sum)) ∧
    (∀ size rest, sizes = size :: rest →
      ZoneAllocator.alloc ptrBits slowAlloc z size
        = some ((z.mem z._current).pos, z.setPos ((z.mem z._current).pos + size))) ∧
    (ZoneAllocator.cursors (z.mem z._current).pos sizes).Pairwise (fun a b => a ≤ b) ∧
    ((∀ s ∈ sizes, 0 < s) →
      (ZoneAllocator.cursors (z.mem z._current).pos sizes).Pairwise (fun a b => a < b)) ∧
    ((ZoneAllocator.cursors (z.mem z._current).pos sizes).zip sizes).Pairwise
      (fun a b => a.1 + a.2 ≤ b.1) := by
  refine ⟨ZoneAllocator.allocSeq_fits ptrBits slowAlloc sizes z hcur hsize hend hfit, ?_,
    ZoneAllocator.cursors_pairwise_le sizes _, ZoneAllocator.cursors_pairwise_lt sizes _,
    ZoneAllocator.cursors_disjoint sizes _⟩
  intro size rest he
  subst he
  rw [List.sum_cons] at hfit
  exact ZoneAllocator.alloc_fits ptrBits slowAlloc z size hcur
    (hsize size (List.mem_cons_self _ _)) hend (by omega)

/-- C15, witness: the requests `8, 0, 4` with the cursor at the data start 4096
of a chunk of size 64 return the addresses `4096, 4104, 4104`. -/
theorem alloc_sequence_in_chunk_witness :
    (ZoneAllocator.allocSeq 64 (fun z _ => (0, z))
      (⟨4064, 64, fun _ => ⟨0, 0, 4096, 4160, 4096⟩⟩ : ZoneAllocator) [8, 0, 4]).map Prod.fst
      = some [4096, 4104, 4104] := by
  rw [(alloc_sequence_in_chunk 64 (fun z _ => (0, z))
    (⟨4064, 64, fun _ => ⟨0, 0, 4096, 4160, 4096⟩⟩ : ZoneAllocator) [8, 0, 4] (by decide)
    (by decide) (by decide) (by decide)).1]
  rfl

/-- C16, as stated, fails: `alloc` does not round the cursor.  In a chunk whose
data start 4096 is aligned to the word size 8, the requests `1, 8` return
`4096, 4097`, and the second pointer is 1 byte off the data start. -/
theorem alloc_unaligned_after_odd_size :
    (1 < 64 ∧ 8 < 64) ∧ 4096 + (1 + 8) ≤ 4160 ∧ 8 ∣ 4096 ∧
    (ZoneAllocator.allocSeq 64 (fun z _ => (0, z))
      (⟨4064, 64, fun _ => ⟨0, 0, 4096, 4160, 4096⟩⟩ : ZoneAllocator) [1, 8]).map Prod.fst
      = some [4096, 4097] ∧
    ¬ 8 ∣ 4097 - 4096 := by
  refine ⟨by decide, by decide, by decide, by rfl, by decide⟩

/-- C16, amended: for requests that are each smaller than the chunk size and
fit together in the current chunk, the returned pointers are the successive
cursor values; the offset of each from the chunk's data start is a multiple of
the alignment `A` when the offset of the cursor before the first call and all
the sizes requested are multiples of `A`. -/
theorem alloc_aligned_for_aligned_sizes (ptrBits : Nat)
    (slowAlloc : ZoneAllocator → Nat → Nat × ZoneAllocator) (z : ZoneAllocator)
    (sizes : List Nat) (A : Nat) (hcur : z._current ≠ 0)
    (hsize : ∀ s ∈ sizes, s < z._chunkSize)
    (hend : (z.mem z._current).end_ < 2 ^ ptrBits)
    (hfit : (z.mem z._current).pos + sizes.sum ≤ (z.mem z._current).end_)
    (hdata : (z.mem z._current).data ≤ (z.mem z._current).pos)
    (hoff : A ∣ (z.mem z._current).pos - (z.mem z._current).data)
    (hal : ∀ s ∈ sizes, A ∣ s) :
    (ZoneAllocator.allocSeq ptrBits slowAlloc z sizes).map Prod.fst
      = some (ZoneAllocator.cursors (z.mem z._current).pos sizes) ∧
    ∀ q ∈ ZoneAllocator.cursors (z.mem z._current).pos sizes,
      A ∣ q - (z.mem z._current).data := by
  rw [ZoneAllocator.allocSeq_fits ptrBits slowAlloc sizes z hcur hsize hend hfit]
  exact ⟨rfl, ZoneAllocator.cursors_aligned A _ sizes _ hdata hoff hal⟩

/-- C16, witness: the requests `8, 16, 8` from the aligned data start 4096. -/
theorem alloc_aligned_for_aligned_sizes_witness :
    (ZoneAllocator.allocSeq 64 (fun z _ => (0, z))
      (⟨4064, 64, fun _ => ⟨0, 0, 4096, 4160, 4096⟩⟩ : ZoneAllocator) [8, 16, 8]).map Prod.fst
      = some [4096, 4104, 4120] ∧
    ∀ q ∈ [4096, 4104, 4120], 8 ∣ q - 4096 :=
  alloc_aligned_for_aligned_sizes 64 (fun z _ => (0, z))
    (⟨4064, 64, fun _ => ⟨0, 0, 4096, 4160, 4096⟩⟩ : ZoneAllocator) [8, 16, 8] 8 (by decide)
    (by decide) (by decide) (by decide) (by decide) (by decide) (by decide)

/-! ## The gradient model -/

section
variable {N F D S : Type}

theorem point_eq_iff (p q : PointT N) : p = q ↔ p.x = q.x ∧ p.y = q.y := by
  cases p; cases q; simp

theorem gradient_eq_iff (a b : GradientT N S) :
    a = b ↔ a._gradientType = b._gradientType ∧ a._gradientSpread = b._gradientSpread ∧
      a._stops = b._stops ∧ ∀ i, a._pts i = b._pts i := by
  cases a; cases b
  simp only [GradientT.mk.injEq]
  constructor
  · rintro ⟨h1, h2, h3, h4⟩
    exact ⟨h1, h2, h3, fun i => by rw [h4]⟩
  · rintro ⟨h1, h2, h3, h4⟩
    exact ⟨h1, h2, h3, funext h4⟩

theorem fin3_forall (P : Fin 3 → Prop) : (∀ i, P i) ↔ P 0 ∧ P 1 ∧ P 2 := by
  constructor
  · intro h; exact ⟨h 0, h 1, h 2⟩
  · rintro ⟨h0, h1, h2⟩ i
    fin_cases i
    · exact h0
    · exact h1
    · exact h2

theorem MemOps_eq_iff [DecidableEq N] (a b : Fin 3 → PointT N) :
    MemOps_eq a b = true ↔ ∀ i, a i = b i := by
  rw [fin3_forall]
  simp only [MemOps_eq, Bool.and_eq_true, decide_eq_true_eq, point_eq_iff]
  tauto

theorem GradientF_eq_iff [DecidableEq F] [DecidableEq S] (a b : GradientT F S) :
    GradientF_eq a b = true ↔ a = b := by
  rw [gradient_eq_iff]
  simp only [GradientF_eq, stopsEq, Bool.and_eq_true, decide_eq_true_eq, MemOps_eq_iff]
  tauto

theorem GradientD_eq_iff [DecidableEq D] [DecidableEq S] (a b : GradientT D S) :
    GradientD_eq a b = true ↔ a = b := by
  rw [gradient_eq_iff]
  simp only [GradientD_eq, stopsEq, Bool.and_eq_true, decide_eq_true_eq, MemOps_eq_iff]
  tauto

theorem bool_eq_of_iff {p q : Bool} (h : p = true ↔ q = true) : p = q := by
  cases p <;> cases q <;> simp_all

end

section
variable {F D S : Type}

theorem setPt_chain (g : GradientT F S) (p0 p1 p2 : PointT F) :
    (((g.setPt 0 p0).setPt 1 p1).setPt 2 p2)._pts 0 = p0 ∧
    (((g.setPt 0 p0).setPt 1 p1).setPt 2 p2)._pts 1 = p1 ∧
    (((g.setPt 0 p0).setPt 1 p1).setPt 2 p2)._pts 2 = p2 := by
  simp [GradientT.setPt]

/-- What the four cross-precision functions leave in `self`: the kind, spread
and stops of `other` and its three points, each component cast. -/
theorem convert_result (cast : D → F) (self : GradientT F S) (other : GradientT D S) :
    GradientF_ctorCopyD cast self other
      = ⟨other._gradientType, other._gradientSpread, other._stops,
          fun i => PointT.convert cast (other._pts i)⟩ := by
  rw [gradient_eq_iff]
  refine ⟨rfl, rfl, rfl, ?_⟩
  rw [fin3_forall]
  simp [GradientF_ctorCopyD, GradientT.setPt, GradientT.setStops, GradientT.setSpread,
    GradientT.setType]

theorem convert_round_trip (widen : F → D) (narrow : D → F)
    (hrt : ∀ x, narrow (widen x) = x) (g : GradientT F S) :
    (⟨g._gradientType, g._gradientSpread, g._stops,
      fun i => PointT.convert narrow (PointT.convert widen (g._pts i))⟩ : GradientT F S) = g := by
  rw [gradient_eq_iff]
  refine ⟨rfl, rfl, rfl, fun i => ?_⟩
  simp [PointT.convert, hrt]

theorem copy_result (K : GradientConsts) (m : Nat → GradientT F S) (self other : Nat) :
    GradientF_copyF K m self other = (K.ERR_OK, storeAt m self (m other)) := by
  unfold GradientF_copyF
  simp only [Prod.mk.injEq, true_and]
  funext a
  by_cases ha : a = self
  · subst ha
    by_cases hs : other = a
    · subst hs
      rw [gradient_eq_iff]
      refine ⟨?_, ?_, ?_, ?_⟩ <;> try simp [storeAt, GradientT.setPt, GradientT.setStops,
        GradientT.setSpread, GradientT.setType]
      intro i
      fin_cases i <;> simp
    · rw [gradient_eq_iff]
      refine ⟨?_, ?_, ?_, ?_⟩ <;> try simp [storeAt, GradientT.setPt, GradientT.setStops,
        GradientT.setSpread, GradientT.setType, hs]
      intro i
      fin_cases i <;> simp
  · simp [storeAt, ha]

theorem reset_result [Zero F] (K : GradientConsts) (g : GradientT F S) :
    GradientF_reset K g
      = ⟨K.GRADIENT_TYPE_INVALID, K.GRADIENT_SPREAD_DEFAULT, [], fun _ => ⟨0, 0⟩⟩ := by
  rw [gradient_eq_iff]
  refine ⟨rfl, rfl, rfl, ?_⟩
  rw [fin3_forall]
  simp [GradientF_reset, GradientT.setPt, GradientT.setStops, GradientT.setSpread,
    GradientT.setType, PointT.reset]

end

/-! ## Claims on the gradient model -/

/-- C17: `GradientF_eq` and `GradientD_eq` are true exactly when the kind, the
spread, the stop lists and every component of the three points agree (bit for
bit: a component is its bit pattern); they are reflexive and symmetric, and
two gradients that differ compare unequal. -/
theorem Gradient_eq_structural {F D S : Type} [DecidableEq F] [DecidableEq D] [DecidableEq S]
    (a b : GradientT F S) (c d : GradientT D S) :
    (GradientF_eq a b = true ↔
      a._gradientType = b._gradientType ∧ a._gradientSpread = b._gradientSpread ∧
      a._stops = b._stops ∧
      ∀ i, (a._pts i).x = (b._pts i).x ∧ (a._pts i).y = (b._pts i).y) ∧
    GradientF_eq a a = true ∧
    GradientF_eq a b = GradientF_eq b a ∧
    (a ≠ b → GradientF_eq a b = false) ∧
    (GradientD_eq c d = true ↔
      c._gradientType = d._gradientType ∧ c._gradientSpread = d._gradientSpread ∧
      c._stops = d._stops ∧
      ∀ i, (c._pts i).x = (d._pts i).x ∧ (c._pts i).y = (d._pts i).y) ∧
    GradientD_eq c c = true ∧
    GradientD_eq c d = GradientD_eq d c ∧
    (c ≠ d → GradientD_eq c d = false) := by
  refine ⟨?_, (GradientF_eq_iff a a).mpr rfl, ?_, ?_, ?_, (GradientD_eq_iff c c).mpr rfl, ?_, ?_⟩
  · rw [GradientF_eq_iff, gradient_eq_iff]
    simp only [point_eq_iff]
  · apply bool_eq_of_iff
    rw [GradientF_eq_iff, GradientF_eq_iff]
    exact eq_comm
  · intro h
    rw [← Bool.not_eq_true, GradientF_eq_iff]
    exact h
  · rw [GradientD_eq_iff, gradient_eq_iff]
    simp only [point_eq_iff]
  · apply bool_eq_of_iff
    rw [GradientD_eq_iff, GradientD_eq_iff]
    exact eq_comm
  · intro h
    rw [← Bool.not_eq_true, GradientD_eq_iff]
    exact h

/-- C18: when `float -> double -> float` is the identity on every component,
widening a single-precision gradient `g` (`GradientD_ctorCopyF` or
`GradientD_copyF`) and narrowing the result back (`GradientF_ctorCopyD` or
`GradientF_copyD`) gives `g` again, kind, spread, stops and points, so
`GradientF_eq` reports it equal to `g`. -/
theorem Gradient_widen_narrow {F D S : Type} [DecidableEq F] [DecidableEq S]
    (K : GradientConsts) (widen : F → D) (narrow : D → F)
    (hrt : ∀ x, narrow (widen x) = x) (g selfF : GradientT F S) (selfD : GradientT D S) :
    (GradientF_ctorCopyD narrow selfF (GradientD_ctorCopyF widen selfD g) = g ∧
     (GradientF_copyD K narrow selfF (GradientD_ctorCopyF widen selfD g)).2 = g ∧
     GradientF_ctorCopyD narrow selfF (GradientD_copyF K widen selfD g).2 = g ∧
     (GradientF_copyD K narrow selfF (GradientD_copyF K widen selfD g).2).2 = g) ∧
    (GradientF_eq (GradientF_ctorCopyD narrow selfF (GradientD_ctorCopyF widen selfD g)) g
      = true ∧
     GradientF_eq (GradientF_copyD K narrow selfF (GradientD_ctorCopyF widen selfD g)).2 g
      = true ∧
     GradientF_eq (GradientF_ctorCopyD narrow selfF (GradientD_copyF K widen selfD g).2) g
      = true ∧
     GradientF_eq (GradientF_copyD K narrow selfF (GradientD_copyF K widen selfD g).2).2 g
      = true) := by
  have hw : GradientD_ctorCopyF widen selfD g
      = ⟨g._gradientType, g._gradientSpread, g._stops,
          fun i => PointT.convert widen (g._pts i)⟩ := convert_result widen selfD g
  have hw2 : (GradientD_copyF K widen selfD g).2 = GradientD_ctorCopyF widen selfD g := rfl
  have hn : ∀ other : GradientT D S,
      (GradientF_copyD K narrow selfF other).2 = GradientF_ctorCopyD narrow selfF other :=
    fun _ => rfl
  have key : GradientF_ctorCopyD narrow selfF (GradientD_ctorCopyF widen selfD g) = g := by
    rw [hw, convert_result narrow selfF]
    exact convert_round_trip widen narrow hrt g
  simp only [hw2, hn, key, GradientF_eq_iff, and_self]

/-- C18, witness: bit patterns as numbers, widening by a shift of 32 bits and
narrowing by the shift back. -/
theorem Gradient_widen_narrow_witness :
    GradientF_eq
      (GradientF_ctorCopyD (fun y : Nat => y / 2 ^ 32) (⟨0, 0, [], fun _ => ⟨0, 0⟩⟩ : GradientT Nat Nat)
        (GradientD_ctorCopyF (fun x : Nat => x * 2 ^ 32) (⟨0, 0, [], fun _ => ⟨0, 0⟩⟩ : GradientT Nat Nat)
          (⟨1, 2, [7, 9], fun i => ⟨i.val, 5⟩⟩ : GradientT Nat Nat)))
      (⟨1, 2, [7, 9], fun i => ⟨i.val, 5⟩⟩ : GradientT Nat Nat) = true :=
  (Gradient_widen_narrow ⟨0, 0, 0⟩ (fun x : Nat => x * 2 ^ 32) (fun y : Nat => y / 2 ^ 32)
    (fun x => Nat.mul_div_cancel x (by decide)) _ _ _).2.1

/-- C19: `GradientF_copyF` and `GradientD_copyD` return `ERR_OK`, leave `other`
(and every object but `self`) as it was, and leave `self` equal to `other`
under the gradient equality, whatever `self` held before and also when `self`
and `other` are the same object. -/
theorem Gradient_copy {F D S : Type} [DecidableEq F] [DecidableEq D] [DecidableEq S]
    (K : GradientConsts) (mF : Nat → GradientT F S) (mD : Nat → GradientT D S)
    (self other : Nat) :
    ((GradientF_copyF K mF self other).1 = K.ERR_OK ∧
     (GradientF_copyF K mF self other).2 other = mF other ∧
     GradientF_eq ((GradientF_copyF K mF self other).2 self)
       ((GradientF_copyF K mF self other).2 other) = true ∧
     ∀ a, a ≠ self → (GradientF_copyF K mF self other).2 a = mF a) ∧
    ((GradientD_copyD K mD self other).1 = K.ERR_OK ∧
     (GradientD_copyD K mD self other).2 other = mD other ∧
     GradientD_eq ((GradientD_copyD K mD self other).2 self)
       ((GradientD_copyD K mD self other).2 other) = true ∧
     ∀ a, a ≠ self → (GradientD_copyD K mD self other).2 a = mD a) := by
  have hD : GradientD_copyD K mD self other = GradientF_copyF K mD self other := rfl
  have aux : ∀ {N : Type} (m : Nat → GradientT N S),
      storeAt m self (m other) other = m other ∧
      storeAt m self (m other) self = storeAt m self (m other) other ∧
      ∀ a, a ≠ self → storeAt m self (m other) a = m a := by
    intro N m
    refine ⟨?_, ?_, ?_⟩
    · by_cases h : other = self <;> simp [storeAt, h]
    · by_cases h : other = self <;> simp [storeAt, h]
    · intro a ha; simp [storeAt, ha]
  rw [hD, copy_result K mF, copy_result K mD]
  refine ⟨⟨rfl, (aux mF).1, ?_, (aux mF).2.2⟩, ⟨rfl, (aux mD).1, ?_, (aux mD).2.2⟩⟩
  · rw [GradientF_eq_iff]; exact (aux mF).2.1
  · rw [GradientD_eq_iff]; exact (aux mD).2.1

/-- C20: `GradientF_reset` and `GradientD_reset` leave the kind
`GRADIENT_TYPE_INVALID`, the spread `GRADIENT_SPREAD_DEFAULT`, an empty stop
list and three zeroed points; the result does not depend on the state before,
and a second reset changes nothing. -/
theorem Gradient_reset {F D S : Type} [Zero F] [Zero D] (K : GradientConsts)
    (g h : GradientT F S) (c d : GradientT D S) :
    ((GradientF_reset K g)._gradientType = K.GRADIENT_TYPE_INVALID ∧
     (GradientF_reset K g)._gradientSpread = K.GRADIENT_SPREAD_DEFAULT ∧
     (GradientF_reset K g)._stops = [] ∧
     (∀ i, (GradientF_reset K g)._pts i = ⟨0, 0⟩) ∧
     GradientF_reset K (GradientF_reset K g) = GradientF_reset K g ∧
     GradientF_reset K g = GradientF_reset K h) ∧
    ((GradientD_reset K c)._gradientType = K.GRADIENT_TYPE_INVALID ∧
     (GradientD_reset K c)._gradientSpread = K.GRADIENT_SPREAD_DEFAULT ∧
     (GradientD_reset K c)._stops = [] ∧
     (∀ i, (GradientD_reset K c)._pts i = ⟨0, 0⟩) ∧
     GradientD_reset K (GradientD_reset K c) = GradientD_reset K c ∧
     GradientD_reset K c = GradientD_reset K d) := by
  have hD : ∀ x : GradientT D S, GradientD_reset K x = GradientF_reset K x := fun _ => rfl
  simp [hD, reset_result]

/-! ## Claims on the remaining branches of the cubic solver -/

/-- C22: in exact real arithmetic, whenever `MathT_solve_Cubic` takes the
three-real-roots branch (`D = q^2 + p^3 < 0`), `p < 0` and `-p^3 > 0`, so both
square roots have a positive argument, the divisor `sqrt(-p^3)` is positive,
and the argument `-q / sqrt(-p^3)` of `acos` lies in `[-1, 1]`. -/
theorem solve_Cubic_trig_domains (M : MathEnv ℝ) (hM : M.Exact) (dst func : Buf ℝ)
    (h0 : isFuzzyZero M (func 0) = false) (hz : isFuzzyZero M (cubicD func) = false)
    (hneg : cubicD func < 0) :
    (MathT_solve_Cubic M dst func).1 = 3 ∧
    cubicP func < 0 ∧
    0 < -(cubicP func * cubicP func * cubicP func) ∧
    0 < -cubicP func ∧
    0 < M.sqrt (-(cubicP func * cubicP func * cubicP func)) ∧
    M.sqrt (-(cubicP func * cubicP func * cubicP func)) ≠ 0 ∧
    |(-cubicQ func) / M.sqrt (-(cubicP func * cubicP func * cubicP func))| ≤ 1 ∧
    -1 ≤ -cubicQ func / M.sqrt (-(cubicP func * cubicP func * cubicP func)) ∧
    -cubicQ func / M.sqrt (-(cubicP func * cubicP func * cubicP func)) ≤ 1 := by
  have hd : cubicQ func * cubicQ func + cubicP func * cubicP func * cubicP func < 0 := hneg
  obtain ⟨hp, hp3, hs, hr2, hr1, -⟩ := viete_angle (cubicP func) (cubicQ func) hd
  rw [cubic_three M dst func h0 hz hneg, hM.sqrt_eq _ (le_of_lt hp3)]
  exact ⟨rfl, hp, hp3, by linarith, hs, ne_of_gt hs, abs_le.mpr ⟨le_of_lt hr2, le_of_lt hr1⟩,
    le_of_lt hr2, le_of_lt hr1⟩

/-- C22, witness: the cubic `(1, -6, 11, -6)`, of discriminant `-1 / 27`. -/
theorem solve_Cubic_trig_domains_witness :
    cubicP (Buf.ofList [1, -6, 11, -6] : Buf ℝ) < 0 ∧
    |(-cubicQ (Buf.ofList [1, -6, 11, -6] : Buf ℝ))
      / Real.sqrt (-(cubicP (Buf.ofList [1, -6, 11, -6] : Buf ℝ)
        * cubicP (Buf.ofList [1, -6, 11, -6] : Buf ℝ)
        * cubicP (Buf.ofList [1, -6, 11, -6] : Buf ℝ)))| ≤ 1 := by
  have hD : cubicD (Buf.ofList [1, -6, 11, -6] : Buf ℝ) = -(1 / 27) := by
    norm_num [cubicD, cubicQ, cubicP, Buf.ofList]
  have h := solve_Cubic_trig_domains (⟨1 / 10 ^ 14, Real.sqrt,
      fun x => if 0 ≤ x then x ^ ((1:ℝ) / 3) else -((-x) ^ ((1:ℝ) / 3)),
      Real.arccos, Real.cos, Real.pi / 3⟩ : MathEnv ℝ) exact_real_env (fun _ => 0)
      (Buf.ofList [1, -6, 11, -6]) (by norm_num [isFuzzyZero, Buf.ofList])
      (by rw [hD]; norm_num [isFuzzyZero, abs_of_pos]) (by rw [hD]; norm_num)
  exact ⟨h.2.1, h.2.2.2.2.2.2.1⟩

/-! ## Claim on the order of the steps of `alloc` -/

/-- C23: `ZoneAllocator::alloc` (its assertions holding) moves the cursor of the
current chunk to `pos + size` before it compares it with `end`.  If the moved
cursor is not beyond `end`, the call returns the old `pos` and changes nothing
but that cursor.  If it is beyond `end`, the call is `_alloc(size)` run on the
allocator whose cursor is already moved, beyond `end`; the inline code does
nothing more.  `pos + size` is the pointer sum, which is the sum of the numbers
when that is below `2 ^ ptrBits`. -/
theorem alloc_moves_cursor_first (ptrBits : Nat)
    (slowAlloc : ZoneAllocator → Nat → Nat × ZoneAllocator) (z : ZoneAllocator) (size : Nat)
    (hcur : z._current ≠ 0) (hsize : size < z._chunkSize) :
    ((z.mem z._current).pos + size < 2 ^ ptrBits →
      ZoneAllocator.ptrAdd ptrBits (z.mem z._current).pos size = (z.mem z._current).pos + size) ∧
    (ZoneAllocator.ptrAdd ptrBits (z.mem z._current).pos size ≤ (z.mem z._current).end_ →
      ZoneAllocator.alloc ptrBits slowAlloc z size
        = some ((z.mem z._current).pos,
            z.setPos (ZoneAllocator.ptrAdd ptrBits (z.mem z._current).pos size)) ∧
      ((z.setPos (ZoneAllocator.ptrAdd ptrBits (z.mem z._current).pos size)).mem
          z._current).pos ≤ (z.mem z._current).end_) ∧
    (ZoneAllocator.ptrAdd ptrBits (z.mem z._current).pos size > (z.mem z._current).end_ →
      ZoneAllocator.alloc ptrBits slowAlloc z size
        = some (slowAlloc
            (z.setPos (ZoneAllocator.ptrAdd ptrBits (z.mem z._current).pos size)) size) ∧
      ((z.setPos (ZoneAllocator.ptrAdd ptrBits (z.mem z._current).pos size)).mem
          z._current).pos > (z.mem z._current).end_) ∧
    (∀ v, (z.setPos v)._current = z._current ∧ (z.setPos v)._chunkSize = z._chunkSize ∧
      ((z.setPos v).mem z._current).pos = v ∧
      ((z.setPos v).mem z._current).end_ = (z.mem z._current).end_ ∧
      ((z.setPos v).mem z._current).data = (z.mem z._current).data ∧
      ((z.setPos v).mem z._current).prev = (z.mem z._current).prev ∧
      ((z.setPos v).mem z._current).next = (z.mem z._current).next ∧
      ∀ a, a ≠ z._current → (z.setPos v).mem a = z.mem a) := by
  have hstep : ZoneAllocator.alloc ptrBits slowAlloc z size
      = if ZoneAllocator.ptrAdd ptrBits (z.mem z._current).pos size > (z.mem z._current).end_
        then some (slowAlloc
          (z.setPos (ZoneAllocator.ptrAdd ptrBits (z.mem z._current).pos size)) size)
        else some ((z.mem z._current).pos,
          z.setPos (ZoneAllocator.ptrAdd ptrBits (z.mem z._current).pos size)) := by
    obtain ⟨h1, -, h3, h4, -⟩ := ZoneAllocator.setPos_current z
      (ZoneAllocator.ptrAdd ptrBits (z.mem z._current).pos size)
    unfold ZoneAllocator.alloc
    rw [if_neg hcur, if_neg (not_not.mpr hsize)]
    simp only [h1, h3, h4]
  refine ⟨fun h => Nat.mod_eq_of_lt h, fun hfit => ?_, fun hbig => ?_,
    fun v => ZoneAllocator.setPos_current z v⟩
  · rw [hstep, if_neg (not_lt.mpr hfit), (ZoneAllocator.setPos_current z _).2.2.1]
    exact ⟨rfl, hfit⟩
  · rw [hstep, if_pos hbig, (ZoneAllocator.setPos_current z _).2.2.1]
    exact ⟨rfl, hbig⟩

/-- C23, witness: with the cursor at 4150 in a chunk ending at 4160, a request
of 16 bytes reaches `_alloc` with the cursor at 4166, and a request of 8 bytes
returns 4150. -/
theorem alloc_moves_cursor_first_witness :
    (ZoneAllocator.alloc 64 (fun z _ => (0, z))
      (⟨4064, 64, fun _ => ⟨0, 0, 4150, 4160, 4096⟩⟩ : ZoneAllocator) 16).map
        (fun r => (r.2.mem 4064).pos) = some 4166 ∧
    (ZoneAllocator.alloc 64 (fun z _ => (0, z))
      (⟨4064, 64, fun _ => ⟨0, 0, 4150, 4160, 4096⟩⟩ : ZoneAllocator) 8).map Prod.fst
        = some 4150 := by
  have h16 := (alloc_moves_cursor_first 64 (fun z _ => (0, z))
    (⟨4064, 64, fun _ => ⟨0, 0, 4150, 4160, 4096⟩⟩ : ZoneAllocator) 16 (by decide)
    (by decide)).2.2.1 (by decide)
  have h8 := (alloc_moves_cursor_first 64 (fun z _ => (0, z))
    (⟨4064, 64, fun _ => ⟨0, 0, 4150, 4160, 4096⟩⟩ : ZoneAllocator) 8 (by decide)
    (by decide)).2.1 (by decide)
  rw [h16.1, h8.1]
  exact ⟨by rfl, by rfl⟩

/-! ## The solvers over the arithmetic of the machine -/

section
variable {α : Type}

theorem fp_sortPair_vals (A : FpArith α) (d : Buf α) (x y : α) :
    (Double.sortPair A ((d.set 0 x).set 1 y) 0 1) 0 = (if A.lt y x then y else x) ∧
    (Double.sortPair A ((d.set 0 x).set 1 y) 0 1) 1 = (if A.lt y x then x else y) := by
  have e0 : ((d.set 0 x).set 1 y) 0 = x := by simp [Buf.set]
  have e1 : ((d.set 0 x).set 1 y) 1 = y := by simp [Buf.set]
  unfold Double.sortPair
  rw [e0, e1]
  split_ifs with h
  · simp [Buf.swap, Buf.set]
  · exact ⟨e0, e1⟩

theorem fp_quad_none_of_neg (A : FpArith α) (dst func : Buf α)
    (ha : A.isFuzzyZero (func 0) = false) (hd : A.lt (Double.quadD A func) A.zero = true) :
    Double.MathT_solve_Quadratic A dst func = (0, dst) := by
  unfold Double.quadD at hd
  simp only [Double.MathT_solve_Quadratic, ha, hd, if_true, if_false, Bool.false_eq_true]

theorem fp_quad_double (A : FpArith α) (dst func : Buf α)
    (ha : A.isFuzzyZero (func 0) = false) (hd : A.lt (Double.quadD A func) A.zero = false)
    (hz : A.isFuzzyPositiveZero (Double.quadD A func) = true) :
    Double.MathT_solve_Quadratic A dst func
      = (1, dst.set 0 (A.div (A.neg (func 1)) (A.mul A.two (func 0)))) := by
  unfold Double.quadD at hd hz
  simp only [Double.MathT_solve_Quadratic, ha, hd, hz, if_true, if_false, Bool.false_eq_true]

theorem fp_quad_two (A : FpArith α) (dst func : Buf α)
    (ha : A.isFuzzyZero (func 0) = false) (hd : A.lt (Double.quadD A func) A.zero = false)
    (hz : A.isFuzzyPositiveZero (Double.quadD A func) = false) :
    (Double.MathT_solve_Quadratic A dst func).1 = 2 := by
  unfold Double.quadD at hd hz
  simp only [Double.MathT_solve_Quadratic, ha, hd, hz, if_true, if_false, Bool.false_eq_true]

theorem fp_cubic_triple (A : FpArith α) (dst func : Buf α)
    (h0 : A.isFuzzyZero (func 0) = false) (hd : A.isFuzzyZero (Double.cubicD A func) = true)
    (hq : A.isFuzzyZero (Double.cubicQ A func) = true) :
    Double.MathT_solve_Cubic A dst func = (1, dst.set 0 (Double.cubicSub A func)) := by
  unfold Double.cubicD Double.cubicQ Double.cubicP Double.cubicA at hd
  unfold Double.cubicQ Double.cubicA at hq
  simp only [Double.MathT_solve_Cubic, h0, hd, hq, if_true, if_false, Bool.false_eq_true,
    Double.cubicSub, Double.cubicA]

theorem fp_cubic_double (A : FpArith α) (dst func : Buf α)
    (h0 : A.isFuzzyZero (func 0) = false) (hd : A.isFuzzyZero (Double.cubicD A func) = true)
    (hq : A.isFuzzyZero (Double.cubicQ A func) = false) :
    Double.MathT_solve_Cubic A dst func
      = (2, Double.sortPair A
          ((dst.set 0 (A.add (Double.cubicSub A func)
              (A.mul A.two (A.cbrt (A.neg (Double.cubicQ A func)))))).set 1
            (A.sub (Double.cubicSub A func) (A.cbrt (A.neg (Double.cubicQ A func))))) 0 1) := by
  unfold Double.cubicD Double.cubicQ Double.cubicP Double.cubicA at hd
  unfold Double.cubicQ Double.cubicA at hq
  simp only [Double.MathT_solve_Cubic, h0, hd, hq, if_true, if_false, Bool.false_eq_true,
    Double.cubicSub, Double.cubicA, Double.cubicQ]

end

section
variable {α : Type} [LinearOrderedField α]

theorem fp_exact_sortPair (M : MathEnv α) (d : Buf α) (i j : Nat) :
    Double.sortPair (FpArith.exact M) d i j = d.sortPair i j := by
  unfold Double.sortPair Buf.sortPair
  simp only [FpArith.exact, decide_eq_true_eq, gt_iff_lt]

/-- In the arithmetic of an ordered field the quadratic solver of this section
is the quadratic solver `Fog.MathT_solve_Quadratic`. -/
theorem fp_exact_quadratic (M : MathEnv α) (dst func : Buf α) :
    Double.MathT_solve_Quadratic (FpArith.exact M) dst func = MathT_solve_Quadratic M dst func := by
  unfold Double.MathT_solve_Quadratic Fog.MathT_solve_Quadratic
  simp only [fp_exact_sortPair]
  simp only [FpArith.exact, decide_eq_true_eq]

/-- In the arithmetic of an ordered field the cubic solver of this section is
the cubic solver `Fog.MathT_solve_Cubic`. -/
theorem fp_exact_cubic (M : MathEnv α) (dst func : Buf α) :
    Double.MathT_solve_Cubic (FpArith.exact M) dst func = MathT_solve_Cubic M dst func := by
  unfold Double.MathT_solve_Cubic Fog.MathT_solve_Cubic
  simp only [fp_exact_sortPair, fp_exact_quadratic]
  simp only [FpArith.exact, decide_eq_true_eq]

end

/-! ## Claims on the branches taken on the computed discriminants -/

/-- C12: whatever the arithmetic, when `a = func[0]` is not fuzzy-zero and `d` is
the value the code computes for `b * b - 4.0 * a * c`, `MathT_solve_Quadratic`
returns 0 (and leaves `dst` alone) if `d < 0`; returns 1 with
`dst[0] = -b / (2a)` if `d` is not below 0 and passes the fuzzy-zero test; and
returns 2 otherwise.  The branch is decided on the computed `d`, not on the
exact discriminant of the input. -/
theorem solve_Quadratic_by_computed_discriminant {α : Type} (A : FpArith α)
    (dst func : Buf α) (ha : A.isFuzzyZero (func 0) = false) :
    Double.quadD A func
      = A.sub (A.mul (func 1) (func 1)) (A.mul (A.mul A.four (func 0)) (func 2)) ∧
    (A.lt (Double.quadD A func) A.zero = true →
      Double.MathT_solve_Quadratic A dst func = (0, dst)) ∧
    (A.lt (Double.quadD A func) A.zero = false →
      A.isFuzzyPositiveZero (Double.quadD A func) = true →
      (Double.MathT_solve_Quadratic A dst func).1 = 1 ∧
      (Double.MathT_solve_Quadratic A dst func).2 0
        = A.div (A.neg (func 1)) (A.mul A.two (func 0))) ∧
    (A.lt (Double.quadD A func) A.zero = false →
      A.isFuzzyPositiveZero (Double.quadD A func) = false →
      (Double.MathT_solve_Quadratic A dst func).1 = 2) := by
  refine ⟨rfl, fun hd => fp_quad_none_of_neg A dst func ha hd, fun hd hz => ?_,
    fun hd hz => fp_quad_two A dst func ha hd hz⟩
  rw [fp_quad_double A dst func ha hd hz]
  exact ⟨rfl, Buf.set_same dst 0 _⟩

/-- C12, witness: in exact real arithmetic the quadratic `(1, 0, 1)` has the
discriminant `-4` and gives the count 0. -/
theorem solve_Quadratic_by_computed_discriminant_witness :
    (Double.MathT_solve_Quadratic (FpArith.exact (⟨1 / 10 ^ 14, Real.sqrt,
      fun x => if 0 ≤ x then x ^ ((1:ℝ) / 3) else -((-x) ^ ((1:ℝ) / 3)),
      Real.arccos, Real.cos, Real.pi / 3⟩ : MathEnv ℝ)) (fun _ => 0) (Buf.ofList [1, 0, 1])).1
      = 0 := by
  have h := (solve_Quadratic_by_computed_discriminant (FpArith.exact (⟨1 / 10 ^ 14, Real.sqrt,
      fun x => if 0 ≤ x then x ^ ((1:ℝ) / 3) else -((-x) ^ ((1:ℝ) / 3)),
      Real.arccos, Real.cos, Real.pi / 3⟩ : MathEnv ℝ)) (fun _ => 0) (Buf.ofList [1, 0, 1])
      (by norm_num [FpArith.exact, isFuzzyZero, Buf.ofList])).2.1
      (by norm_num [Double.quadD, FpArith.exact, Buf.ofList])
  rw [h]

/-- C21: whatever the arithmetic, when the leading coefficient is not fuzzy-zero
and the value `d` the code computes for `q * q + p3` passes the fuzzy-zero
test, `MathT_solve_Cubic` returns 1 with the single value
`sub = -MATH_1_DIV_3 * a` if `q` passes it too, and otherwise returns 2 with
the values `sub + 2u` and `sub - u`, `u = cbrt(-q)`, exchanged if the first is
above the second, so that `dst[0] > dst[1]` does not hold.  The branch is
decided on the computed `d`, not on the exact discriminant of the input. -/
theorem solve_Cubic_computed_discriminant_fuzzy {α : Type} (A : FpArith α)
    (dst func : Buf α) (h0 : A.isFuzzyZero (func 0) = false)
    (hd : A.isFuzzyZero (Double.cubicD A func) = true) :
    Double.cubicD A func
      = A.add (A.mul (Double.cubicQ A func) (Double.cubicQ A func))
          (A.mul (A.mul (Double.cubicP A func) (Double.cubicP A func)) (Double.cubicP A func)) ∧
    Double.cubicSub A func = A.mul (A.neg A.MATH_1_DIV_3) (A.div (func 1) (func 0)) ∧
    (A.isFuzzyZero (Double.cubicQ A func) = true →
      (Double.MathT_solve_Cubic A dst func).1 = 1 ∧
      (Double.MathT_solve_Cubic A dst func).2 0 = Double.cubicSub A func) ∧
    (A.isFuzzyZero (Double.cubicQ A func) = false →
      (Double.MathT_solve_Cubic A dst func).1 = 2 ∧
      (Double.MathT_solve_Cubic A dst func).2 0
        = (if A.lt (A.sub (Double.cubicSub A func) (A.cbrt (A.neg (Double.cubicQ A func))))
              (A.add (Double.cubicSub A func)
                (A.mul A.two (A.cbrt (A.neg (Double.cubicQ A func)))))
            then A.sub (Double.cubicSub A func) (A.cbrt (A.neg (Double.cubicQ A func)))
            else A.add (Double.cubicSub A func)
              (A.mul A.two (A.cbrt (A.neg (Double.cubicQ A func))))) ∧
      (Double.MathT_solve_Cubic A dst func).2 1
        = (if A.lt (A.sub (Double.cubicSub A func) (A.cbrt (A.neg (Double.cubicQ A func))))
              (A.add (Double.cubicSub A func)
                (A.mul A.two (A.cbrt (A.neg (Double.cubicQ A func)))))
            then A.add (Double.cubicSub A func)
              (A.mul A.two (A.cbrt (A.neg (Double.cubicQ A func))))
            else A.sub (Double.cubicSub A func) (A.cbrt (A.neg (Double.cubicQ A func)))) ∧
      ((∀ x y, A.lt x y = true → A.lt y x = false) →
        A.lt ((Double.MathT_solve_Cubic A dst func).2 1)
          ((Double.MathT_solve_Cubic A dst func).2 0) = false)) := by
  refine ⟨rfl, rfl, fun hq => ?_, fun hq => ?_⟩
  · rw [fp_cubic_triple A dst func h0 hd hq]
    exact ⟨rfl, Buf.set_same dst 0 _⟩
  · rw [fp_cubic_double A dst func h0 hd hq]
    dsimp only
    rw [(fp_sortPair_vals A dst _ _).1, (fp_sortPair_vals A dst _ _).2]
    refine ⟨rfl, rfl, rfl, fun hasym => ?_⟩
    split_ifs with h
    · exact hasym _ _ h
    · simpa using h

/-- C21, witness: in exact real arithmetic the cubic `(1, 0, -3, 2)`, that is
`(x - 1)^2 (x + 2)`, has the discriminant 0 and gives the two values `-2, 1`. -/
theorem solve_Cubic_computed_discriminant_fuzzy_witness :
    (Double.MathT_solve_Cubic (FpArith.exact (⟨1 / 10 ^ 14, Real.sqrt,
      fun x => if 0 ≤ x then x ^ ((1:ℝ) / 3) else -((-x) ^ ((1:ℝ) / 3)),
      Real.arccos, Real.cos, Real.pi / 3⟩ : MathEnv ℝ)) (fun _ => 0)
      (Buf.ofList [1, 0, -3, 2])).1 = 2 ∧
    (Double.MathT_solve_Cubic (FpArith.exact (⟨1 / 10 ^ 14, Real.sqrt,
      fun x => if 0 ≤ x then x ^ ((1:ℝ) / 3) else -((-x) ^ ((1:ℝ) / 3)),
      Real.arccos, Real.cos, Real.pi / 3⟩ : MathEnv ℝ)) (fun _ => 0)
      (Buf.ofList [1, 0, -3, 2])).2.take 2 = [-2, 1] := by
  have hA : Double.cubicA (FpArith.exact (⟨1 / 10 ^ 14, Real.sqrt,
      fun x => if 0 ≤ x then x ^ ((1:ℝ) / 3) else -((-x) ^ ((1:ℝ) / 3)),
      Real.arccos, Real.cos, Real.pi / 3⟩ : MathEnv ℝ)) (Buf.ofList [1, 0, -3, 2]) = 0 := by
    norm_num [Double.cubicA, FpArith.exact, Buf.ofList]
  have hQ : Double.cubicQ (FpArith.exact (⟨1 / 10 ^ 14, Real.sqrt,
      fun x => if 0 ≤ x then x ^ ((1:ℝ) / 3) else -((-x) ^ ((1:ℝ) / 3)),
      Real.arccos, Real.cos, Real.pi / 3⟩ : MathEnv ℝ)) (Buf.ofList [1, 0, -3, 2]) = 1 := by
    unfold Double.cubicQ
    rw [hA]
    norm_num [FpArith.exact, Buf.ofList]
  have hP : Double.cubicP (FpArith.exact (⟨1 / 10 ^ 14, Real.sqrt,
      fun x => if 0 ≤ x then x ^ ((1:ℝ) / 3) else -((-x) ^ ((1:ℝ) / 3)),
      Real.arccos, Real.cos, Real.pi / 3⟩ : MathEnv ℝ)) (Buf.ofList [1, 0, -3, 2]) = -1 := by
    unfold Double.cubicP
    rw [hA]
    norm_num [FpArith.exact, Buf.ofList]
  have hD : Double.cubicD (FpArith.exact (⟨1 / 10 ^ 14, Real.sqrt,
      fun x => if 0 ≤ x then x ^ ((1:ℝ) / 3) else -((-x) ^ ((1:ℝ) / 3)),
      Real.arccos, Real.cos, Real.pi / 3⟩ : MathEnv ℝ)) (Buf.ofList [1, 0, -3, 2]) = 0 := by
    unfold Double.cubicD
    rw [hQ, hP]
    norm_num [FpArith.exact]
  have hS : Double.cubicSub (FpArith.exact (⟨1 / 10 ^ 14, Real.sqrt,
      fun x => if 0 ≤ x then x ^ ((1:ℝ) / 3) else -((-x) ^ ((1:ℝ) / 3)),
      Real.arccos, Real.cos, Real.pi / 3⟩ : MathEnv ℝ)) (Buf.ofList [1, 0, -3, 2]) = 0 := by
    unfold Double.cubicSub
    rw [hA]
    norm_num [FpArith.exact]
  have h := (solve_Cubic_computed_discriminant_fuzzy (FpArith.exact (⟨1 / 10 ^ 14, Real.sqrt,
      fun x => if 0 ≤ x then x ^ ((1:ℝ) / 3) else -((-x) ^ ((1:ℝ) / 3)),
      Real.arccos, Real.cos, Real.pi / 3⟩ : MathEnv ℝ)) (fun _ => 0) (Buf.ofList [1, 0, -3, 2])
      (by norm_num [FpArith.exact, isFuzzyZero, Buf.ofList])
      (by rw [hD]; norm_num [FpArith.exact, isFuzzyZero])).2.2.2
      (by rw [hQ]; norm_num [FpArith.exact, isFuzzyZero])
  obtain ⟨h1, h2, h3, -⟩ := h
  refine ⟨h1, ?_⟩
  rw [hQ, hS] at h2 h3
  have hu : (FpArith.exact (⟨1 / 10 ^ 14, Real.sqrt,
      fun x => if 0 ≤ x then x ^ ((1:ℝ) / 3) else -((-x) ^ ((1:ℝ) / 3)),
      Real.arccos, Real.cos, Real.pi / 3⟩ : MathEnv ℝ)).cbrt
        ((FpArith.exact (⟨1 / 10 ^ 14, Real.sqrt,
      fun x => if 0 ≤ x then x ^ ((1:ℝ) / 3) else -((-x) ^ ((1:ℝ) / 3)),
      Real.arccos, Real.cos, Real.pi / 3⟩ : MathEnv ℝ)).neg 1) = -1 := by
    simp only [FpArith.exact]
    rw [if_neg (by norm_num)]
    norm_num
  rw [hu] at h2 h3
  simp only [Buf.take, List.range_succ, List.range_zero, List.nil_append, List.map_cons,
    List.map_nil, List.cons_append, h2, h3]
  norm_num [FpArith.exact]

end Fog
